import Mathlib

/-!
# Performance Manager Chart model (`PMCData.cpp`)

A shallow embedding of `PMCData::refresh`, `PMCData::indexOf` and the five point
queries of `src/src/PMCData.cpp`, followed by theorems about them.

Conventions of the embedding.

* `double` values are elements of a type `K` that carries the operations the source uses:
  sum, difference, product, quotient, negation, the conversion from `int` and the order.
  The definitions are generic in `K` and computable.  Theorems are proved for a linearly
  ordered field `K` (exact arithmetic; `K := ℚ` in the examples) unless they name
  `Binary64`, the IEEE 754 arithmetic of the C type `double`, in which each operation is
  rounded.  A statement that holds only without rounding says so.  The only place where the
  source looks at non-finite values is the metric value of a ride, which is a `Double K`
  (finite, infinite or NaN).
* `exp` from `<cmath>` is a parameter `exp : K → K` of `refresh`.
* `QDate` is `Option Int`: `none` is the null date `QDate()`, `some jd` a valid date
  with Julian day number `jd`.  Ride dates and season start dates are valid dates.
  The repository builds against Qt 4 and against Qt 5, whose `QDate::daysTo` differ on
  the null date; `Context.qt` is the version of the build and `QDate.daysToIn` the method.
* Day counts are integers, kept as `QDate::daysTo` computes them.  The source stores them in
  variables of type `int`: the two agree as long as the count is an `int` value (`fitsInt`),
  which the statements about arbitrary query dates assume.
* `QVector<double>` is `List K`.  `operator[]` outside the allocated range is
  undefined behaviour in the source; here it is the error `Fault.indexOutOfRange`,
  so `refresh` and the queries return `Except Fault _`.
-/

namespace PMC

/-! ## Qt value types -/

/-- The Qt type `QDate`: `none` is the null date `QDate()`, `some jd` the valid date with Julian day `jd`. -/
abbrev QDate := Option Int

/-- The constructor `QDate(y, m, d)` for the Gregorian calendar (Julian day number of a calendar date). -/
def QDate.ofYMD (year month day : Int) : QDate :=
  let a := (14 - month) / 12
  let y := year + 4800 - a
  let m := month + 12 * a - 3
  some (day + (153 * m + 2) / 5 + 365 * y + y / 4 - y / 100 + y / 400 - 32045)

/-- The comparison `QDate::operator<` compares Julian day numbers; the null date is below every valid date. -/
def QDate.lt : QDate → QDate → Bool
  | none, some _ => true
  | some a, some b => decide (a < b)
  | _, none => false

/-- The method `QDate::daysTo` of Qt 5: `0` when either date is null, the difference of Julian
days otherwise. -/
def QDate.daysTo : QDate → QDate → Int
  | some a, some b => b - a
  | _, _ => 0

/-- The Qt major version the program is built against. The repository builds with Qt 4 and
with Qt 5 (see the `QT_VERSION` guards of ComparePane.cpp, lines 341 and 486). -/
inductive QtVersion where
  | qt4
  | qt5
  deriving DecidableEq, Repr

/-- The Julian day number Qt 4 stores in a `QDate`: the null date `QDate()` has `jd = 0`
(valid dates have a positive one). -/
def QDate.jd4 : QDate → Int
  | some a => a
  | none => 0

/-- The method `QDate::daysTo` as the build has it. On two valid dates both versions return
the difference of the Julian day numbers. When a date is null, Qt 5 returns `0`
(`QDate.daysTo`) and Qt 4 returns `d.jd - jd` with `jd = 0` for the null date. -/
def QDate.daysToIn (qt : QtVersion) : QDate → QDate → Int
  | some a, some b => b - a
  | a, b =>
    match qt with
    | .qt5 => QDate.daysTo a b
    | .qt4 => QDate.jd4 b - QDate.jd4 a

/-- The method `QDate::addDays`: a null date stays null. -/
def QDate.addDays : QDate → Int → QDate
  | some a, n => some (a + n)
  | none, _ => none

/-- The Qt type `QVariant` as read by `appsettings->cvalue`: `none` is a null variant,
`some n` a variant whose `toInt()` is `n`. -/
abbrev QVariant := Option Int

/-- The method `QVariant::isNull`. -/
def QVariant.isNull (v : QVariant) : Bool := v.isNone

/-- The method `QVariant::toInt` (a null variant converts to `0`). -/
def QVariant.toInt (v : QVariant) : Int := v.getD 0

/-- A C `double`: a finite value (an element of `K`), an infinity, or NaN. -/
inductive Double (K : Type) where
  | finite (v : K)
  | posInf
  | negInf
  | nan

/-- The function `std::isinf`. -/
def Double.isinf {K : Type} : Double K → Bool
  | .posInf => true
  | .negInf => true
  | _ => false

/-- The function `std::isnan`. -/
def Double.isnan {K : Type} : Double K → Bool
  | .nan => true
  | _ => false

/-- The undefined behaviour of the source made explicit: an index outside a `QVector`. -/
inductive Fault where
  | indexOutOfRange
  deriving DecidableEq, Repr

/-- The Qt type `QVector<double>`. -/
abbrev QVector (K : Type) := List K

section Vectors
variable {K : Type} [Zero K] [One K] [Add K] [Sub K] [Mul K] [Neg K] [Div K] [IntCast K]
  [LT K] [LE K] [DecidableRel (@LT.lt K _)] [DecidableRel (@LE.le K _)]

/-- The element at position `j` of the storage (`0.0` beyond the end, where the source never
looks: `QVector.read` guards every access). -/
def QVector.val (v : QVector K) (j : Nat) : K := v.getD j 0

/-- The read `v[i]` as an rvalue: defined only for `0 ≤ i < v.count()`. -/
def QVector.read (v : QVector K) (i : Int) : Except Fault K :=
  if 0 ≤ i ∧ i < (v.length : Int) then pure (QVector.val v i.toNat) else throw Fault.indexOutOfRange

/-- The write `v[i] = x`: defined only for `0 ≤ i < v.count()`. -/
def QVector.write (v : QVector K) (i : Int) (x : K) : Except Fault (QVector K) :=
  if 0 ≤ i ∧ i < (v.length : Int) then pure (v.set i.toNat x) else throw Fault.indexOutOfRange

/-- The call `v.resize(n)`: keeps the first `n` elements and pads with `0.0`. -/
def QVector.resize (v : QVector K) (n : Int) : QVector K :=
  v.take n.toNat ++ List.replicate (n.toNat - v.length) 0

/-- The call `v.fill(x)`: every element becomes `x`, the size is unchanged. -/
def QVector.fill (v : QVector K) (x : K) : QVector K :=
  List.replicate v.length x

end Vectors

/-! ## IEEE 754 binary64 arithmetic

The type `Binary64` carries the arithmetic of the C type `double` on finite values: each
operation is the exact operation followed by rounding to the nearest representable value,
ties to even (the default rounding mode). Every finite binary64 value is an integer multiple
of `2^(-1074)` whose integer has at most 53 significant bits; `Binary64` stores that integer.
Overflow is not modelled (a result beyond the largest finite value stays finite), and a
division by zero returns `0`; `decay` tests for a zero constant before it divides. -/

/-- The number of binary digits of `n` (`0` for `0`), found by bisection; exact for
`n < 2^8192`, which covers every operation on finite binary64 values. -/
def bitLength (n : Nat) : Nat :=
  if n = 0 then 0
  else
    [4096, 2048, 1024, 512, 256, 128, 64, 32, 16, 8, 4, 2, 1].foldl
      (fun lo k => if n >>> (lo + k) = 0 then lo else lo + k) 0 + 1

/-- Rounding to binary64. The exact value is `P * 2^(-1074 - shift)`; the result is the
integer `n` of the nearest representable value `n * 2^(-1074)`, ties to even: `P` is rounded
to a multiple of `2^u`, where `u` is the larger of `shift` (the grid of the subnormal values)
and the bit length of `P` minus 53 (the 53 significant bits of a normal value). -/
def roundGrid (P : Int) (shift : Nat) : Int :=
  let a := P.natAbs
  let u := max shift (bitLength a - 53)
  let q := a >>> u
  let r := a - (q <<< u)
  let half := (1 <<< u) / 2
  let q := if u = 0 ∨ r < half then q
    else if half < r then q + 1
    else if q % 2 = 0 then q else q + 1
  let res : Int := ((q <<< (u - shift) : Nat) : Int)
  if P < 0 then -res else res

/-- A finite `double`: the integer `n` stands for the value `n * 2^(-1074)`. -/
structure Binary64 where
  n : Int
  deriving DecidableEq, Repr

/-- The binary64 value `m * 2^e`, for `e ≥ -1074` and `m` of at most 53 bits. -/
def Binary64.dyadic (m : Int) (e : Int) : Binary64 :=
  ⟨m * (((1 : Nat) <<< (e + 1074).toNat : Nat) : Int)⟩

/-- The value of a binary64 number as a rational. -/
def Binary64.toRat (x : Binary64) : ℚ := (x.n : ℚ) / 2 ^ 1074

/-- The binary64 value nearest to the exact value `P * 2^(-1074 - shift)`. -/
def Binary64.round (P : Int) (shift : Nat) : Binary64 := ⟨roundGrid P shift⟩

instance : Zero Binary64 := ⟨⟨0⟩⟩

instance : One Binary64 := ⟨⟨(((1 : Nat) <<< 1074 : Nat) : Int)⟩⟩

instance : Add Binary64 := ⟨fun a b => ⟨roundGrid (a.n + b.n) 0⟩⟩

instance : Sub Binary64 := ⟨fun a b => ⟨roundGrid (a.n - b.n) 0⟩⟩

instance : Mul Binary64 := ⟨fun a b => ⟨roundGrid (a.n * b.n) 1074⟩⟩

instance : Neg Binary64 := ⟨fun a => ⟨-a.n⟩⟩

/-- The conversion of an `int` to `double`. -/
instance : IntCast Binary64 := ⟨fun k => ⟨roundGrid (k * (((1 : Nat) <<< 1074 : Nat) : Int)) 0⟩⟩

/-- The quotient of two binary64 values: the integer quotient of the scaled operands with a
sticky bit for the remainder, rounded once. -/
def Binary64.div (a b : Binary64) : Binary64 :=
  if b.n = 0 then 0
  else
    let num := a.n.natAbs <<< 3274
    let q := num / b.n.natAbs
    let sticky := if num % b.n.natAbs = 0 then 0 else 1
    let r := roundGrid ((2 * q + sticky : Nat) : Int) 2201
    if decide (a.n < 0) = decide (b.n < 0) then ⟨r⟩ else ⟨-r⟩

instance : Div Binary64 := ⟨Binary64.div⟩

/-- The order of binary64 values is the order of their integers. -/
instance : LinearOrder Binary64 :=
  LinearOrder.lift' Binary64.n (fun a b h => by cases a; cases b; simpa using h)

/-! ## Collaborators: seasons, rides, configuration -/

/-- Modelled from the spec: `Season` (Season.h is not among the sources). A season record
exposes its start date (`getStart()`) and its seed (`getSeed()`, an integer, `0` when no
seed is declared). -/
structure Season where
  start : Int
  seed : Int
  deriving DecidableEq, Repr

/-- Modelled from the spec: `RideItem` (RideItem.h is not among the sources). A ride exposes
its date (`dateTime.date()`) and the value of a named metric (`getForSymbol`). -/
structure RideItem (K : Type) where
  date : Int
  getForSymbol : String → Double K

/-- Modelled from the spec: the part of `Context` that `PMCData` reads: the seasons of the
athlete, the ride cache (`rideCache->rides()`), and the three per-athlete settings
`GC_LTS_DAYS`, `GC_STS_DAYS`, `GC_SB_TODAY`; together with the Qt version of the build, which
decides what `QDate::daysTo` returns for a null date. -/
structure Context (K : Type) where
  qt : QtVersion
  seasons : List Season
  rides : List (RideItem K)
  GC_LTS_DAYS : QVariant
  GC_STS_DAYS : QVariant
  GC_SB_TODAY : QVariant

/-- The member variables of `PMCData`. `specification_` is the filter
(`Specification::pass`). -/
structure PMCData (K : Type) where
  specification_ : RideItem K → Bool
  metricName_ : String
  stsDays_ : Int
  ltsDays_ : Int
  useDefaults : Bool
  isstale : Bool
  start_ : QDate
  end_ : QDate
  days_ : Int
  stress_ : QVector K
  lts_ : QVector K
  sts_ : QVector K
  sb_ : QVector K
  rr_ : QVector K

/-! ## `PMCData::refresh` -/

/-- The sentinel `QDate(9999,12,31)` of lines 108 and 118. -/
def sentinelDate : QDate := QDate.ofYMD 9999 12 31

/-- Lines 44-45 / 75-76 / 50-51 / 79-80: a setting that is null or zero gives the default. -/
def configDays (v : QVariant) (dflt : Int) : Int :=
  if v.isNull || v.toInt == 0 then dflt else v.toInt

/-- Lines 92-95: the earliest start date of a season that declares a seed. -/
def earliestSeed (seasons : List Season) : QDate :=
  seasons.foldl
    (fun seed x => if x.seed ≠ 0 ∧ (seed = none ∨ QDate.lt (some x.start) seed = true)
      then some x.start else seed)
    none

/-- Lines 99-105, `first`: the date of the first ride, null when there is no ride. -/
def firstRide {K : Type} (rides : List (RideItem K)) : QDate :=
  if rides.length ≠ 0 then rides.head?.map RideItem.date else none

/-- Lines 99-105, `last`: the date of the last ride, null when there is no ride. -/
def lastRide {K : Type} (rides : List (RideItem K)) : QDate :=
  if rides.length ≠ 0 then rides.getLast?.map RideItem.date else none

/-- Lines 108-110 and 118: the start of the span. -/
def resolveStart (seed first : QDate) : QDate :=
  let start_ := sentinelDate
  let start_ := if seed ≠ none ∧ QDate.lt seed start_ = true then seed else start_
  let start_ := if first ≠ none ∧ QDate.lt first start_ = true then first else start_
  if start_ = sentinelDate then none else start_

/-- Lines 113-115: the end of the span. -/
def resolveEnd (seed last : QDate) : QDate :=
  if QDate.lt seed last = true then last.addDays 365
  else if seed ≠ none then seed.addDays 365
  else none

section Refresh
variable {K : Type} [Zero K] [One K] [Add K] [Sub K] [Mul K] [Neg K] [Div K] [IntCast K]
  [LT K] [LE K] [DecidableRel (@LT.lt K _)] [DecidableRel (@LE.le K _)]

/-- Lines 152-153: `exp(-1.0/n)`. For `n = 0` the quotient is `-inf` in IEEE arithmetic and
`exp(-inf)` is `0`. -/
def decay (exp : K → K) (n : Int) : K :=
  if n = 0 then 0 else exp (-1 / (n : K))

/-- Lines 163-169: the seeds of the seasons go, negated, into `lts_` and `sts_`. -/
def placeSeeds (qt : QtVersion) (start_ : QDate) (seasons : List Season) (lts_ sts_ : QVector K) :
    Except Fault (QVector K × QVector K) :=
  seasons.foldlM
    (fun acc x =>
      if x.seed ≠ 0 then do
        let offset := QDate.daysToIn qt start_ (some x.start)
        let lts_ ← QVector.write acc.1 offset ((x.seed * -1 : Int) : K)
        let sts_ ← QVector.write acc.2 offset ((x.seed * -1 : Int) : K)
        pure (lts_, sts_)
      else pure acc)
    (lts_, sts_)

/-- Lines 172-186: the metric values of the rides that pass the filter are added to the
stress of their day. The index is guarded by `offset > 0 && offset < stress_.count()`; the
value is added when `!std::isinf(value) && !std::isnan(value)`, that is when it is
`Double.finite` (see `Double.finite_iff`). -/
def addStress (qt : QtVersion) (spec : RideItem K → Bool) (metricName : String) (start_ : QDate)
    (rides : List (RideItem K)) (stress_ : QVector K) : QVector K :=
  rides.foldl
    (fun stress_ item =>
      if !spec item then stress_
      else
        let offset := QDate.daysToIn qt start_ (some item.date)
        if 0 < offset ∧ offset < (stress_.length : Int) then
          match item.getForSymbol metricName with
          | .finite value => stress_.set offset.toNat (QVector.val stress_ offset.toNat + value)
          | _ => stress_
        else stress_)
    stress_

/-- The variables the loop of lines 196-230 reads and writes. -/
structure LoopVars (K : Type) where
  lts_ : QVector K
  sts_ : QVector K
  sb_ : QVector K
  rr_ : QVector K
  lastLTS : K
  lastSTS : K
  rollingStress : K

/-- Lines 198-213 of the loop body: the long and short term loads of `day`. -/
def loadStep (stress_ : QVector K) (lte ste : K) (v : LoopVars K) (day : Int) :
    Except Fault (LoopVars K) := do
  let l ← QVector.read v.lts_ day
  let notSeeded ← (if 0 ≤ l then pure true
    else do let s ← QVector.read v.sts_ day; pure (decide (0 ≤ s)))
  if notSeeded then
    let lastLTS ← (if day ≠ 0 then QVector.read v.lts_ (day - 1) else pure v.lastLTS)
    let x ← QVector.read stress_ day
    let lts_ ← QVector.write v.lts_ day (x * (1 - lte) + lastLTS * lte)
    let lastSTS ← (if day ≠ 0 then QVector.read v.sts_ (day - 1) else pure v.lastSTS)
    let x ← QVector.read stress_ day
    let sts_ ← QVector.write v.sts_ day (x * (1 - ste) + lastSTS * ste)
    pure { v with lts_ := lts_, sts_ := sts_, lastLTS := lastLTS, lastSTS := lastSTS }
  else
    let l ← QVector.read v.lts_ day
    let seeded ← (if l < 0 then pure true
      else do let s ← QVector.read v.sts_ day; pure (decide (s < 0)))
    if seeded then
      let l ← QVector.read v.lts_ day
      let lts_ ← QVector.write v.lts_ day (l * -1)
      let s ← QVector.read v.sts_ day
      let sts_ ← QVector.write v.sts_ day (s * -1)
      pure { v with lts_ := lts_, sts_ := sts_ }
    else pure v

/-- Lines 215-224 of the loop body: the rolling stress and the ramp rate of `day`. -/
def rampStep (stsDays_ : Int) (v : LoopVars K) (day : Int) : Except Fault (LoopVars K) := do
  if day ≠ 0 ∧ day ≤ stsDays_ then
    let a ← QVector.read v.lts_ day
    let b ← QVector.read v.lts_ (day - 1)
    let rollingStress := v.rollingStress + (a - b)
    let rr_ ← QVector.write v.rr_ day rollingStress
    pure { v with rr_ := rr_, rollingStress := rollingStress }
  else if day ≠ 0 then
    let a ← QVector.read v.lts_ day
    let b ← QVector.read v.lts_ (day - 1)
    let rollingStress := v.rollingStress + (a - b)
    let c ← QVector.read v.lts_ (day - stsDays_)
    let d ← QVector.read v.lts_ (day - stsDays_ - 1)
    let rollingStress := rollingStress - (c - d)
    let rr_ ← QVector.write v.rr_ day rollingStress
    pure { v with rr_ := rr_, rollingStress := rollingStress }
  else pure v

/-- Lines 226-229 of the loop body: the stress balance, today or tomorrow. -/
def balanceStep (sbToday : Bool) (v : LoopVars K) (day : Int) : Except Fault (LoopVars K) := do
  let a ← QVector.read v.lts_ day
  let b ← QVector.read v.sts_ day
  let sb_ ← QVector.write v.sb_ (day + (if sbToday then 0 else 1)) (a - b)
  pure { v with sb_ := sb_ }

/-- One iteration of the loop of lines 196-230. -/
def decayStep (stress_ : QVector K) (stsDays_ : Int) (sbToday : Bool) (lte ste : K)
    (v : LoopVars K) (day : Int) : Except Fault (LoopVars K) := do
  let v ← loadStep stress_ lte ste v day
  let v ← rampStep stsDays_ v day
  balanceStep sbToday v day

/-- The loop of lines 196-230, `for (int day = 0; day < days_; day++)`. -/
def decayLoop (stress_ : QVector K) (stsDays_ : Int) (sbToday : Bool) (lte ste : K)
    (days_ : Int) (v : LoopVars K) : Except Fault (LoopVars K) :=
  (List.range days_.toNat).foldlM
    (fun v (day : Nat) => decayStep stress_ stsDays_ sbToday lte ste v (day : Int)) v

/-- Lines 72-81: the time constants are read again when they were defaulted. -/
def rereadConfig (ctx : Context K) (m : PMCData K) : PMCData K :=
  if m.useDefaults then
    { m with ltsDays_ := configDays ctx.GC_LTS_DAYS 42, stsDays_ := configDays ctx.GC_STS_DAYS 7 }
  else m

/-- The method `PMCData::refresh` (lines 67-235). -/
def refresh (ctx : Context K) (exp : K → K) (m : PMCData K) : Except Fault (PMCData K) :=
  if !m.isstale then pure m
  else
    let m := rereadConfig ctx m
    -- STEP ONE: the date range
    let seed := earliestSeed ctx.seasons
    let first := firstRide ctx.rides
    let last := lastRide ctx.rides
    let start_ := resolveStart seed first
    let end_ := resolveEnd seed last
    if start_ ≠ none ∧ end_ ≠ none ∧ QDate.lt start_ end_ = true then do
      let days_ := QDate.daysToIn ctx.qt start_ end_ + 1
      let stress_ := QVector.resize m.stress_ days_
      let lts_ := QVector.resize m.lts_ days_
      let sts_ := QVector.resize m.sts_ days_
      let sb_ := QVector.resize m.sb_ (days_ + 1)
      let rr_ := QVector.resize m.rr_ days_
      -- STEP TWO: seeds and ride values
      let sbToday := decide (ctx.GC_SB_TODAY.toInt ≠ 0)
      let lte := decay exp m.ltsDays_
      let ste := decay exp m.stsDays_
      let stress_ := QVector.fill stress_ 0
      let lts_ := QVector.fill lts_ 0
      let sts_ := QVector.fill sts_ 0
      let sb_ := QVector.fill sb_ 0
      let rr_ := QVector.fill rr_ 0
      let (lts_, sts_) ← placeSeeds ctx.qt start_ ctx.seasons lts_ sts_
      let stress_ := addStress ctx.qt m.specification_ m.metricName_ start_ ctx.rides stress_
      -- STEP THREE: sts/lts, sb and rr
      let v ← decayLoop stress_ m.stsDays_ sbToday lte ste days_
        { lts_ := lts_, sts_ := sts_, sb_ := sb_, rr_ := rr_,
          lastLTS := 0, lastSTS := 0, rollingStress := 0 }
      pure { m with
        start_ := start_, end_ := end_, days_ := days_, stress_ := stress_,
        lts_ := v.lts_, sts_ := v.sts_, sb_ := v.sb_, rr_ := v.rr_, isstale := false }
    else
      -- nothing to calculate; the function returns before `isstale=false`
      pure { m with
        start_ := none, end_ := none, days_ := 0,
        stress_ := QVector.resize m.stress_ 0, lts_ := QVector.resize m.lts_ 0,
        sts_ := QVector.resize m.sts_ 0, sb_ := QVector.resize m.sb_ 0,
        rr_ := QVector.resize m.rr_ 0 }

/-- The method `PMCData::invalidate` (lines 62-65). -/
def invalidate (m : PMCData K) : PMCData K := { m with isstale := true }

/-- The constructor `PMCData::PMCData` (lines 36-60): the constructor resolves the time constants and
refreshes. -/
def PMCData.new (ctx : Context K) (exp : K → K) (spec : RideItem K → Bool)
    (metricName : String) (stsDays ltsDays : Int) : Except Fault (PMCData K) :=
  let m : PMCData K :=
    { specification_ := spec, metricName_ := metricName, stsDays_ := stsDays,
      ltsDays_ := ltsDays, useDefaults := false, isstale := true,
      start_ := none, end_ := none, days_ := 0,
      stress_ := [], lts_ := [], sts_ := [], sb_ := [], rr_ := [] }
  let m := if ltsDays < 0 then
      { m with ltsDays_ := configDays ctx.GC_LTS_DAYS 42, useDefaults := true } else m
  let m := if stsDays < 0 then
      { m with stsDays_ := configDays ctx.GC_STS_DAYS 7, useDefaults := true } else m
  refresh ctx exp m

/-! ## Point queries -/

/-- The values of the C type `int` (32 bits). Line 243 stores the day offset, a `qint64` under
Qt 5, in an `int`; the embedding keeps the offset as `QDate::daysTo` computes it, which is the
value the program holds whenever the offset is an `int` value. Statements about arbitrary
query dates carry `fitsInt` of the offset as a hypothesis. -/
def fitsInt (n : Int) : Prop := -2147483648 ≤ n ∧ n ≤ 2147483647

instance (n : Int) : Decidable (fitsInt n) := by unfold fitsInt; infer_instance

/-- The method `PMCData::indexOf` (lines 237-249). -/
def indexOf (ctx : Context K) (exp : K → K) (m : PMCData K) (date : QDate) :
    Except Fault (Int × PMCData K) := do
  let m ← refresh ctx exp m
  let returning := QDate.daysToIn ctx.qt m.start_ date
  let returning := if returning < 0 ∨ returning ≥ m.days_ then -1 else returning
  pure (returning, m)

/-- The common body of the point queries (lines 251-299), for the series `series`. -/
def pointQuery (series : PMCData K → QVector K) (ctx : Context K) (exp : K → K)
    (m : PMCData K) (date : QDate) : Except Fault (K × PMCData K) := do
  let m ← refresh ctx exp m
  let (index, m) ← indexOf ctx exp m date
  if index = -1 then pure (0, m)
  else do
    let x ← QVector.read (series m) index
    pure (x, m)

/-- The method `PMCData::lts` (lines 251-259). -/
def lts (ctx : Context K) (exp : K → K) (m : PMCData K) (date : QDate) :
    Except Fault (K × PMCData K) :=
  pointQuery PMCData.lts_ ctx exp m date

/-- The method `PMCData::sts` (lines 261-269). -/
def sts (ctx : Context K) (exp : K → K) (m : PMCData K) (date : QDate) :
    Except Fault (K × PMCData K) :=
  pointQuery PMCData.sts_ ctx exp m date

/-- The method `PMCData::stress` (lines 271-279). -/
def stress (ctx : Context K) (exp : K → K) (m : PMCData K) (date : QDate) :
    Except Fault (K × PMCData K) :=
  pointQuery PMCData.stress_ ctx exp m date

/-- The method `PMCData::sb` (lines 281-289). -/
def sb (ctx : Context K) (exp : K → K) (m : PMCData K) (date : QDate) :
    Except Fault (K × PMCData K) :=
  pointQuery PMCData.sb_ ctx exp m date

/-- The method `PMCData::rr` (lines 291-299). -/
def rr (ctx : Context K) (exp : K → K) (m : PMCData K) (date : QDate) :
    Except Fault (K × PMCData K) :=
  pointQuery PMCData.rr_ ctx exp m date

end Refresh

/-! ## Colour helpers -/

section Colours
variable {K : Type} [LinearOrderedField K]

/-- Modelled from the spec: `QColor` (a Qt type, not among the sources): a colour given by
its red, green and blue components. -/
structure QColor where
  red : Nat
  green : Nat
  blue : Nat
  deriving DecidableEq, Repr

/-- The global colour `Qt::red`. -/
def Qt.red : QColor := ⟨255, 0, 0⟩

/-- The global colour `Qt::green`. -/
def Qt.green : QColor := ⟨0, 255, 0⟩

/-- The global colour `Qt::blue`. -/
def Qt.blue : QColor := ⟨0, 0, 255⟩

/-- The method `PMCData::ltsColor` (lines 301-309). -/
def ltsColor (value : K) (defaultColor : QColor) : QColor :=
  if value > 80 then Qt.green
  else if value > 100 then Qt.blue
  else defaultColor

/-- The method `PMCData::stsColor` (lines 311-314). -/
def stsColor (_value : K) (defaultColor : QColor) : QColor := defaultColor

/-- The method `PMCData::sbColor` (lines 316-322). -/
def sbColor (value : K) (defaultColor : QColor) : QColor :=
  if value < -40 then Qt.red else defaultColor

/-- The method `PMCData::rrColor` (lines 324-329). -/
def rrColor (value : K) (defaultColor : QColor) : QColor :=
  if value < -4 ∨ value > 8 then Qt.red else defaultColor

end Colours

/-! ## The loop body when every index is in range

The functions below are the loop body of lines 196-230 with plain list operations in place
of the guarded accesses. `decayStep_eq` and `decayLoop_eq` prove that the guarded loop returns
exactly their result when the series have the allocated lengths and `0 ≤ stsDays_`. -/

section Mirror
variable {K : Type} [Zero K] [One K] [Add K] [Sub K] [Mul K] [Neg K] [Div K] [IntCast K]
  [LT K] [LE K] [DecidableRel (@LT.lt K _)] [DecidableRel (@LE.le K _)]


/-- Effect of `loadStep` on day `k` when every index is in range. -/
def loadP (stress_ : QVector K) (lte ste : K) (v : LoopVars K) (k : Nat) : LoopVars K :=
  let l := QVector.val v.lts_ k
  let s := QVector.val v.sts_ k
  if 0 ≤ l ∨ 0 ≤ s then
    let lastLTS := if k ≠ 0 then QVector.val v.lts_ (k - 1) else v.lastLTS
    let lastSTS := if k ≠ 0 then QVector.val v.sts_ (k - 1) else v.lastSTS
    { v with
      lts_ := v.lts_.set k (QVector.val stress_ k * (1 - lte) + lastLTS * lte),
      sts_ := v.sts_.set k (QVector.val stress_ k * (1 - ste) + lastSTS * ste),
      lastLTS := lastLTS, lastSTS := lastSTS }
  else
    { v with lts_ := v.lts_.set k (l * -1), sts_ := v.sts_.set k (s * -1) }

/-- Effect of `rampStep` on day `k` when every index is in range (`0 ≤ stsDays_`). -/
def rampP (stsDays_ : Int) (v : LoopVars K) (k : Nat) : LoopVars K :=
  if k = 0 then v
  else
    let r := v.rollingStress + (QVector.val v.lts_ k - QVector.val v.lts_ (k - 1))
    let r := if (k : Int) ≤ stsDays_ then r
      else r - (QVector.val v.lts_ (k - stsDays_.toNat)
                - QVector.val v.lts_ (k - stsDays_.toNat - 1))
    { v with rr_ := v.rr_.set k r, rollingStress := r }

/-- Effect of `balanceStep` on day `k` when every index is in range. -/
def balanceP (sbToday : Bool) (v : LoopVars K) (k : Nat) : LoopVars K :=
  { v with
    sb_ := v.sb_.set (k + (if sbToday then 0 else 1))
      (QVector.val v.lts_ k - QVector.val v.sts_ k) }

/-- Effect of `decayStep` on day `k` when every index is in range. -/
def stepP (stress_ : QVector K) (stsDays_ : Int) (sbToday : Bool) (lte ste : K)
    (v : LoopVars K) (k : Nat) : LoopVars K :=
  balanceP sbToday (rampP stsDays_ (loadP stress_ lte ste v k) k) k

/-- Effect of the first `k` iterations of `decayLoop` when every index is in range. -/
def loopP (stress_ : QVector K) (stsDays_ : Int) (sbToday : Bool) (lte ste : K)
    (v : LoopVars K) : Nat → LoopVars K
  | 0 => v
  | k + 1 => stepP stress_ stsDays_ sbToday lte ste (loopP stress_ stsDays_ sbToday lte ste v k) k

end Mirror

/-! ## Predicates used in the proofs -/

section ProofDefs
variable {K : Type} [Zero K] [One K] [Add K] [Sub K] [Mul K] [Neg K] [Div K] [IntCast K]
  [LT K] [LE K] [DecidableRel (@LT.lt K _)] [DecidableRel (@LE.le K _)]

/-- The value `loadStep` leaves at `day` in a load series: `own` is the value found there,
`other` the value found in the other load series, `prev` the previous day's value. -/
def newLoad (x own other prev e : K) : K :=
  if 0 ≤ own ∨ 0 ≤ other then x * (1 - e) + prev * e else own * -1

/-- The lengths of the series, as allocated by lines 124-129. -/
structure Sized (n : Nat) (v : LoopVars K) : Prop where
  lts : v.lts_.length = n
  sts : v.sts_.length = n
  sb : v.sb_.length = n + 1
  rr : v.rr_.length = n

/-- The state of the loop variables before the first iteration (lines 156-169, 191-194):
the load series hold the negated seeds, the balance and ramp series are zero. -/
def initVars (L0 S0 : QVector K) (n : Nat) : LoopVars K :=
  { lts_ := L0, sts_ := S0, sb_ := List.replicate (n + 1) 0, rr_ := List.replicate n 0,
    lastLTS := 0, lastSTS := 0, rollingStress := 0 }

/-- What holds of the loop variables after `k` iterations of the loop, started from
`initVars L0 S0 n`. -/
structure LoopInv (X : QVector K) (sd : Int) (sbToday : Bool) (lte ste : K)
    (L0 S0 : QVector K) (k : Nat) (v : LoopVars K) : Prop where
  first : k = 0 → v.lastLTS = 0 ∧ v.lastSTS = 0
  ltsLater : ∀ j, k ≤ j → QVector.val v.lts_ j = QVector.val L0 j
  stsLater : ∀ j, k ≤ j → QVector.val v.sts_ j = QVector.val S0 j
  rrLater : ∀ j, k ≤ j → QVector.val v.rr_ j = 0
  sbLater : ∀ j, (j < (if sbToday then 0 else 1) ∨ k + (if sbToday then 0 else 1) ≤ j) →
    QVector.val v.sb_ j = 0
  ltsDone : ∀ j, j < k → QVector.val v.lts_ j =
    if 0 ≤ QVector.val L0 j ∨ 0 ≤ QVector.val S0 j then
      QVector.val X j * (1 - lte) + (if j = 0 then 0 else QVector.val v.lts_ (j - 1)) * lte
    else QVector.val L0 j * -1
  stsDone : ∀ j, j < k → QVector.val v.sts_ j =
    if 0 ≤ QVector.val L0 j ∨ 0 ≤ QVector.val S0 j then
      QVector.val X j * (1 - ste) + (if j = 0 then 0 else QVector.val v.sts_ (j - 1)) * ste
    else QVector.val S0 j * -1
  roll : v.rollingStress =
    if k = 0 then 0 else QVector.val v.lts_ (k - 1) - QVector.val v.lts_ (k - 1 - sd.toNat)
  rrDone : ∀ j, j < k → QVector.val v.rr_ j = QVector.val v.lts_ j - QVector.val v.lts_ (j - sd.toNat)
  sbDone : ∀ j, j < k → QVector.val v.sb_ (j + (if sbToday then 0 else 1)) =
    QVector.val v.lts_ j - QVector.val v.sts_ j

/-- What holds of the two load series after `k` iterations of the loop, started from
`initVars L0 S0 n`, in any arithmetic. -/
structure LoadInv (X : QVector K) (lte ste : K) (L0 S0 : QVector K) (k : Nat)
    (v : LoopVars K) : Prop where
  first : k = 0 → v.lastLTS = 0 ∧ v.lastSTS = 0
  ltsLater : ∀ j, k ≤ j → QVector.val v.lts_ j = QVector.val L0 j
  stsLater : ∀ j, k ≤ j → QVector.val v.sts_ j = QVector.val S0 j
  ltsDone : ∀ j, j < k → QVector.val v.lts_ j =
    if 0 ≤ QVector.val L0 j ∨ 0 ≤ QVector.val S0 j then
      QVector.val X j * (1 - lte) + (if j = 0 then 0 else QVector.val v.lts_ (j - 1)) * lte
    else QVector.val L0 j * -1
  stsDone : ∀ j, j < k → QVector.val v.sts_ j =
    if 0 ≤ QVector.val L0 j ∨ 0 ≤ QVector.val S0 j then
      QVector.val X j * (1 - ste) + (if j = 0 then 0 else QVector.val v.sts_ (j - 1)) * ste
    else QVector.val S0 j * -1

end ProofDefs

/-! ## Seeds and dates, as used in the statements -/

section SeedDefs
variable {K : Type} [Zero K] [One K] [Add K] [Sub K] [Mul K] [Neg K] [Div K] [IntCast K]
  [LT K] [LE K] [DecidableRel (@LT.lt K _)] [DecidableRel (@LE.le K _)]

/-- Effect of the writes of `placeSeeds` on one series when every offset is in range. -/
def seedsP (s : Int) (seasons : List Season) (acc : QVector K) : QVector K :=
  seasons.foldl
    (fun acc x => if x.seed ≠ 0 then acc.set (x.start - s).toNat ((x.seed * -1 : Int) : K) else acc)
    acc

/-- The seed that is in force on date `d`: the seed of the last season of the list that
declares a seed and starts on `d` (later writes of lines 166-167 overwrite earlier ones). -/
def seedFor (d : Int) : List Season → Option Int
  | [] => none
  | x :: xs =>
    match seedFor d xs with
    | some M => some M
    | none => if x.seed ≠ 0 ∧ x.start = d then some x.seed else none

/-- The value that lines 166-167 leave in a load series on date `d` before the loop runs: the
negated seed in force on `d`, `0.0` when no seeded season starts on `d`. -/
def seedValue (d : Int) (seasons : List Season) : K :=
  match seedFor d seasons with
  | some M => ((M * -1 : Int) : K)
  | none => 0

/-- The start of the span that `refresh` resolves for a context (lines 92-118). -/
def spanStart (ctx : Context K) : QDate :=
  resolveStart (earliestSeed ctx.seasons) (firstRide ctx.rides)

/-- The end of the span that `refresh` resolves for a context (lines 92-118). -/
def spanEnd (ctx : Context K) : QDate :=
  resolveEnd (earliestSeed ctx.seasons) (lastRide ctx.rides)

/-- The state `refresh` leaves when the range is not valid (lines 133-144). -/
def emptied (m : PMCData K) : PMCData K :=
  { m with start_ := none, end_ := none, days_ := 0,
           stress_ := [], lts_ := [], sts_ := [], sb_ := [], rr_ := [] }

/-- The value a query returns, without the updated model. -/
def value (r : Except Fault (K × PMCData K)) : Except Fault K :=
  r.map Prod.fst

end SeedDefs

section ComputedDefs
variable {K : Type} [Zero K] [One K] [Add K] [Sub K] [Mul K] [Neg K] [Div K] [IntCast K]
  [LT K] [LE K] [DecidableRel (@LT.lt K _)] [DecidableRel (@LE.le K _)]

/-- The number of days of the range from `s` to `e` (line 124), as a natural number. -/
def spanDays (s e : Int) : Nat := (e - s + 1).toNat

/-- The load series after the seeding of lines 163-169, for a range from `s` to `e`, when
every offset is in range. -/
def seedSeries (ctx : Context K) (s e : Int) : QVector K :=
  seedsP s ctx.seasons (List.replicate (spanDays s e) 0)

/-- The stress series after lines 172-186, for a range from `s` to `e`. -/
def stressSeries (ctx : Context K) (m : PMCData K) (s e : Int) : QVector K :=
  addStress ctx.qt m.specification_ m.metricName_ (some s) ctx.rides
    (List.replicate (spanDays s e) 0)

/-- The loop variables after the loop of lines 196-230, for a range from `s` to `e`, when
every index is in range. -/
def finalVars (ctx : Context K) (exp : K → K) (m : PMCData K) (s e : Int) : LoopVars K :=
  loopP (stressSeries ctx (rereadConfig ctx m) s e) (rereadConfig ctx m).stsDays_
    (decide (ctx.GC_SB_TODAY.toInt ≠ 0))
    (decay exp (rereadConfig ctx m).ltsDays_) (decay exp (rereadConfig ctx m).stsDays_)
    (initVars (seedSeries ctx s e) (seedSeries ctx s e) (spanDays s e)) (spanDays s e)

/-- The state `refresh` leaves for a valid range from `s` to `e` when every index is in
range: the fields of lines 124-129 and 151-234, with the loop replaced by `loopP` and the
seeding by `seedsP`. `refresh_valid` proves that `refresh` returns exactly this state. -/
def computed (ctx : Context K) (exp : K → K) (m : PMCData K) (s e : Int) : PMCData K :=
  { rereadConfig ctx m with
    start_ := some s, end_ := some e, days_ := e - s + 1,
    stress_ := stressSeries ctx (rereadConfig ctx m) s e,
    lts_ := (finalVars ctx exp m s e).lts_, sts_ := (finalVars ctx exp m s e).sts_,
    sb_ := (finalVars ctx exp m s e).sb_, rr_ := (finalVars ctx exp m s e).rr_,
    isstale := false }

end ComputedDefs

/-! ## Reachable states -/

section StateDefs
variable {K : Type} [Zero K] [One K] [Add K] [Sub K] [Mul K] [Neg K] [Div K] [IntCast K]
  [LT K] [LE K] [DecidableRel (@LT.lt K _)] [DecidableRel (@LE.le K _)]

/-- The states a `PMCData` object can be in: the state the constructor leaves, and every
state that `invalidate` or a `refresh` (every query starts with one) leaves from there, the
context being free to change between the calls. -/
inductive Reachable : PMCData K → Prop where
  | new (ctx : Context K) (exp : K → K) (spec : RideItem K → Bool) (metricName : String)
      (stsDays ltsDays : Int) (m : PMCData K)
      (h : PMCData.new ctx exp spec metricName stsDays ltsDays = pure m) : Reachable m
  | invalidate (m : PMCData K) (h : Reachable m) : Reachable (invalidate m)
  | refresh (ctx : Context K) (exp : K → K) (m m' : PMCData K) (h : Reachable m)
      (hr : refresh ctx exp m = pure m') : Reachable m'

/-- The range of a model is empty (null dates, zero days) or runs from a date `s` to a later
date `e` over `e - s + 1` days. -/
def RangeShape (m : PMCData K) : Prop :=
  (m.start_ = none ∧ m.end_ = none ∧ m.days_ = 0) ∨
    ∃ s e, m.start_ = some s ∧ m.end_ = some e ∧ s < e ∧ m.days_ = e - s + 1

/-- The model the constructor has built when it calls `refresh` (lines 36-53). -/
def constructed (ctx : Context K) (spec : RideItem K → Bool) (metricName : String)
    (stsDays ltsDays : Int) : PMCData K :=
  { specification_ := spec, metricName_ := metricName,
    stsDays_ := if stsDays < 0 then configDays ctx.GC_STS_DAYS 7 else stsDays,
    ltsDays_ := if ltsDays < 0 then configDays ctx.GC_LTS_DAYS 42 else ltsDays,
    useDefaults := decide (ltsDays < 0 ∨ stsDays < 0), isstale := true,
    start_ := none, end_ := none, days_ := 0,
    stress_ := [], lts_ := [], sts_ := [], sb_ := [], rr_ := [] }

/-- The empty shape of a model: no day, null dates, and five series of length `0`. -/
def EmptyShape (m : PMCData K) : Prop :=
  m.days_ = 0 ∧ m.start_ = none ∧ m.end_ = none ∧ m.stress_.length = 0 ∧
    m.lts_.length = 0 ∧ m.sts_.length = 0 ∧ m.sb_.length = 0 ∧ m.rr_.length = 0

/-- The shape of a model over a range: `start_ ≤ end_`, `days_ = start_.daysTo(end_) + 1`, the
stress, load and ramp series of length `days_` and the balance series of length
`days_ + 1`. -/
def SpanShape (m : PMCData K) : Prop :=
  (∃ s e, m.start_ = some s ∧ m.end_ = some e ∧ s ≤ e) ∧
    m.days_ = QDate.daysTo m.start_ m.end_ + 1 ∧
    (m.stress_.length : Int) = m.days_ ∧ (m.lts_.length : Int) = m.days_ ∧
    (m.sts_.length : Int) = m.days_ ∧ (m.rr_.length : Int) = m.days_ ∧
    (m.sb_.length : Int) = m.days_ + 1

/-- The start date a `refresh` leaves, or the fault. -/
def startOf (r : Except Fault (PMCData K)) : Except Fault QDate := r.map PMCData.start_

/-- The end date a `refresh` leaves, or the fault. -/
def endOf (r : Except Fault (PMCData K)) : Except Fault QDate := r.map PMCData.end_

end StateDefs

/-! ## Daily stress, as used in the statements -/

section StressDefs
variable {K : Type} [Zero K] [One K] [Add K] [Sub K] [Mul K] [Neg K] [Div K] [IntCast K]
  [LT K] [LE K] [DecidableRel (@LT.lt K _)] [DecidableRel (@LE.le K _)]

/-- What a ride adds to the stress of date `d`: its metric value when the ride is dated `d`,
passes the filter and the value is finite; nothing otherwise. -/
def rideStress (spec : RideItem K → Bool) (metricName : String) (d : Int) (r : RideItem K) : K :=
  if spec r = true ∧ r.date = d then
    match r.getForSymbol metricName with
    | .finite value => value
    | _ => 0
  else 0

/-- The sum of the metric values of the rides dated `d` that pass the filter and whose value
is finite. -/
def dayStress (spec : RideItem K → Bool) (metricName : String) (d : Int)
    (rides : List (RideItem K)) : K :=
  (rides.map (rideStress spec metricName d)).sum

end StressDefs

/-! ## Example inputs -/

/-- A stand-in for `exp` in the examples (every theorem holds for every `exp`). -/
def exExp : ℚ → ℚ := fun _ => 1 / 2

/-- The Julian day number of 2015-01-01. -/
def exDay : Int := 2457024

/-- A ride on date `d` whose every metric has the finite value `x`. -/
def exRide (d : Int) (x : ℚ) : RideItem ℚ :=
  { date := d, getForSymbol := fun _ => Double.finite x }

/-- A context with the given seasons and rides and no stored setting. -/
def exContext (seasons : List Season) (rides : List (RideItem ℚ)) : Context ℚ :=
  { qt := QtVersion.qt5, seasons := seasons, rides := rides,
    GC_LTS_DAYS := none, GC_STS_DAYS := none, GC_SB_TODAY := none }

/-- A stale model with the explicit constants 7 and 42 and a filter that passes every ride,
as the constructor builds it before its first `refresh`. -/
def exModel : PMCData ℚ :=
  { specification_ := fun _ => true, metricName_ := "coggan_tss", stsDays_ := 7,
    ltsDays_ := 42, useDefaults := false, isstale := true,
    start_ := none, end_ := none, days_ := 0,
    stress_ := [], lts_ := [], sts_ := [], sb_ := [], rr_ := [] }

/-- No ride, no season. -/
def exEmpty : Context ℚ := exContext [] []

/-- One ride worth 50 on 2015-01-01, no season. -/
def exOneRide : Context ℚ := exContext [] [exRide exDay 50]

/-- Two rides, on 2015-01-01 and on the next day, no season. -/
def exTwoRides : Context ℚ := exContext [] [exRide exDay 50, exRide (exDay + 1) 64]

/-- One season that starts on 2015-01-01 with seed 5, no ride. -/
def exSeed : Context ℚ := exContext [⟨exDay, 5⟩] []

/-- One season that starts on 2015-01-01 with the negative seed -5, no ride. -/
def exNegSeed : Context ℚ := exContext [⟨exDay, -5⟩] []

/-- One season that starts on 9999-12-31 with seed 5, no ride. -/
def exLateSeed : Context ℚ := exContext [⟨5373484, 5⟩] []

/-- One ride on 9999-12-31, no season. -/
def exLateRide : Context ℚ := exContext [] [exRide 5373484 50]

/-- One ride on 2015-01-01 and one season that starts ten days later with seed 5. -/
def exRideThenSeed : Context ℚ := exContext [⟨exDay + 10, 5⟩] [exRide exDay 50]

/-- Two seasons with seed 5, starting on 2015-01-01 and a hundred days later, no ride. -/
def exTwoSeeds : Context ℚ := exContext [⟨exDay, 5⟩, ⟨exDay + 100, 5⟩] []

/-- Two seasons with seed 5, starting on 2015-01-01 and a thousand days later, no ride. -/
def exFarSeeds : Context ℚ := exContext [⟨exDay, 5⟩, ⟨exDay + 1000, 5⟩] []

/-- No ride, no season, and a stored short-term constant of `-3`. -/
def exNegConfig : Context ℚ :=
  { qt := QtVersion.qt5, seasons := [], rides := [], GC_LTS_DAYS := none,
    GC_STS_DAYS := some (-3),
    GC_SB_TODAY := none }

/-- The state `refresh` leaves for `exOneRide`. -/
def exOneRideDone : PMCData ℚ := computed exOneRide exExp exModel exDay (exDay + 365)

/-- The state `refresh` leaves for `exTwoRides`. -/
def exTwoRidesDone : PMCData ℚ := computed exTwoRides exExp exModel exDay (exDay + 366)

/-- The context `exSeed` in a build against Qt 4. -/
def exSeedQt4 : Context ℚ := { exSeed with qt := QtVersion.qt4 }

/-- The state `refresh` leaves for `exSeedQt4`. -/
def exSeedQt4Done : PMCData ℚ := computed exSeedQt4 exExp exModel exDay (exDay + 365)

/-- The state `refresh` leaves for `exSeed`. -/
def exSeedDone : PMCData ℚ := computed exSeed exExp exModel exDay (exDay + 365)

/-- The state `refresh` leaves for `exNegSeed`. -/
def exNegSeedDone : PMCData ℚ := computed exNegSeed exExp exModel exDay (exDay + 365)

/-- The state `refresh` leaves for `exRideThenSeed`. -/
def exRideThenSeedDone : PMCData ℚ := computed exRideThenSeed exExp exModel exDay (exDay + 375)

/-- The state `refresh` leaves for `exTwoSeeds`. -/
def exTwoSeedsDone : PMCData ℚ := computed exTwoSeeds exExp exModel exDay (exDay + 365)

/-! ## Example inputs in binary64 -/

/-- The values the C library returns for `exp` at the arguments the examples use, in
binary64: `exp(-1.0) = 0.36787944117144233`, `exp(-1.0/42) = 0.9764716866522433` and
`exp(-1.0/7) = 0.8668778997501816` (the binary64 values nearest to the exact ones). -/
def exExp64 : Binary64 → Binary64 := fun x =>
  if x = -1 then Binary64.dyadic 828390857088487 (-51)
  else if x = -1 / ((42 : Int) : Binary64) then Binary64.dyadic 8795275048289765 (-53)
  else if x = -1 / ((7 : Int) : Binary64) then Binary64.dyadic 976017746572659 (-50)
  else 0

/-- The binary64 value `31.000000000000004`, the successor of `31`. -/
def exPeak : Binary64 := Binary64.dyadic 8725724278030337 (-48)

/-- A ride on date `d` whose every metric has the finite binary64 value `x`. -/
def exRide64 (d : Int) (x : Binary64) : RideItem Binary64 :=
  { date := d, getForSymbol := fun _ => Double.finite x }

/-- A stale model with the explicit constants `stsDays` and `ltsDays` and a filter that
passes every ride, in binary64. -/
def exModel64 (stsDays ltsDays : Int) : PMCData Binary64 :=
  { specification_ := fun _ => true, metricName_ := "coggan_tss", stsDays_ := stsDays,
    ltsDays_ := ltsDays, useDefaults := false, isstale := true,
    start_ := none, end_ := none, days_ := 0,
    stress_ := [], lts_ := [], sts_ := [], sb_ := [], rr_ := [] }

/-- One season that starts on 2015-01-01 with seed 31 and two rides worth
`31.000000000000004` on the two following days, in binary64. -/
def exOvershoot : Context Binary64 :=
  { qt := QtVersion.qt5, seasons := [⟨exDay, 31⟩],
    rides := [exRide64 (exDay + 1) exPeak, exRide64 (exDay + 2) exPeak],
    GC_LTS_DAYS := none, GC_STS_DAYS := none, GC_SB_TODAY := none }

/-- The state `refresh` leaves for `exOvershoot` with both constants `1`. -/
def exOvershootDone : PMCData Binary64 :=
  computed exOvershoot exExp64 (exModel64 1 1) exDay (exDay + 367)

/-- One season that starts on 2015-01-01 with seed 5, no ride, in binary64. -/
def exSeed64 : Context Binary64 :=
  { qt := QtVersion.qt5, seasons := [⟨exDay, 5⟩], rides := [],
    GC_LTS_DAYS := none, GC_STS_DAYS := none, GC_SB_TODAY := none }

/-- The state `refresh` leaves for `exSeed64` with the constants 7 and 42. -/
def exSeed64Done : PMCData Binary64 :=
  computed exSeed64 exExp64 (exModel64 7 42) exDay (exDay + 365)

/-! # Theorems -/

set_option linter.unusedSectionVars false

section Loop
variable {K : Type} [LinearOrder K] [Zero K] [One K] [Add K] [Sub K] [Mul K] [Neg K] [Div K]
  [IntCast K]

/-! ## Vectors -/

theorem Double.finite_iff (d : Double K) :
    (!d.isinf && !d.isnan) = true ↔ ∃ v, d = Double.finite v := by
  cases d <;> simp [Double.isinf, Double.isnan]

theorem QVector.val_set (l : QVector K) (i j : Nat) (a : K) :
    QVector.val (l.set i a) j = if i = j ∧ i < l.length then a else QVector.val l j := by
  simp only [QVector.val, List.getD_eq_getElem?_getD, List.getElem?_set]
  by_cases h : i = j
  · subst h
    by_cases h2 : i < l.length
    · simp [h2]
    · simp [h2, List.getElem?_eq_none (not_lt.mp h2)]
  · simp [h]

theorem QVector.val_replicate (n j : Nat) : QVector.val (List.replicate n (0 : K)) j = 0 := by
  simp only [QVector.val, List.getD_eq_getElem?_getD, List.getElem?_replicate]
  split_ifs <;> simp

theorem QVector.read_eq (v : QVector K) (i : Int) (j : Nat) (hi : i = (j : Int)) (hj : j < v.length) :
    QVector.read v i = pure (QVector.val v j) := by
  subst hi
  have : ((j : Int) < (v.length : Int)) := by exact_mod_cast hj
  simp [QVector.read, this]

theorem QVector.write_eq (v : QVector K) (i : Int) (j : Nat) (x : K) (hi : i = (j : Int))
    (hj : j < v.length) : QVector.write v i x = pure (v.set j x) := by
  subst hi
  have : ((j : Int) < (v.length : Int)) := by exact_mod_cast hj
  simp [QVector.write, this]

theorem QVector.fill_resize (v : QVector K) (n : Int) (x : K) :
    QVector.fill (QVector.resize v n) x = List.replicate n.toNat x := by
  simp only [QVector.fill, QVector.resize, List.length_append, List.length_take,
    List.length_replicate]
  congr 1
  omega

theorem loadStep_eq (stress_ : QVector K) (lte ste : K) (v : LoopVars K) (k n : Nat)
    (hk : k < n) (hx : stress_.length = n) (hl : v.lts_.length = n) (hs : v.sts_.length = n) :
    loadStep stress_ lte ste v (k : Int) = pure (loadP stress_ lte ste v k) := by
  have r1 : QVector.read v.lts_ (k : Int) = pure (QVector.val v.lts_ k) :=
    QVector.read_eq _ _ _ rfl (by omega)
  have r2 : QVector.read v.sts_ (k : Int) = pure (QVector.val v.sts_ k) :=
    QVector.read_eq _ _ _ rfl (by omega)
  have r3 : QVector.read stress_ (k : Int) = pure (QVector.val stress_ k) :=
    QVector.read_eq _ _ _ rfl (by omega)
  have w1 : ∀ x, QVector.write v.lts_ (k : Int) x = pure (v.lts_.set k x) :=
    fun x => QVector.write_eq _ _ _ x rfl (by omega)
  have w2 : ∀ x, QVector.write v.sts_ (k : Int) x = pure (v.sts_.set k x) :=
    fun x => QVector.write_eq _ _ _ x rfl (by omega)
  have r4 : k ≠ 0 → QVector.read v.lts_ ((k : Int) - 1) = pure (QVector.val v.lts_ (k - 1)) :=
    fun h => QVector.read_eq _ _ _ (by omega) (by omega)
  have r5 : k ≠ 0 → QVector.read v.sts_ ((k : Int) - 1) = pure (QVector.val v.sts_ (k - 1)) :=
    fun h => QVector.read_eq _ _ _ (by omega) (by omega)
  unfold loadStep loadP
  simp only [r1, r2, r3, w1, w2, pure_bind]
  by_cases h0 : k = 0
  · subst h0
    by_cases hl0 : 0 ≤ QVector.val v.lts_ 0 <;> by_cases hs0 : 0 ≤ QVector.val v.sts_ 0 <;>
      simp [hl0, hs0, lt_of_not_le]
  · have hk0 : ¬ ((k : Int) = 0) := by omega
    by_cases hl0 : 0 ≤ QVector.val v.lts_ k <;> by_cases hs0 : 0 ≤ QVector.val v.sts_ k <;>
      simp [h0, hk0, hl0, hs0, r4 h0, r5 h0, lt_of_not_le]

theorem rampStep_eq (stsDays_ : Int) (v : LoopVars K) (k n : Nat)
    (hk : k < n) (hsd : 0 ≤ stsDays_) (hl : v.lts_.length = n) (hr : v.rr_.length = n) :
    rampStep stsDays_ v (k : Int) = pure (rampP stsDays_ v k) := by
  unfold rampStep rampP
  by_cases h0 : k = 0
  · simp [h0]
  · have hk0 : ¬ ((k : Int) = 0) := by omega
    have r1 : QVector.read v.lts_ (k : Int) = pure (QVector.val v.lts_ k) :=
      QVector.read_eq _ _ _ rfl (by omega)
    have r2 : QVector.read v.lts_ ((k : Int) - 1) = pure (QVector.val v.lts_ (k - 1)) :=
      QVector.read_eq _ _ _ (by omega) (by omega)
    have w1 : ∀ x, QVector.write v.rr_ (k : Int) x = pure (v.rr_.set k x) :=
      fun x => QVector.write_eq _ _ _ x rfl (by omega)
    by_cases hle : (k : Int) ≤ stsDays_
    · simp [h0, hk0, hle, r1, r2, w1]
    · have r3 : QVector.read v.lts_ ((k : Int) - stsDays_)
          = pure (QVector.val v.lts_ (k - stsDays_.toNat)) :=
        QVector.read_eq _ _ _ (by omega) (by omega)
      have r4 : QVector.read v.lts_ ((k : Int) - stsDays_ - 1)
          = pure (QVector.val v.lts_ (k - stsDays_.toNat - 1)) :=
        QVector.read_eq _ _ _ (by omega) (by omega)
      simp [h0, hk0, hle, r1, r2, r3, r4, w1]

theorem balanceStep_eq (sbToday : Bool) (v : LoopVars K) (k n : Nat)
    (hk : k < n) (hl : v.lts_.length = n) (hs : v.sts_.length = n) (hb : v.sb_.length = n + 1) :
    balanceStep sbToday v (k : Int) = pure (balanceP sbToday v k) := by
  have r1 : QVector.read v.lts_ (k : Int) = pure (QVector.val v.lts_ k) :=
    QVector.read_eq _ _ _ rfl (by omega)
  have r2 : QVector.read v.sts_ (k : Int) = pure (QVector.val v.sts_ k) :=
    QVector.read_eq _ _ _ rfl (by omega)
  have w1 : ∀ x, QVector.write v.sb_ ((k : Int) + (if sbToday = true then 0 else 1)) x
      = pure (v.sb_.set (k + (if sbToday = true then 0 else 1)) x) :=
    fun x => QVector.write_eq _ _ _ x (by cases sbToday <;> simp) (by cases sbToday <;> simp <;> omega)
  unfold balanceStep balanceP
  simp [r1, r2, w1]

theorem loadP_sized (stress_ : QVector K) (lte ste : K) (v : LoopVars K) (k n : Nat)
    (h : Sized n v) : Sized n (loadP stress_ lte ste v k) := by
  obtain ⟨h1, h2, h3, h4⟩ := h
  constructor <;> (unfold loadP; dsimp only; split_ifs <;> simp [*])

theorem rampP_sized (stsDays_ : Int) (v : LoopVars K) (k n : Nat)
    (h : Sized n v) : Sized n (rampP stsDays_ v k) := by
  obtain ⟨h1, h2, h3, h4⟩ := h
  constructor <;> (unfold rampP; dsimp only; split_ifs <;> simp [*])

theorem balanceP_sized (sbToday : Bool) (v : LoopVars K) (k n : Nat)
    (h : Sized n v) : Sized n (balanceP sbToday v k) := by
  obtain ⟨h1, h2, h3, h4⟩ := h
  unfold balanceP
  constructor <;> simp [*]

theorem stepP_sized (stress_ : QVector K) (stsDays_ : Int) (sbToday : Bool) (lte ste : K)
    (v : LoopVars K) (k n : Nat) (h : Sized n v) :
    Sized n (stepP stress_ stsDays_ sbToday lte ste v k) :=
  balanceP_sized _ _ _ _ (rampP_sized _ _ _ _ (loadP_sized _ _ _ _ _ _ h))

theorem loopP_sized (stress_ : QVector K) (stsDays_ : Int) (sbToday : Bool) (lte ste : K)
    (v : LoopVars K) (n : Nat) (h : Sized n v) (k : Nat) :
    Sized n (loopP stress_ stsDays_ sbToday lte ste v k) := by
  induction k with
  | zero => exact h
  | succ k ih => exact stepP_sized _ _ _ _ _ _ _ _ ih

theorem decayStep_eq (stress_ : QVector K) (stsDays_ : Int) (sbToday : Bool) (lte ste : K)
    (v : LoopVars K) (k n : Nat) (hk : k < n) (hsd : 0 ≤ stsDays_)
    (hx : stress_.length = n) (h : Sized n v) :
    decayStep stress_ stsDays_ sbToday lte ste v (k : Int)
      = pure (stepP stress_ stsDays_ sbToday lte ste v k) := by
  have h1 := loadP_sized stress_ lte ste v k n h
  have h2 := rampP_sized stsDays_ _ k n h1
  unfold decayStep stepP
  rw [loadStep_eq stress_ lte ste v k n hk hx h.lts h.sts, pure_bind,
    rampStep_eq stsDays_ _ k n hk hsd h1.lts h1.rr, pure_bind,
    balanceStep_eq sbToday _ k n hk h2.lts h2.sts h2.sb]

theorem foldlM_range_eq (stress_ : QVector K) (stsDays_ : Int) (sbToday : Bool) (lte ste : K)
    (v : LoopVars K) (n : Nat) (hsd : 0 ≤ stsDays_) (hx : stress_.length = n) (h : Sized n v)
    (k : Nat) (hk : k ≤ n) :
    (List.range k).foldlM
        (fun v (day : Nat) => decayStep stress_ stsDays_ sbToday lte ste v (day : Int)) v
      = pure (loopP stress_ stsDays_ sbToday lte ste v k) := by
  induction k with
  | zero => simp [loopP]
  | succ k ih =>
    rw [List.range_succ, List.foldlM_append, ih (by omega), pure_bind]
    simp only [List.foldlM_cons, List.foldlM_nil, bind_pure]
    rw [decayStep_eq stress_ stsDays_ sbToday lte ste _ k n (by omega) hsd hx
      (loopP_sized _ _ _ _ _ _ _ h k)]
    rfl

theorem decayLoop_eq (stress_ : QVector K) (stsDays_ : Int) (sbToday : Bool) (lte ste : K)
    (v : LoopVars K) (days_ : Int) (hsd : 0 ≤ stsDays_) (hx : stress_.length = days_.toNat)
    (h : Sized days_.toNat v) :
    decayLoop stress_ stsDays_ sbToday lte ste days_ v
      = pure (loopP stress_ stsDays_ sbToday lte ste v days_.toNat) :=
  foldlM_range_eq stress_ stsDays_ sbToday lte ste v _ hsd hx h _ le_rfl

theorem loadP_lts (X : QVector K) (lte ste : K) (v : LoopVars K) (k : Nat) :
    (loadP X lte ste v k).lts_ = v.lts_.set k
      (newLoad (QVector.val X k) (QVector.val v.lts_ k) (QVector.val v.sts_ k)
        (if k = 0 then v.lastLTS else QVector.val v.lts_ (k - 1)) lte) := by
  unfold loadP newLoad
  dsimp only
  split_ifs <;> simp_all

theorem loadP_sts (X : QVector K) (lte ste : K) (v : LoopVars K) (k : Nat) :
    (loadP X lte ste v k).sts_ = v.sts_.set k
      (newLoad (QVector.val X k) (QVector.val v.sts_ k) (QVector.val v.lts_ k)
        (if k = 0 then v.lastSTS else QVector.val v.sts_ (k - 1)) ste) := by
  unfold loadP newLoad
  have e : (0 ≤ QVector.val v.sts_ k ∨ 0 ≤ QVector.val v.lts_ k)
      ↔ (0 ≤ QVector.val v.lts_ k ∨ 0 ≤ QVector.val v.sts_ k) := or_comm
  simp only [e]
  split_ifs <;> simp_all

theorem loadP_rest (X : QVector K) (lte ste : K) (v : LoopVars K) (k : Nat) :
    (loadP X lte ste v k).sb_ = v.sb_ ∧ (loadP X lte ste v k).rr_ = v.rr_ ∧
      (loadP X lte ste v k).rollingStress = v.rollingStress := by
  unfold loadP
  by_cases hc : 0 ≤ QVector.val v.lts_ k ∨ 0 ≤ QVector.val v.sts_ k <;> simp [hc]

theorem rampP_rest (sd : Int) (v : LoopVars K) (k : Nat) :
    (rampP sd v k).lts_ = v.lts_ ∧ (rampP sd v k).sts_ = v.sts_ ∧ (rampP sd v k).sb_ = v.sb_ := by
  unfold rampP
  split_ifs <;> simp

theorem rampP_zero (sd : Int) (v : LoopVars K) : rampP sd v 0 = v := by
  simp [rampP]

end Loop

section LoopField
variable {K : Type} [LinearOrderedField K]

theorem rampP_roll (sd : Int) (v : LoopVars K) (k : Nat) (hk : k ≠ 0) :
    (rampP sd v k).rollingStress =
      v.rollingStress + (QVector.val v.lts_ k - QVector.val v.lts_ (k - 1))
        - (if (k : Int) ≤ sd then 0
            else QVector.val v.lts_ (k - sd.toNat) - QVector.val v.lts_ (k - sd.toNat - 1)) ∧
    (rampP sd v k).rr_ = v.rr_.set k (rampP sd v k).rollingStress := by
  unfold rampP
  split_ifs <;> simp_all

theorem stepP_fields (X : QVector K) (sd : Int) (sbToday : Bool) (lte ste : K) (v : LoopVars K)
    (k n : Nat) (hk : k < n) (h : Sized n v) :
    (∀ j, QVector.val (stepP X sd sbToday lte ste v k).lts_ j =
      if j = k then
        newLoad (QVector.val X k) (QVector.val v.lts_ k) (QVector.val v.sts_ k)
          (if k = 0 then v.lastLTS else QVector.val v.lts_ (k - 1)) lte
      else QVector.val v.lts_ j) ∧
    (∀ j, QVector.val (stepP X sd sbToday lte ste v k).sts_ j =
      if j = k then
        newLoad (QVector.val X k) (QVector.val v.sts_ k) (QVector.val v.lts_ k)
          (if k = 0 then v.lastSTS else QVector.val v.sts_ (k - 1)) ste
      else QVector.val v.sts_ j) ∧
    ((stepP X sd sbToday lte ste v k).rollingStress =
      if k = 0 then v.rollingStress
      else v.rollingStress
        + (QVector.val (stepP X sd sbToday lte ste v k).lts_ k
            - QVector.val (stepP X sd sbToday lte ste v k).lts_ (k - 1))
        - (if (k : Int) ≤ sd then 0
            else QVector.val (stepP X sd sbToday lte ste v k).lts_ (k - sd.toNat)
              - QVector.val (stepP X sd sbToday lte ste v k).lts_ (k - sd.toNat - 1))) ∧
    (∀ j, QVector.val (stepP X sd sbToday lte ste v k).rr_ j =
      if j = k ∧ k ≠ 0 then (stepP X sd sbToday lte ste v k).rollingStress
      else QVector.val v.rr_ j) ∧
    (∀ j, QVector.val (stepP X sd sbToday lte ste v k).sb_ j =
      if j = k + (if sbToday then 0 else 1) then
        QVector.val (stepP X sd sbToday lte ste v k).lts_ k
          - QVector.val (stepP X sd sbToday lte ste v k).sts_ k
      else QVector.val v.sb_ j) := by
  have h1 := loadP_sized X lte ste v k n h
  have h2 := rampP_sized sd _ k n h1
  obtain ⟨r1, r2, r3⟩ := rampP_rest sd (loadP X lte ste v k) k
  obtain ⟨l3, l4, l5⟩ := loadP_rest X lte ste v k
  have eL : (stepP X sd sbToday lte ste v k).lts_ = (loadP X lte ste v k).lts_ := by
    simp [stepP, balanceP, r1]
  have eS : (stepP X sd sbToday lte ste v k).sts_ = (loadP X lte ste v k).sts_ := by
    simp [stepP, balanceP, r2]
  have eR : (stepP X sd sbToday lte ste v k).rollingStress
      = (rampP sd (loadP X lte ste v k) k).rollingStress := by
    simp [stepP, balanceP]
  have eRR : (stepP X sd sbToday lte ste v k).rr_ = (rampP sd (loadP X lte ste v k) k).rr_ := by
    simp [stepP, balanceP]
  have eB : (stepP X sd sbToday lte ste v k).sb_ = v.sb_.set (k + (if sbToday then 0 else 1))
      (QVector.val (loadP X lte ste v k).lts_ k - QVector.val (loadP X lte ste v k).sts_ k) := by
    simp [stepP, balanceP, r1, r2, r3, l3]
  refine ⟨?_, ?_, ?_, ?_, ?_⟩
  · intro j
    rw [eL, loadP_lts, QVector.val_set]
    have := h.lts
    by_cases hj : j = k
    · subst hj; simp [this, hk]
    · have : ¬ (k = j) := fun e => hj e.symm
      simp [hj, this]
  · intro j
    rw [eS, loadP_sts, QVector.val_set]
    have := h.sts
    by_cases hj : j = k
    · subst hj; simp [this, hk]
    · have : ¬ (k = j) := fun e => hj e.symm
      simp [hj, this]
  · rw [eR, eL]
    by_cases h0 : k = 0
    · subst h0; rw [rampP_zero]; simp [l5]
    · rw [(rampP_roll sd _ k h0).1, l5]; simp [h0]
  · intro j
    rw [eRR, eR]
    by_cases h0 : k = 0
    · subst h0; rw [rampP_zero]; simp [l4]
    · rw [(rampP_roll sd _ k h0).2, QVector.val_set, l4]
      have := h.rr
      by_cases hj : j = k
      · subst hj; simp [this, hk, h0]
      · have : ¬ (k = j) := fun e => hj e.symm
        simp [hj, this]
  · intro j
    rw [eB, eL, eS, QVector.val_set]
    have := h.sb
    by_cases hj : j = k + (if sbToday then 0 else 1)
    · subst hj
      have : k + (if sbToday = true then 0 else 1) < v.sb_.length := by
        cases sbToday <;> simp <;> omega
      simp [this]
    · have : ¬ (k + (if sbToday then 0 else 1) = j) := fun e => hj e.symm
      simp [hj, this]

theorem LoopInv.init (X : QVector K) (sd : Int) (sbToday : Bool) (lte ste : K)
    (L0 S0 : QVector K) (n : Nat) :
    LoopInv X sd sbToday lte ste L0 S0 0 (initVars L0 S0 n) := by
  constructor <;> simp [initVars, QVector.val_replicate]

theorem LoopInv.step (X : QVector K) (sd : Int) (sbToday : Bool) (lte ste : K)
    (L0 S0 : QVector K) (n k : Nat) (v : LoopVars K) (hk : k < n) (hsd : 0 ≤ sd)
    (hs : Sized n v) (h : LoopInv X sd sbToday lte ste L0 S0 k v) :
    LoopInv X sd sbToday lte ste L0 S0 (k + 1) (stepP X sd sbToday lte ste v k) := by
  obtain ⟨fL, fS, fR, fRR, fB⟩ := stepP_fields X sd sbToday lte ste v k n hk hs
  have hLk : QVector.val v.lts_ k = QVector.val L0 k := h.ltsLater k le_rfl
  have hSk : QVector.val v.sts_ k = QVector.val S0 k := h.stsLater k le_rfl
  have keepL : ∀ j, j ≠ k → QVector.val (stepP X sd sbToday lte ste v k).lts_ j
      = QVector.val v.lts_ j := fun j hj => by rw [fL]; simp [hj]
  have keepS : ∀ j, j ≠ k → QVector.val (stepP X sd sbToday lte ste v k).sts_ j
      = QVector.val v.sts_ j := fun j hj => by rw [fS]; simp [hj]
  have newL : QVector.val (stepP X sd sbToday lte ste v k).lts_ k =
      if 0 ≤ QVector.val L0 k ∨ 0 ≤ QVector.val S0 k then
        QVector.val X k * (1 - lte)
          + (if k = 0 then 0 else QVector.val (stepP X sd sbToday lte ste v k).lts_ (k - 1)) * lte
      else QVector.val L0 k * -1 := by
    rw [fL]
    simp only [if_true, newLoad, hLk, hSk]
    by_cases h0 : k = 0
    · simp [h0, (h.first h0).1]
    · rw [keepL (k - 1) (by omega)]; simp [h0]
  have newS : QVector.val (stepP X sd sbToday lte ste v k).sts_ k =
      if 0 ≤ QVector.val L0 k ∨ 0 ≤ QVector.val S0 k then
        QVector.val X k * (1 - ste)
          + (if k = 0 then 0 else QVector.val (stepP X sd sbToday lte ste v k).sts_ (k - 1)) * ste
      else QVector.val S0 k * -1 := by
    rw [fS]
    have e : (0 ≤ QVector.val S0 k ∨ 0 ≤ QVector.val L0 k)
        ↔ (0 ≤ QVector.val L0 k ∨ 0 ≤ QVector.val S0 k) := or_comm
    simp only [if_true, newLoad, hLk, hSk, e]
    by_cases h0 : k = 0
    · simp [h0, (h.first h0).2]
    · rw [keepS (k - 1) (by omega)]; simp [h0]
  have newR : (stepP X sd sbToday lte ste v k).rollingStress =
      QVector.val (stepP X sd sbToday lte ste v k).lts_ k
        - QVector.val (stepP X sd sbToday lte ste v k).lts_ (k - sd.toNat) := by
    rw [fR, h.roll]
    by_cases h0 : k = 0
    · simp [h0]
    · simp only [h0, if_false]
      by_cases hle : (k : Int) ≤ sd
      · have e1 : k - sd.toNat = 0 := by omega
        have e2 : k - 1 - sd.toNat = 0 := by omega
        rw [e1, e2, keepL (k - 1) (by omega), keepL 0 (fun e => h0 e.symm)]
        simp [hle]
      · have e2 : k - 1 - sd.toNat = k - sd.toNat - 1 := by omega
        rw [e2, keepL (k - 1) (by omega), keepL (k - sd.toNat - 1) (by omega)]
        simp only [hle, if_false]
        ring
  constructor
  · intro h0; omega
  · intro j hj; rw [keepL j (by omega)]; exact h.ltsLater j (by omega)
  · intro j hj; rw [keepS j (by omega)]; exact h.stsLater j (by omega)
  · intro j hj
    rw [fRR]
    have : ¬ (j = k) := by omega
    simp only [this, false_and, if_false]
    exact h.rrLater j (by omega)
  · intro j hj
    rw [fB]
    have : ¬ (j = k + (if sbToday then 0 else 1)) := by
      cases sbToday <;> simp at hj ⊢ <;> omega
    simp only [this, if_false]
    apply h.sbLater
    cases sbToday <;> simp at hj ⊢ <;> omega
  · intro j hj
    by_cases hjk : j = k
    · subst hjk; exact newL
    · rw [keepL j hjk, h.ltsDone j (by omega)]
      by_cases hj0 : j = 0
      · simp [hj0]
      · rw [keepL (j - 1) (by omega)]
  · intro j hj
    by_cases hjk : j = k
    · subst hjk; exact newS
    · rw [keepS j hjk, h.stsDone j (by omega)]
      by_cases hj0 : j = 0
      · simp [hj0]
      · rw [keepS (j - 1) (by omega)]
  · rw [newR]; simp
  · intro j hj
    rw [fRR]
    by_cases hjk : j = k
    · subst hjk
      by_cases h0 : j = 0
      · subst h0
        simp only [ne_eq, not_true_eq_false, and_false, if_false]
        rw [h.rrLater 0 le_rfl]; simp
      · simp only [h0, ne_eq, not_false_eq_true, and_self, if_true]
        exact newR
    · simp only [hjk, false_and, if_false]
      rw [keepL j hjk, keepL (j - sd.toNat) (by omega)]
      exact h.rrDone j (by omega)
  · intro j hj
    rw [fB]
    by_cases hjk : j = k
    · subst hjk; simp
    · have : ¬ (j + (if sbToday then 0 else 1) = k + (if sbToday then 0 else 1)) := by omega
      simp only [this, if_false]
      rw [keepL j hjk, keepS j hjk]
      exact h.sbDone j (by omega)

theorem LoopInv.loop (X : QVector K) (sd : Int) (sbToday : Bool) (lte ste : K)
    (L0 S0 : QVector K) (n : Nat) (hsd : 0 ≤ sd) (hL : L0.length = n) (hS : S0.length = n)
    (k : Nat) (hk : k ≤ n) :
    LoopInv X sd sbToday lte ste L0 S0 k
      (loopP X sd sbToday lte ste (initVars L0 S0 n) k) := by
  have hs : Sized n (initVars L0 S0 n) := by
    constructor <;> simp [initVars, hL, hS]
  induction k with
  | zero => exact LoopInv.init X sd sbToday lte ste L0 S0 n
  | succ k ih =>
    exact LoopInv.step X sd sbToday lte ste L0 S0 n k _ (by omega) hsd
      (loopP_sized _ _ _ _ _ _ _ hs k) (ih (by omega))

end LoopField

section Seeds
variable {K : Type} [LinearOrder K] [Zero K] [One K] [Add K] [Sub K] [Mul K] [Neg K] [Div K]
  [IntCast K]

/-! ## Seed placement and stress aggregation -/

theorem seedsP_length (s : Int) (seasons : List Season) (acc : QVector K) :
    (seedsP s seasons acc).length = acc.length := by
  induction seasons generalizing acc with
  | nil => rfl
  | cons x xs ih =>
    simp only [seedsP, List.foldl_cons] at ih ⊢
    rw [ih]
    split_ifs <;> simp

theorem placeSeeds_eq {qt : QtVersion} (s : Int) (n : Nat) (seasons : List Season) (L S : QVector K)
    (hL : L.length = n) (hS : S.length = n)
    (h : ∀ x ∈ seasons, x.seed ≠ 0 → s ≤ x.start ∧ x.start < s + n) :
    placeSeeds qt (some s) seasons L S = pure (seedsP s seasons L, seedsP s seasons S) := by
  induction seasons generalizing L S with
  | nil => rfl
  | cons x xs ih =>
    have hx := h x (List.mem_cons_self _ _)
    have hxs : ∀ y ∈ xs, y.seed ≠ 0 → s ≤ y.start ∧ y.start < s + n :=
      fun y hy => h y (List.mem_cons_of_mem _ hy)
    simp only [placeSeeds, seedsP, List.foldlM_cons, List.foldl_cons] at ih ⊢
    by_cases h0 : x.seed = 0
    · simp only [h0, ne_eq, not_true_eq_false, if_false, pure_bind]
      exact ih L S hL hS hxs
    · obtain ⟨h1, h2⟩ := hx h0
      have w1 : ∀ v, QVector.write L (QDate.daysToIn qt (some s) (some x.start)) v
          = pure (L.set (x.start - s).toNat v) :=
        fun v => QVector.write_eq _ _ _ v (by simp [QDate.daysToIn]; omega) (by omega)
      have w2 : ∀ v, QVector.write S (QDate.daysToIn qt (some s) (some x.start)) v
          = pure (S.set (x.start - s).toNat v) :=
        fun v => QVector.write_eq _ _ _ v (by simp [QDate.daysToIn]; omega) (by omega)
      simp only [h0, ne_eq, not_false_eq_true, if_true, w1, w2, pure_bind]
      exact ih _ _ (by simp [hL]) (by simp [hS]) hxs

theorem seedsP_val (s : Int) (seasons : List Season) (acc : QVector K) (j : Nat)
    (hj : j < acc.length) (h : ∀ x ∈ seasons, x.seed ≠ 0 → s ≤ x.start) :
    QVector.val (seedsP s seasons acc) j =
      match seedFor (s + j) seasons with
      | some M => ((M * -1 : Int) : K)
      | none => QVector.val acc j := by
  induction seasons generalizing acc with
  | nil => rfl
  | cons x xs ih =>
    have hxs : ∀ y ∈ xs, y.seed ≠ 0 → s ≤ y.start :=
      fun y hy => h y (List.mem_cons_of_mem _ hy)
    simp only [seedsP, List.foldl_cons] at ih ⊢
    by_cases h0 : x.seed = 0
    · simp only [h0, ne_eq, not_true_eq_false, if_false, seedFor, false_and]
      rw [ih acc hj hxs]
      cases seedFor (s + j) xs <;> rfl
    · have h1 := h x (List.mem_cons_self _ _) h0
      simp only [h0, ne_eq, not_false_eq_true, if_true, seedFor, true_and]
      rw [ih _ (by simpa using hj) hxs]
      cases hsf : seedFor (s + j) xs with
      | some M => rfl
      | none =>
        simp only [QVector.val_set]
        by_cases hd : x.start = s + j
        · have : (x.start - s).toNat = j := by omega
          simp [hd, this, hj]
        · have : ¬ ((x.start - s).toNat = j) := by omega
          simp [hd, this]

theorem seedFor_none (d : Int) (seasons : List Season)
    (h : ∀ x ∈ seasons, x.seed ≠ 0 → x.start ≠ d) : seedFor d seasons = none := by
  induction seasons with
  | nil => rfl
  | cons x xs ih =>
    have hx := h x (List.mem_cons_self _ _)
    simp only [seedFor, ih (fun y hy => h y (List.mem_cons_of_mem _ hy))]
    by_cases h0 : x.seed = 0
    · simp [h0]
    · simp [hx h0]

theorem seedFor_some_ne_zero (d : Int) (seasons : List Season) (M : Int)
    (h : seedFor d seasons = some M) : M ≠ 0 := by
  induction seasons with
  | nil => simp [seedFor] at h
  | cons x xs ih =>
    simp only [seedFor] at h
    cases hsf : seedFor d xs with
    | some M' => rw [hsf] at h; simp at h; subst h; exact ih hsf
    | none =>
      rw [hsf] at h
      simp only at h
      split_ifs at h with hc
      · simp at h; subst h; exact hc.1

theorem addStress_length {qt : QtVersion} (spec : RideItem K → Bool) (name : String) (start_ : QDate)
    (rides : List (RideItem K)) (acc : QVector K) :
    (addStress qt spec name start_ rides acc).length = acc.length := by
  induction rides generalizing acc with
  | nil => rfl
  | cons r rs ih =>
    simp only [addStress, List.foldl_cons] at ih ⊢
    rw [ih]
    split_ifs
    · rfl
    · split <;> simp
    · rfl

theorem addStress_val_zero {qt : QtVersion} (spec : RideItem K → Bool) (name : String) (start_ : QDate)
    (rides : List (RideItem K)) (acc : QVector K) :
    QVector.val (addStress qt spec name start_ rides acc) 0 = QVector.val acc 0 := by
  induction rides generalizing acc with
  | nil => rfl
  | cons r rs ih =>
    simp only [addStress, List.foldl_cons] at ih ⊢
    rw [ih]
    split_ifs with h1 h2
    · rfl
    · split
      · rw [QVector.val_set]
        have : ¬ ((QDate.daysToIn qt start_ (some r.date)).toNat = 0) := by omega
        simp [this]
      · rfl
    · rfl

end Seeds

section SeedFor

theorem seedFor_mem (d : Int) (seasons : List Season) (M : Int)
    (h : seedFor d seasons = some M) :
    ∃ x ∈ seasons, x.seed ≠ 0 ∧ x.start = d ∧ x.seed = M := by
  induction seasons with
  | nil => simp [seedFor] at h
  | cons x xs ih =>
    simp only [seedFor] at h
    cases hsf : seedFor d xs with
    | some M' =>
      rw [hsf] at h
      simp only [Option.some.injEq] at h
      subst h
      obtain ⟨y, hy, h1, h2, h3⟩ := ih hsf
      exact ⟨y, List.mem_cons_of_mem _ hy, h1, h2, h3⟩
    | none =>
      rw [hsf] at h
      simp only at h
      split_ifs at h with hc
      simp only [Option.some.injEq] at h
      exact ⟨x, List.mem_cons_self _ _, hc.1, hc.2, h⟩

theorem seedFor_ne_none (d : Int) (seasons : List Season)
    (h : ∃ x ∈ seasons, x.seed ≠ 0 ∧ x.start = d) : seedFor d seasons ≠ none := by
  induction seasons with
  | nil => obtain ⟨x, hx, _⟩ := h; cases hx
  | cons y ys ih =>
    obtain ⟨x, hx, h0, hd⟩ := h
    simp only [seedFor]
    cases hsf : seedFor d ys with
    | some M' => simp
    | none =>
      rcases List.mem_cons.mp hx with rfl | hx'
      · simp [h0, hd]
      · exact absurd hsf (ih ⟨x, hx', h0, hd⟩)

end SeedFor

section Dates
variable {K : Type} [LinearOrder K] [Zero K] [One K] [Add K] [Sub K] [Mul K] [Neg K] [Div K]
  [IntCast K]

/-! ## The date span -/

theorem sentinelDate_eq : sentinelDate = some 5373484 := by decide

/-- One step of the search of lines 93-95. -/
theorem earliestSeed_foldl (seasons : List Season) (acc : QDate) :
    (∀ a, acc = some a → ∃ b, seasons.foldl
        (fun seed x => if x.seed ≠ 0 ∧ (seed = none ∨ QDate.lt (some x.start) seed = true)
          then some x.start else seed) acc = some b ∧ b ≤ a) ∧
    (∀ x ∈ seasons, x.seed ≠ 0 → ∃ b, seasons.foldl
        (fun seed x => if x.seed ≠ 0 ∧ (seed = none ∨ QDate.lt (some x.start) seed = true)
          then some x.start else seed) acc = some b ∧ b ≤ x.start) ∧
    (seasons.foldl
        (fun seed x => if x.seed ≠ 0 ∧ (seed = none ∨ QDate.lt (some x.start) seed = true)
          then some x.start else seed) acc = acc ∨
      ∃ x ∈ seasons, x.seed ≠ 0 ∧ seasons.foldl
        (fun seed x => if x.seed ≠ 0 ∧ (seed = none ∨ QDate.lt (some x.start) seed = true)
          then some x.start else seed) acc = some x.start) := by
  induction seasons generalizing acc with
  | nil => exact ⟨fun a ha => ⟨a, ha, le_rfl⟩, by simp, Or.inl rfl⟩
  | cons x xs ih =>
    simp only [List.foldl_cons]
    obtain ⟨i1, i2, i3⟩ := ih (if x.seed ≠ 0 ∧ (acc = none ∨ QDate.lt (some x.start) acc = true)
          then some x.start else acc)
    refine ⟨?_, ?_, ?_⟩
    · intro a ha
      subst ha
      by_cases hc : x.seed ≠ 0 ∧ x.start < a
      · have : (if x.seed ≠ 0 ∧ ((some a : QDate) = none ∨ QDate.lt (some x.start) (some a) = true)
          then some x.start else some a) = some x.start := by
          simp [QDate.lt, hc.1, hc.2]
        rw [this] at i1 ⊢
        obtain ⟨b, hb1, hb2⟩ := i1 x.start rfl
        exact ⟨b, hb1, by omega⟩
      · have : (if x.seed ≠ 0 ∧ ((some a : QDate) = none ∨ QDate.lt (some x.start) (some a) = true)
          then some x.start else some a) = some a := by
          simp only [QDate.lt, decide_eq_true_eq, reduceCtorEq, false_or]
          rw [if_neg hc]
        rw [this] at i1 ⊢
        exact i1 a rfl
    · intro y hy hy0
      rcases List.mem_cons.mp hy with rfl | hy'
      · cases acc with
        | none =>
          simp only [hy0, ne_eq, not_false_eq_true, true_or, and_self, if_true] at i1 ⊢
          exact i1 _ rfl
        | some a =>
          by_cases hc : y.start < a
          · have : (if y.seed ≠ 0 ∧ ((some a : QDate) = none ∨ QDate.lt (some y.start) (some a) = true)
                then some y.start else some a) = some y.start := by
              simp [QDate.lt, hy0, hc]
            rw [this] at i1 ⊢
            exact i1 _ rfl
          · have : (if y.seed ≠ 0 ∧ ((some a : QDate) = none ∨ QDate.lt (some y.start) (some a) = true)
                then some y.start else some a) = some a := by
              simp [QDate.lt, hy0, hc]
            rw [this] at i1 ⊢
            obtain ⟨b, hb1, hb2⟩ := i1 a rfl
            exact ⟨b, hb1, by omega⟩
      · exact i2 y hy' hy0
    · rcases i3 with h | ⟨y, hy, hy0, h⟩
      · rw [h]
        by_cases hc : x.seed ≠ 0 ∧ (acc = none ∨ QDate.lt (some x.start) acc = true)
        · right
          exact ⟨x, List.mem_cons_self _ _, hc.1, by rw [if_pos hc]⟩
        · left; rw [if_neg hc]
      · right
        exact ⟨y, List.mem_cons_of_mem _ hy, hy0, h⟩

theorem earliestSeed_le (seasons : List Season) (x : Season) (hx : x ∈ seasons)
    (h0 : x.seed ≠ 0) : ∃ b, earliestSeed seasons = some b ∧ b ≤ x.start :=
  (earliestSeed_foldl seasons none).2.1 x hx h0

theorem earliestSeed_mem (seasons : List Season) (b : Int)
    (h : earliestSeed seasons = some b) : ∃ x ∈ seasons, x.seed ≠ 0 ∧ x.start = b := by
  rcases (earliestSeed_foldl seasons none).2.2 with h' | ⟨x, hx, hx0, h'⟩
  · rw [earliestSeed] at h; rw [h] at h'; simp at h'
  · rw [earliestSeed] at h; rw [h] at h'
    exact ⟨x, hx, hx0, by simpa using h'.symm⟩

theorem earliestSeed_none (seasons : List Season) (h : ∀ x ∈ seasons, x.seed = 0) :
    earliestSeed seasons = none := by
  rcases (earliestSeed_foldl seasons none).2.2 with h' | ⟨x, hx, hx0, _⟩
  · exact h'
  · exact absurd (h x hx) hx0

theorem resolveStart_some (seed first : QDate) (s : Int) (h : resolveStart seed first = some s) :
    (∀ d, seed = some d → s ≤ d) ∧ (∀ f, first = some f → s ≤ f) ∧
      (seed = some s ∨ first = some s) ∧ s < 5373484 := by
  unfold resolveStart at h
  rw [sentinelDate_eq] at h
  cases seed <;> cases first <;> simp only [QDate.lt] at h <;> simp at h <;>
    (try split_ifs at h) <;> simp_all <;> omega

theorem resolveStart_eq (seed first : QDate) (s : Int) (hs : s < 5373484)
    (hmem : seed = some s ∨ first = some s)
    (h1 : ∀ d, seed = some d → s ≤ d) (h2 : ∀ f, first = some f → s ≤ f) :
    resolveStart seed first = some s := by
  unfold resolveStart
  rw [sentinelDate_eq]
  cases seed with
  | none =>
    cases first with
    | none => simp at hmem
    | some f =>
      simp at hmem; subst hmem
      simp [QDate.lt, hs]; omega
  | some d =>
    cases first with
    | none =>
      simp at hmem; subst hmem
      simp [QDate.lt, hs]; omega
    | some f =>
      have hd := h1 d rfl
      have hf := h2 f rfl
      simp only [QDate.lt, decide_eq_true_eq, ne_eq, reduceCtorEq, not_false_eq_true, true_and]
      by_cases c1 : d < 5373484
      · by_cases c2 : f < d
        · have : s = f := by rcases hmem with h | h <;> simp at h <;> omega
          subst this
          simp [c1, c2, QDate.lt]; omega
        · have : s = d := by rcases hmem with h | h <;> simp at h <;> omega
          subst this
          simp [c1, c2, QDate.lt]; omega
      · have : s = f := by rcases hmem with h | h <;> simp at h <;> omega
        subst this
        simp [c1, hs, QDate.lt]; omega

theorem resolveStart_none_none : resolveStart none none = none := by
  simp [resolveStart]

theorem resolveEnd_none_none : resolveEnd none none = none := by
  simp [resolveEnd, QDate.lt]

theorem resolveEnd_cases (seed last : QDate) :
    (∀ l, seed = none → last = some l → resolveEnd seed last = some (l + 365)) ∧
    (∀ d, seed = some d → last = none → resolveEnd seed last = some (d + 365)) ∧
    (∀ d l, seed = some d → last = some l → d < l → resolveEnd seed last = some (l + 365)) ∧
    (∀ d l, seed = some d → last = some l → l ≤ d → resolveEnd seed last = some (d + 365)) := by
  refine ⟨?_, ?_, ?_, ?_⟩
  · intro l h1 h2; subst h1 h2; simp [resolveEnd, QDate.lt, QDate.addDays]
  · intro d h1 h2; subst h1 h2; simp [resolveEnd, QDate.lt, QDate.addDays]
  · intro d l h1 h2 h3; subst h1 h2; simp [resolveEnd, QDate.lt, QDate.addDays, h3]
  · intro d l h1 h2 h3; subst h1 h2
    have : ¬ d < l := by omega
    simp [resolveEnd, QDate.lt, QDate.addDays, this]

end Dates

section RefreshLemmas
variable {K : Type} [LinearOrder K] [Zero K] [One K] [Add K] [Sub K] [Mul K] [Neg K] [Div K]
  [IntCast K]

/-! ## What `refresh` returns -/

theorem refresh_clean (ctx : Context K) (exp : K → K) (m : PMCData K)
    (h : m.isstale = false) : refresh ctx exp m = pure m := by
  simp [refresh, h]

theorem QVector.resize_zero (v : QVector K) : QVector.resize v 0 = [] := by
  simp [QVector.resize]

theorem refresh_empty (ctx : Context K) (exp : K → K) (m : PMCData K)
    (h : m.isstale = true)
    (hr : ¬ (spanStart ctx ≠ none ∧ spanEnd ctx ≠ none
      ∧ QDate.lt (spanStart ctx) (spanEnd ctx) = true)) :
    refresh ctx exp m = pure (emptied (rereadConfig ctx m)) := by
  unfold spanStart spanEnd at hr
  simp only [refresh, h, Bool.not_true, Bool.false_eq_true, if_false, hr, QVector.resize_zero]
  rfl

theorem refresh_valid (ctx : Context K) (exp : K → K) (m : PMCData K) (s e : Int)
    (h : m.isstale = true) (hs : spanStart ctx = some s) (he : spanEnd ctx = some e)
    (hlt : s < e) (hseeds : ∀ x ∈ ctx.seasons, x.seed ≠ 0 → x.start ≤ e)
    (hsd : 0 ≤ (rereadConfig ctx m).stsDays_) :
    refresh ctx exp m = pure (computed ctx exp m s e) := by
  have hs' := hs
  have he' := he
  unfold spanStart at hs'
  unfold spanEnd at he'
  have hlow : ∀ x ∈ ctx.seasons, x.seed ≠ 0 → s ≤ x.start := by
    intro x hx h0
    obtain ⟨b, hb1, hb2⟩ := earliestSeed_le ctx.seasons x hx h0
    have := (resolveStart_some _ _ s hs').1 b hb1
    omega
  have hn : ((e - s + 1).toNat : Int) = e - s + 1 := by omega
  have hin : ∀ x ∈ ctx.seasons, x.seed ≠ 0 →
      s ≤ x.start ∧ x.start < s + ((e - s + 1).toNat : Nat) := by
    intro x hx h0
    have := hlow x hx h0
    have := hseeds x hx h0
    omega
  have hvalid : (some s : QDate) ≠ none ∧ (some e : QDate) ≠ none
      ∧ QDate.lt (some s) (some e) = true := by
    simp [QDate.lt, hlt]
  have hd : QDate.daysToIn ctx.qt (some s) (some e) = e - s := rfl
  have hn1 : (e - s + 1 + 1).toNat = (e - s + 1).toNat + 1 := by omega
  simp only [refresh, h, Bool.not_true, Bool.false_eq_true, if_false, hs', he', hvalid,
    and_self, if_true, hd, QVector.fill_resize]
  rw [placeSeeds_eq s (e - s + 1).toNat ctx.seasons _ _ (by simp) (by simp) hin, pure_bind]
  simp only []
  rw [hn1]
  rw [decayLoop_eq _ _ _ _ _ _ _ hsd (by rw [addStress_length]; simp)
    (by constructor <;> simp [seedsP_length])]
  rfl

end RefreshLemmas

section Shape
variable {K : Type} [LinearOrder K] [Zero K] [One K] [Add K] [Sub K] [Mul K] [Neg K] [Div K]
  [IntCast K]

/-! ## The refreshed state -/

theorem spanDays_cast (s e : Int) (h : s < e) : ((spanDays s e : Nat) : Int) = e - s + 1 := by
  unfold spanDays; omega

theorem seedSeries_length (ctx : Context K) (s e : Int) :
    (seedSeries ctx s e).length = spanDays s e := by
  simp [seedSeries, seedsP_length]

theorem stressSeries_length (ctx : Context K) (m : PMCData K) (s e : Int) :
    (stressSeries ctx m s e).length = spanDays s e := by
  simp [stressSeries, addStress_length]

theorem finalVars_sized (ctx : Context K) (exp : K → K) (m : PMCData K) (s e : Int) :
    Sized (spanDays s e) (finalVars ctx exp m s e) :=
  loopP_sized _ _ _ _ _ _ _
    (by constructor <;> simp [initVars, seedSeries_length]) _

end Shape

section ShapeField
variable {K : Type} [LinearOrderedField K]

theorem finalVars_inv (ctx : Context K) (exp : K → K) (m : PMCData K) (s e : Int)
    (hsd : 0 ≤ (rereadConfig ctx m).stsDays_) :
    LoopInv (stressSeries ctx (rereadConfig ctx m) s e) (rereadConfig ctx m).stsDays_
      (decide (ctx.GC_SB_TODAY.toInt ≠ 0))
      (decay exp (rereadConfig ctx m).ltsDays_) (decay exp (rereadConfig ctx m).stsDays_)
      (seedSeries ctx s e) (seedSeries ctx s e) (spanDays s e) (finalVars ctx exp m s e) :=
  LoopInv.loop _ _ _ _ _ _ _ _ hsd (seedSeries_length ctx s e) (seedSeries_length ctx s e)
    _ le_rfl

end ShapeField

section Shape2
variable {K : Type} [LinearOrder K] [Zero K] [One K] [Add K] [Sub K] [Mul K] [Neg K] [Div K]
  [IntCast K]

/-- What `refresh` returns on a stale model is the emptied model or a clean model over a
valid range. -/
theorem refresh_stale_shape (ctx : Context K) (exp : K → K) (m m' : PMCData K)
    (h : m.isstale = true) (hr : refresh ctx exp m = pure m') :
    (¬ (spanStart ctx ≠ none ∧ spanEnd ctx ≠ none
        ∧ QDate.lt (spanStart ctx) (spanEnd ctx) = true) ∧ m' = emptied (rereadConfig ctx m)) ∨
      ∃ s e, spanStart ctx = some s ∧ spanEnd ctx = some e ∧ s < e ∧ m'.start_ = some s ∧
        m'.end_ = some e ∧ m'.days_ = e - s + 1 ∧ m'.isstale = false := by
  by_cases hv : spanStart ctx ≠ none ∧ spanEnd ctx ≠ none
      ∧ QDate.lt (spanStart ctx) (spanEnd ctx) = true
  · right
    obtain ⟨h1, h2, h3⟩ := hv
    cases hs : spanStart ctx with
    | none => exact absurd hs h1
    | some s =>
      cases he : spanEnd ctx with
      | none => exact absurd he h2
      | some e =>
        rw [hs, he] at h3
        have hlt : s < e := by simpa [QDate.lt] using h3
        refine ⟨s, e, rfl, rfl, hlt, ?_⟩
        have hs' := hs
        have he' := he
        unfold spanStart at hs'
        unfold spanEnd at he'
        have hvalid : (some s : QDate) ≠ none ∧ (some e : QDate) ≠ none
            ∧ QDate.lt (some s) (some e) = true := by
          simp [QDate.lt, hlt]
        have hd : QDate.daysToIn ctx.qt (some s) (some e) = e - s := rfl
        simp only [refresh, h, Bool.not_true, Bool.false_eq_true, if_false, hs', he', hd] at hr
        rw [if_pos hvalid] at hr
        revert hr
        generalize (placeSeeds _ _ _ _ _ : Except Fault (QVector K × QVector K)) = p
        cases p with
        | error err => intro hr; cases hr
        | ok ls =>
          obtain ⟨l, st⟩ := ls
          simp only [bind, Except.bind]
          generalize (decayLoop _ _ _ _ _ _ _ : Except Fault (LoopVars K)) = q
          cases q with
          | error err => intro hr; cases hr
          | ok v =>
            intro hr
            have : m' = _ := (Except.ok.inj hr).symm
            subst this
            exact ⟨rfl, rfl, rfl, rfl⟩
  · left
    rw [refresh_empty ctx exp m h hv] at hr
    exact ⟨hv, (Except.ok.inj hr).symm⟩

theorem rereadConfig_emptied (ctx : Context K) (m : PMCData K) :
    rereadConfig ctx (emptied (rereadConfig ctx m)) = emptied (rereadConfig ctx m) := by
  unfold rereadConfig emptied
  split_ifs <;> simp_all

theorem emptied_emptied (m : PMCData K) : emptied (emptied m) = emptied m := rfl

/-- A second `refresh` right after a `refresh`, on the same context, changes nothing. -/
theorem refresh_idem (ctx : Context K) (exp : K → K) (m m' : PMCData K)
    (hr : refresh ctx exp m = pure m') : refresh ctx exp m' = pure m' := by
  by_cases h : m.isstale = true
  · rcases refresh_stale_shape ctx exp m m' h hr with ⟨hv, h1⟩ | ⟨s, e, _, _, _, _, _, _, h2⟩
    · subst h1
      have hst : (emptied (rereadConfig ctx m)).isstale = true := by
        simp only [emptied, rereadConfig]; split_ifs <;> simpa using h
      rw [refresh_empty ctx exp _ hst hv, rereadConfig_emptied, emptied_emptied]
    · exact refresh_clean ctx exp m' h2
  · have h' : m.isstale = false := by simpa using h
    rw [refresh_clean ctx exp m h'] at hr
    have : m' = m := (Except.ok.inj hr).symm
    subst this
    exact refresh_clean ctx exp m' h'

end Shape2

section Queries
variable {K : Type} [LinearOrder K] [Zero K] [One K] [Add K] [Sub K] [Mul K] [Neg K] [Div K]
  [IntCast K]

/-! ## Point queries -/

theorem indexOf_eq (ctx : Context K) (exp : K → K) (m m' : PMCData K)
    (hr : refresh ctx exp m = pure m') (date : QDate) :
    indexOf ctx exp m date =
      pure (if QDate.daysToIn ctx.qt m'.start_ date < 0 ∨ QDate.daysToIn ctx.qt m'.start_ date ≥ m'.days_
        then -1 else QDate.daysToIn ctx.qt m'.start_ date, m') := by
  unfold indexOf
  rw [hr, pure_bind]

theorem pointQuery_out (series : PMCData K → QVector K) (ctx : Context K) (exp : K → K)
    (m m' : PMCData K) (hr : refresh ctx exp m = pure m') (date : QDate)
    (h : QDate.daysToIn ctx.qt m'.start_ date < 0 ∨ QDate.daysToIn ctx.qt m'.start_ date ≥ m'.days_) :
    pointQuery series ctx exp m date = pure (0, m') := by
  unfold pointQuery
  rw [hr, pure_bind, indexOf_eq ctx exp m' m' (refresh_idem ctx exp m m' hr), pure_bind]
  simp [h]

theorem pointQuery_in (series : PMCData K → QVector K) (ctx : Context K) (exp : K → K)
    (m m' : PMCData K) (hr : refresh ctx exp m = pure m') (date : QDate) (j : Nat)
    (hj : QDate.daysToIn ctx.qt m'.start_ date = (j : Int)) (hd : (j : Int) < m'.days_)
    (hlen : j < (series m').length) :
    pointQuery series ctx exp m date = pure (QVector.val (series m') j, m') := by
  unfold pointQuery
  rw [hr, pure_bind, indexOf_eq ctx exp m' m' (refresh_idem ctx exp m m' hr), pure_bind]
  have h1 : ¬ ((j : Int) < 0 ∨ (j : Int) ≥ m'.days_) := by omega
  have h2 : ¬ ((j : Int) = -1) := by omega
  simp only [hj, h1, if_false, h2]
  rw [QVector.read_eq _ _ j rfl hlen, pure_bind]

end Queries

section Faults
variable {K : Type} [LinearOrder K] [Zero K] [One K] [Add K] [Sub K] [Mul K] [Neg K] [Div K]
  [IntCast K]

/-! ## When `refresh` returns -/

theorem QVector.read_error (v : QVector K) (i : Int) (h : i < 0 ∨ (v.length : Int) ≤ i) :
    QVector.read v i = Except.error Fault.indexOutOfRange := by
  have : ¬ (0 ≤ i ∧ i < (v.length : Int)) := by omega
  simp [QVector.read, this, throw, throwThe, MonadExceptOf.throw]

theorem QVector.write_error (v : QVector K) (i : Int) (x : K)
    (h : i < 0 ∨ (v.length : Int) ≤ i) :
    QVector.write v i x = Except.error Fault.indexOutOfRange := by
  have : ¬ (0 ≤ i ∧ i < (v.length : Int)) := by omega
  simp [QVector.write, this, throw, throwThe, MonadExceptOf.throw]

theorem QVector.write_length (v v' : QVector K) (i : Int) (x : K)
    (h : QVector.write v i x = pure v') : v'.length = v.length := by
  unfold QVector.write at h
  split_ifs at h
  · have : v' = _ := (Except.ok.inj h).symm
    subst this; simp
  · cases h

theorem placeSeeds_inv {qt : QtVersion} (s : Int) (n : Nat) (seasons : List Season) (L S : QVector K)
    (p : QVector K × QVector K) (hL : L.length = n) (hS : S.length = n)
    (h : placeSeeds qt (some s) seasons L S = pure p) :
    ∀ x ∈ seasons, x.seed ≠ 0 → s ≤ x.start ∧ x.start < s + n := by
  induction seasons generalizing L S with
  | nil => intro x hx; cases hx
  | cons y ys ih =>
    simp only [placeSeeds, List.foldlM_cons] at h ih
    by_cases h0 : y.seed = 0
    · simp only [h0, ne_eq, not_true_eq_false, if_false, pure_bind] at h
      intro x hx hx0
      rcases List.mem_cons.mp hx with rfl | hx'
      · exact absurd h0 hx0
      · exact ih L S hL hS h x hx' hx0
    · simp only [h0, ne_eq, not_false_eq_true, if_true] at h
      by_cases hin : s ≤ y.start ∧ y.start < s + n
      · have w1 : ∀ v, QVector.write L (QDate.daysToIn qt (some s) (some y.start)) v
            = pure (L.set (y.start - s).toNat v) :=
          fun v => QVector.write_eq _ _ _ v (by simp [QDate.daysToIn]; omega) (by omega)
        have w2 : ∀ v, QVector.write S (QDate.daysToIn qt (some s) (some y.start)) v
            = pure (S.set (y.start - s).toNat v) :=
          fun v => QVector.write_eq _ _ _ v (by simp [QDate.daysToIn]; omega) (by omega)
        simp only [w1, w2, pure_bind] at h
        intro x hx hx0
        rcases List.mem_cons.mp hx with rfl | hx'
        · exact hin
        · exact ih _ _ (by simp [hL]) (by simp [hS]) h x hx' hx0
      · exfalso
        have w1 : ∀ v, QVector.write L (QDate.daysToIn qt (some s) (some y.start)) v
            = Except.error Fault.indexOutOfRange :=
          fun v => QVector.write_error _ _ v (by simp [QDate.daysToIn]; omega)
        simp only [w1, bind, Except.bind] at h
        cases h

theorem rampStep_sized (sd : Int) (v v' : LoopVars K) (d : Int) (n : Nat)
    (h : rampStep sd v d = pure v') (hs : Sized n v) : Sized n v' := by
  unfold rampStep at h
  split_ifs at h with c1 c2
  · cases h1 : QVector.read v.lts_ d with
    | error err => rw [h1] at h; cases h
    | ok a =>
      cases h2 : QVector.read v.lts_ (d - 1) with
      | error err => rw [h1, h2] at h; cases h
      | ok b =>
        rw [h1, h2] at h
        simp only [bind, Except.bind] at h
        cases hw : QVector.write v.rr_ d (v.rollingStress + (a - b)) with
        | error err => rw [hw] at h; cases h
        | ok r =>
          rw [hw] at h
          have : v' = _ := (Except.ok.inj h).symm
          subst this
          have := QVector.write_length _ _ _ _ hw
          exact ⟨hs.lts, hs.sts, hs.sb, by simpa [hs.rr] using this⟩
  · cases h1 : QVector.read v.lts_ d with
    | error err => rw [h1] at h; cases h
    | ok a =>
      cases h2 : QVector.read v.lts_ (d - 1) with
      | error err => rw [h1, h2] at h; cases h
      | ok b =>
        cases h3 : QVector.read v.lts_ (d - sd) with
        | error err => rw [h1, h2, h3] at h; cases h
        | ok c =>
          cases h4 : QVector.read v.lts_ (d - sd - 1) with
          | error err => rw [h1, h2, h3, h4] at h; cases h
          | ok e =>
            rw [h1, h2, h3, h4] at h
            simp only [bind, Except.bind] at h
            cases hw : QVector.write v.rr_ d (v.rollingStress + (a - b) - (c - e)) with
            | error err => rw [hw] at h; cases h
            | ok r =>
              rw [hw] at h
              have : v' = _ := (Except.ok.inj h).symm
              subst this
              have := QVector.write_length _ _ _ _ hw
              exact ⟨hs.lts, hs.sts, hs.sb, by simpa [hs.rr] using this⟩
  · have : v' = v := (Except.ok.inj h).symm
    subst this; exact hs

theorem decayStep_sized (X : QVector K) (sd : Int) (sbToday : Bool) (lte ste : K)
    (v v' : LoopVars K) (k n : Nat) (hk : k < n) (hx : X.length = n) (hs : Sized n v)
    (h : decayStep X sd sbToday lte ste v (k : Int) = pure v') : Sized n v' := by
  unfold decayStep at h
  rw [loadStep_eq X lte ste v k n hk hx hs.lts hs.sts, pure_bind] at h
  have h1 := loadP_sized X lte ste v k n hs
  cases hr : rampStep sd (loadP X lte ste v k) (k : Int) with
  | error err => rw [hr] at h; cases h
  | ok v2 =>
    rw [hr] at h
    have h2 := rampStep_sized sd _ v2 _ n hr h1
    simp only [bind, Except.bind] at h
    rw [balanceStep_eq sbToday v2 k n hk h2.lts h2.sts h2.sb] at h
    have : v' = _ := (Except.ok.inj h).symm
    subst this
    exact balanceP_sized _ _ _ _ h2

theorem foldlM_range_sized (X : QVector K) (sd : Int) (sbToday : Bool) (lte ste : K)
    (v : LoopVars K) (n : Nat) (hx : X.length = n) (hs : Sized n v) (k : Nat) (hk : k ≤ n)
    (v' : LoopVars K)
    (h : (List.range k).foldlM
        (fun v (day : Nat) => decayStep X sd sbToday lte ste v (day : Int)) v = pure v') :
    Sized n v' := by
  induction k generalizing v' with
  | zero =>
    have : v' = v := (Except.ok.inj h).symm
    subst this; exact hs
  | succ k ih =>
    rw [List.range_succ, List.foldlM_append] at h
    cases hp : (List.range k).foldlM
        (fun v (day : Nat) => decayStep X sd sbToday lte ste v (day : Int)) v with
    | error err => rw [hp] at h; cases h
    | ok v1 =>
      rw [hp] at h
      simp only [bind, Except.bind, List.foldlM_cons, List.foldlM_nil] at h
      have h1 := ih (by omega) v1 hp
      cases hq : decayStep X sd sbToday lte ste v1 (k : Int) with
      | error err => rw [hq] at h; cases h
      | ok v2 =>
        rw [hq] at h
        have : v' = v2 := (Except.ok.inj h).symm
        subst this
        exact decayStep_sized X sd sbToday lte ste v1 _ k n (by omega) hx h1 hq

/-- The loop returns only when the window length is not negative: with a negative `stsDays_`
the last day reads `lts_[day-stsDays_]` beyond the end of the series (line 222). -/
theorem decayLoop_inv (X : QVector K) (sd : Int) (sbToday : Bool) (lte ste : K)
    (v v' : LoopVars K) (days_ : Int) (n : Nat) (hd : days_.toNat = n) (hn : 2 ≤ n)
    (hx : X.length = n) (hs : Sized n v)
    (h : decayLoop X sd sbToday lte ste days_ v = pure v') : 0 ≤ sd := by
  by_contra hneg
  unfold decayLoop at h
  obtain ⟨k, rfl⟩ : ∃ k, n = k + 1 := ⟨n - 1, by omega⟩
  rw [hd, List.range_succ, List.foldlM_append] at h
  cases hp : (List.range k).foldlM
      (fun v (day : Nat) => decayStep X sd sbToday lte ste v (day : Int)) v with
  | error err => rw [hp] at h; cases h
  | ok v1 =>
    rw [hp] at h
    simp only [bind, Except.bind, List.foldlM_cons, List.foldlM_nil] at h
    have h1 := foldlM_range_sized X sd sbToday lte ste v (k + 1) hx hs k (by omega) v1 hp
    have h2 := loadP_sized X lte ste v1 k (k + 1) h1
    have hstep : decayStep X sd sbToday lte ste v1 (k : Int) = Except.error Fault.indexOutOfRange := by
      unfold decayStep
      rw [loadStep_eq X lte ste v1 k (k + 1) (by omega) hx h1.lts h1.sts, pure_bind]
      have hramp : rampStep sd (loadP X lte ste v1 k) (k : Int)
          = Except.error Fault.indexOutOfRange := by
        unfold rampStep
        have c1 : ¬ ((k : Int) ≠ 0 ∧ (k : Int) ≤ sd) := by omega
        have c2 : (k : Int) ≠ 0 := by omega
        have r1 : QVector.read (loadP X lte ste v1 k).lts_ (k : Int)
            = pure (QVector.val (loadP X lte ste v1 k).lts_ k) :=
          QVector.read_eq _ _ _ rfl (by rw [h2.lts]; omega)
        have r2 : QVector.read (loadP X lte ste v1 k).lts_ ((k : Int) - 1)
            = pure (QVector.val (loadP X lte ste v1 k).lts_ (k - 1)) :=
          QVector.read_eq _ _ _ (by omega) (by rw [h2.lts]; omega)
        have r3 : QVector.read (loadP X lte ste v1 k).lts_ ((k : Int) - sd)
            = Except.error Fault.indexOutOfRange :=
          QVector.read_error _ _ (by rw [h2.lts]; omega)
        rw [if_neg c1, if_pos c2, r1, r2, pure_bind, pure_bind, r3]
        rfl
      rw [hramp]
      rfl
    rw [hstep] at h
    cases h

/-- On a stale model, `refresh` returns a non-empty range exactly in the way `computed`
describes, and only when every seeded season starts inside the span and the short-term
window is not negative. -/
theorem refresh_nonempty (ctx : Context K) (exp : K → K) (m m' : PMCData K)
    (h : m.isstale = true) (hr : refresh ctx exp m = pure m') (hne : 0 < m'.days_) :
    ∃ s e, spanStart ctx = some s ∧ spanEnd ctx = some e ∧ s < e ∧
      (∀ x ∈ ctx.seasons, x.seed ≠ 0 → s ≤ x.start ∧ x.start ≤ e) ∧
      0 ≤ (rereadConfig ctx m).stsDays_ ∧ m' = computed ctx exp m s e := by
  rcases refresh_stale_shape ctx exp m m' h hr with ⟨_, h1⟩ | ⟨s, e, hs, he, hlt, _⟩
  · subst h1; simp [emptied] at hne
  · refine ⟨s, e, hs, he, hlt, ?_⟩
    have hs' := hs
    have he' := he
    unfold spanStart at hs'
    unfold spanEnd at he'
    have hvalid : (some s : QDate) ≠ none ∧ (some e : QDate) ≠ none
        ∧ QDate.lt (some s) (some e) = true := by
      simp [QDate.lt, hlt]
    have hd : QDate.daysToIn ctx.qt (some s) (some e) = e - s := rfl
    have hn1 : (e - s + 1 + 1).toNat = (e - s + 1).toNat + 1 := by omega
    have hr' := hr
    simp only [refresh, h, Bool.not_true, Bool.false_eq_true, if_false, hs', he', hd,
      QVector.fill_resize] at hr'
    rw [if_pos hvalid] at hr'
    cases hp : placeSeeds ctx.qt (some s) ctx.seasons (List.replicate (e - s + 1).toNat (0 : K))
        (List.replicate (e - s + 1).toNat (0 : K)) with
    | error err => rw [hp] at hr'; cases hr'
    | ok p =>
      have hin := placeSeeds_inv s (e - s + 1).toNat ctx.seasons _ _ p (by simp) (by simp) hp
      have hseeds : ∀ x ∈ ctx.seasons, x.seed ≠ 0 → x.start ≤ e := by
        intro x hx h0
        have := hin x hx h0
        omega
      have hp2 := @placeSeeds_eq K _ _ _ _ _ _ _ _ _ ctx.qt s (e - s + 1).toNat ctx.seasons
        (List.replicate (e - s + 1).toNat (0 : K)) (List.replicate (e - s + 1).toNat (0 : K))
        (by simp) (by simp) hin
      rw [hp2, pure_bind] at hr'
      simp only [] at hr'
      rw [hn1] at hr'
      have hsd : 0 ≤ (rereadConfig ctx m).stsDays_ := by
        revert hr'
        cases hq : decayLoop (addStress ctx.qt (rereadConfig ctx m).specification_
            (rereadConfig ctx m).metricName_ (some s) ctx.rides
            (List.replicate (e - s + 1).toNat 0)) (rereadConfig ctx m).stsDays_
            (decide (ctx.GC_SB_TODAY.toInt ≠ 0)) (decay exp (rereadConfig ctx m).ltsDays_)
            (decay exp (rereadConfig ctx m).stsDays_) (e - s + 1)
            { lts_ := seedsP s ctx.seasons (List.replicate (e - s + 1).toNat 0),
              sts_ := seedsP s ctx.seasons (List.replicate (e - s + 1).toNat 0),
              sb_ := List.replicate ((e - s + 1).toNat + 1) 0,
              rr_ := List.replicate (e - s + 1).toNat 0,
              lastLTS := 0, lastSTS := 0, rollingStress := 0 } with
        | error err => intro hr'; cases hr'
        | ok v =>
          intro _
          exact decayLoop_inv _ _ _ _ _ _ v (e - s + 1) (e - s + 1).toNat rfl (by omega)
            (by rw [addStress_length]; simp)
            (by constructor <;> simp [seedsP_length]) hq
      refine ⟨fun x hx h0 => ⟨(hin x hx h0).1, hseeds x hx h0⟩, hsd, ?_⟩
      rw [refresh_valid ctx exp m s e h hs he hlt hseeds hsd] at hr
      exact (Except.ok.inj hr).symm

/-- The function `refresh` returns on every context whose seeded seasons start inside the span and whose
short-term window is not negative (and on every context without a valid range). -/
theorem refresh_returns (ctx : Context K) (exp : K → K) (m : PMCData K)
    (hseeds : ∀ e, spanEnd ctx = some e → ∀ x ∈ ctx.seasons, x.seed ≠ 0 → x.start ≤ e)
    (hsd : 0 ≤ (rereadConfig ctx m).stsDays_) :
    ∃ m', refresh ctx exp m = pure m' := by
  by_cases h : m.isstale = true
  · by_cases hv : spanStart ctx ≠ none ∧ spanEnd ctx ≠ none
        ∧ QDate.lt (spanStart ctx) (spanEnd ctx) = true
    · obtain ⟨h1, h2, h3⟩ := hv
      cases hs : spanStart ctx with
      | none => exact absurd hs h1
      | some s =>
        cases he : spanEnd ctx with
        | none => exact absurd he h2
        | some e =>
          rw [hs, he] at h3
          have hlt : s < e := by simpa [QDate.lt] using h3
          exact ⟨_, refresh_valid ctx exp m s e h hs he hlt (hseeds e he) hsd⟩
    · exact ⟨_, refresh_empty ctx exp m h hv⟩
  · exact ⟨m, refresh_clean ctx exp m (by simpa using h)⟩

/-- When the range is valid, `refresh` returns only if the short-term window is not
negative. -/
theorem refresh_window (ctx : Context K) (exp : K → K) (m m' : PMCData K) (s e : Int)
    (h : m.isstale = true) (hr : refresh ctx exp m = pure m')
    (hs : spanStart ctx = some s) (he : spanEnd ctx = some e) (hlt : s < e) :
    0 ≤ (rereadConfig ctx m).stsDays_ := by
  have hne : 0 < m'.days_ := by
    rcases refresh_stale_shape ctx exp m m' h hr with ⟨hv, _⟩ | ⟨s', e', _, _, hlt', _, _, hd, _⟩
    · exfalso
      apply hv
      rw [hs, he]
      simp [QDate.lt, hlt]
    · omega
  obtain ⟨_, _, _, _, _, _, hsd, _⟩ := refresh_nonempty ctx exp m m' h hr hne
  exact hsd

end Faults

section SeriesLemmas
variable {K : Type} [LinearOrder K] [Zero K] [One K] [Add K] [Sub K] [Mul K] [Neg K] [Div K]
  [IntCast K]

/-! ## The series after `refresh` -/

theorem seedSeries_val (ctx : Context K) (s e : Int) (j : Nat) (hj : j < spanDays s e)
    (h : ∀ x ∈ ctx.seasons, x.seed ≠ 0 → s ≤ x.start) :
    QVector.val (seedSeries ctx s e) j =
      match seedFor (s + j) ctx.seasons with
      | some M => ((M * -1 : Int) : K)
      | none => 0 := by
  unfold seedSeries
  rw [seedsP_val s ctx.seasons _ j (by simpa using hj) h]
  cases seedFor (s + j) ctx.seasons with
  | none => simp [QVector.val_replicate]
  | some M => rfl

theorem value_pure (x : K) (m : PMCData K) :
    value (pure (x, m) : Except Fault (K × PMCData K)) = pure x := rfl

theorem computed_lengths (ctx : Context K) (exp : K → K) (m : PMCData K) (s e : Int) :
    (computed ctx exp m s e).stress_.length = spanDays s e ∧
    (computed ctx exp m s e).lts_.length = spanDays s e ∧
    (computed ctx exp m s e).sts_.length = spanDays s e ∧
    (computed ctx exp m s e).sb_.length = spanDays s e + 1 ∧
    (computed ctx exp m s e).rr_.length = spanDays s e := by
  have h := finalVars_sized ctx exp m s e
  exact ⟨stressSeries_length _ _ _ _, h.lts, h.sts, h.sb, h.rr⟩

/-- Inside the range, after a `refresh` that returned a non-empty range, every point query
returns the element of its series at the day offset of the date. -/
theorem queries_in_range (ctx : Context K) (exp : K → K) (m m' : PMCData K)
    (hstale : m.isstale = true) (hr : refresh ctx exp m = pure m') (hne : 0 < m'.days_)
    (s d : Int) (hs : m'.start_ = some s) (hd0 : s ≤ d) (hd1 : d - s < m'.days_) :
    value (lts ctx exp m (some d)) = pure (QVector.val m'.lts_ (d - s).toNat) ∧
    value (sts ctx exp m (some d)) = pure (QVector.val m'.sts_ (d - s).toNat) ∧
    value (stress ctx exp m (some d)) = pure (QVector.val m'.stress_ (d - s).toNat) ∧
    value (sb ctx exp m (some d)) = pure (QVector.val m'.sb_ (d - s).toNat) ∧
    value (rr ctx exp m (some d)) = pure (QVector.val m'.rr_ (d - s).toNat) := by
  obtain ⟨s', e, _, _, hlt, _, _, hm⟩ := refresh_nonempty ctx exp m m' hstale hr hne
  have hdays : m'.days_ = e - s' + 1 := by rw [hm]; rfl
  obtain ⟨l1, l2, l3, l4, l5⟩ := computed_lengths ctx exp m s' e
  rw [← hm] at l1 l2 l3 l4 l5
  have hj : QDate.daysToIn ctx.qt m'.start_ (some d) = (((d - s).toNat : Nat) : Int) := by
    rw [hs]; simp [QDate.daysToIn]; omega
  have hlt' : (((d - s).toNat : Nat) : Int) < m'.days_ := by omega
  have hn : (d - s).toNat < spanDays s' e := by unfold spanDays; omega
  refine ⟨?_, ?_, ?_, ?_, ?_⟩
  · unfold lts
    rw [pointQuery_in PMCData.lts_ ctx exp m m' hr (some d) _ hj hlt' (by omega)]; rfl
  · unfold sts
    rw [pointQuery_in PMCData.sts_ ctx exp m m' hr (some d) _ hj hlt' (by omega)]; rfl
  · unfold stress
    rw [pointQuery_in PMCData.stress_ ctx exp m m' hr (some d) _ hj hlt' (by omega)]; rfl
  · unfold sb
    rw [pointQuery_in PMCData.sb_ ctx exp m m' hr (some d) _ hj hlt' (by omega)]; rfl
  · unfold rr
    rw [pointQuery_in PMCData.rr_ ctx exp m m' hr (some d) _ hj hlt' (by omega)]; rfl

/-- When the day offset of a date is negative or not below `days_`, every point query
returns `0.0`. -/
theorem queries_out_of_range (ctx : Context K) (exp : K → K) (m m' : PMCData K)
    (hr : refresh ctx exp m = pure m') (date : QDate)
    (h : QDate.daysToIn ctx.qt m'.start_ date < 0 ∨ QDate.daysToIn ctx.qt m'.start_ date ≥ m'.days_) :
    lts ctx exp m date = pure (0, m') ∧ sts ctx exp m date = pure (0, m') ∧
    stress ctx exp m date = pure (0, m') ∧ sb ctx exp m date = pure (0, m') ∧
    rr ctx exp m date = pure (0, m') :=
  ⟨pointQuery_out _ ctx exp m m' hr date h, pointQuery_out _ ctx exp m m' hr date h,
   pointQuery_out _ ctx exp m m' hr date h, pointQuery_out _ ctx exp m m' hr date h,
   pointQuery_out _ ctx exp m m' hr date h⟩

/-- The stress of the first day of the range is never written: line 178 asks for
`offset > 0`. -/
theorem stress_first_day (ctx : Context K) (exp : K → K) (m m' : PMCData K)
    (hstale : m.isstale = true) (hr : refresh ctx exp m = pure m') (hne : 0 < m'.days_) :
    QVector.val m'.stress_ 0 = 0 := by
  obtain ⟨s, e, _, _, _, _, _, rfl⟩ := refresh_nonempty ctx exp m m' hstale hr hne
  show QVector.val (stressSeries ctx (rereadConfig ctx m) s e) 0 = 0
  unfold stressSeries
  rw [addStress_val_zero, QVector.val_replicate]

end SeriesLemmas

section DayLemmas
variable {K : Type} [LinearOrderedField K]

/-- The load series after a `refresh` that returned a non-empty range starting on `s`: a day
whose seed in force `M` is positive carries `M`; every other day carries the decayed
combination of its stress and the previous day's load. -/
theorem load_day (ctx : Context K) (exp : K → K) (m m' : PMCData K)
    (hstale : m.isstale = true) (hr : refresh ctx exp m = pure m') (hne : 0 < m'.days_)
    (s : Int) (hs : m'.start_ = some s) (day : Nat) (hday : (day : Int) < m'.days_) :
    (QVector.val m'.lts_ day =
      if ∃ M, seedFor (s + day) ctx.seasons = some M ∧ 0 < M then
        ((seedFor (s + day) ctx.seasons).getD 0 : K)
      else QVector.val m'.stress_ day * (1 - decay exp m'.ltsDays_)
          + (if day = 0 then 0 else QVector.val m'.lts_ (day - 1)) * decay exp m'.ltsDays_) ∧
    (QVector.val m'.sts_ day =
      if ∃ M, seedFor (s + day) ctx.seasons = some M ∧ 0 < M then
        ((seedFor (s + day) ctx.seasons).getD 0 : K)
      else QVector.val m'.stress_ day * (1 - decay exp m'.stsDays_)
          + (if day = 0 then 0 else QVector.val m'.sts_ (day - 1)) * decay exp m'.stsDays_) := by
  obtain ⟨s', e, _, _, hlt, hin, hsd, rfl⟩ := refresh_nonempty ctx exp m m' hstale hr hne
  have : s' = s := by
    have : (computed ctx exp m s' e).start_ = some s' := rfl
    rw [this] at hs; exact Option.some.inj hs
  subst this
  have hj : day < spanDays s' e := by
    have : (computed ctx exp m s' e).days_ = e - s' + 1 := rfl
    rw [this] at hday
    unfold spanDays; omega
  have hv := seedSeries_val ctx s' e day hj (fun x hx h0 => (hin x hx h0).1)
  have inv := finalVars_inv ctx exp m s' e hsd
  have hL := inv.ltsDone day hj
  have hS := inv.stsDone day hj
  cases hsf : seedFor (s' + day) ctx.seasons with
  | none =>
    rw [hsf] at hv
    simp only at hv
    rw [hv] at hL hS
    simp only [le_refl, or_self, if_true] at hL hS
    simp only [reduceCtorEq, false_and, exists_false, if_false]
    exact ⟨hL, hS⟩
  | some M =>
    rw [hsf] at hv
    simp only at hv
    rw [hv] at hL hS
    have hM0 := seedFor_some_ne_zero _ _ _ hsf
    by_cases hpos : 0 < M
    · have c : ¬ (0 ≤ ((M * -1 : Int) : K) ∨ 0 ≤ ((M * -1 : Int) : K)) := by
        have : ((M * -1 : Int) : K) < 0 := by
          have : (M * -1 : Int) < 0 := by omega
          exact_mod_cast this
        simp only [or_self, not_le]; exact this
      have e1 : (∃ M', (some M : Option Int) = some M' ∧ 0 < M') := ⟨M, rfl, hpos⟩
      rw [if_neg c] at hL hS
      rw [if_pos e1, if_pos e1]
      have e2 : ((M * -1 : Int) : K) * -1 = (M : K) := by push_cast; ring
      rw [e2] at hL hS
      exact ⟨hL, hS⟩
    · have c : (0 ≤ ((M * -1 : Int) : K) ∨ 0 ≤ ((M * -1 : Int) : K)) := by
        left
        have : (0 : Int) ≤ M * -1 := by omega
        exact_mod_cast this
      have e1 : ¬ (∃ M', (some M : Option Int) = some M' ∧ 0 < M') := by
        rintro ⟨M', h1, h2⟩
        have : M = M' := Option.some.inj h1
        omega
      rw [if_pos c] at hL hS
      rw [if_neg e1, if_neg e1]
      exact ⟨hL, hS⟩

/-- The ramp rate after a `refresh` that returned a non-empty range: the difference of the
long-term load over the last `stsDays_` days (over all days so far, when there are fewer). -/
theorem ramp_day (ctx : Context K) (exp : K → K) (m m' : PMCData K)
    (hstale : m.isstale = true) (hr : refresh ctx exp m = pure m') (hne : 0 < m'.days_)
    (day : Nat) (hday : (day : Int) < m'.days_) :
    0 ≤ m'.stsDays_ ∧
    QVector.val m'.rr_ day
      = QVector.val m'.lts_ day - QVector.val m'.lts_ (day - m'.stsDays_.toNat) := by
  obtain ⟨s, e, _, _, hlt, hin, hsd, rfl⟩ := refresh_nonempty ctx exp m m' hstale hr hne
  have hj : day < spanDays s e := by
    have : (computed ctx exp m s e).days_ = e - s + 1 := rfl
    rw [this] at hday
    unfold spanDays; omega
  have inv := finalVars_inv ctx exp m s e hsd
  exact ⟨hsd, inv.rrDone day hj⟩

/-- The balance series after a `refresh` that returned a non-empty range: the balance of day
`day` is stored at `day` when `GC_SB_TODAY` is set, at `day + 1` otherwise, and position `0`
then stays `0`. -/
theorem balance_day (ctx : Context K) (exp : K → K) (m m' : PMCData K)
    (hstale : m.isstale = true) (hr : refresh ctx exp m = pure m') (hne : 0 < m'.days_) :
    (∀ day : Nat, (day : Int) < m'.days_ →
      QVector.val m'.sb_ (day + (if ctx.GC_SB_TODAY.toInt ≠ 0 then 0 else 1))
        = QVector.val m'.lts_ day - QVector.val m'.sts_ day) ∧
    (ctx.GC_SB_TODAY.toInt = 0 → QVector.val m'.sb_ 0 = 0) := by
  obtain ⟨s, e, _, _, hlt, hin, hsd, rfl⟩ := refresh_nonempty ctx exp m m' hstale hr hne
  have inv := finalVars_inv ctx exp m s e hsd
  constructor
  · intro day hday
    have hj : day < spanDays s e := by
      have : (computed ctx exp m s e).days_ = e - s + 1 := rfl
      rw [this] at hday
      unfold spanDays; omega
    have := inv.sbDone day hj
    by_cases hf : ctx.GC_SB_TODAY.toInt = 0
    · simpa [hf] using this
    · simpa [hf] using this
  · intro hf
    have := inv.sbLater 0 (Or.inl (by simp [hf]))
    exact this

end DayLemmas

section RideLemmas
variable {K : Type} [LinearOrderedField K]

/-! ## The ride store and the reachable states -/

theorem firstRide_nil : firstRide ([] : List (RideItem K)) = none := rfl

theorem lastRide_nil : lastRide ([] : List (RideItem K)) = none := rfl

theorem firstRide_cons (r : RideItem K) (rs : List (RideItem K)) :
    firstRide (r :: rs) = some r.date := by
  simp [firstRide]

theorem lastRide_mem (rides : List (RideItem K)) (l : Int) (h : lastRide rides = some l) :
    ∃ r ∈ rides, r.date = l := by
  unfold lastRide at h
  split_ifs at h with h0
  cases hl : rides.getLast? with
  | none => rw [hl] at h; cases h
  | some r =>
    rw [hl] at h
    exact ⟨r, List.mem_of_getLast?_eq_some hl, by simpa using h⟩

theorem lastRide_some (rides : List (RideItem K)) (h : rides ≠ []) :
    ∃ l, lastRide rides = some l := by
  unfold lastRide
  have : rides.length ≠ 0 := by simpa using h
  rw [if_pos this, List.getLast?_eq_getLast _ h]
  exact ⟨_, rfl⟩

/-- In a ride store ordered by date the first ride is the earliest. -/
theorem firstRide_le (rides : List (RideItem K))
    (hsorted : rides.Pairwise (fun a b => a.date ≤ b.date)) (f : Int)
    (h : firstRide rides = some f) : ∀ r ∈ rides, f ≤ r.date := by
  cases rides with
  | nil => cases h
  | cons r rs =>
    rw [firstRide_cons] at h
    have : r.date = f := Option.some.inj h
    subst this
    intro x hx
    rcases List.mem_cons.mp hx with rfl | hx'
    · exact le_rfl
    · exact List.rel_of_pairwise_cons hsorted hx'

theorem firstRide_mem (rides : List (RideItem K)) (f : Int) (h : firstRide rides = some f) :
    ∃ r ∈ rides, r.date = f := by
  cases rides with
  | nil => cases h
  | cons r rs =>
    rw [firstRide_cons] at h
    exact ⟨r, List.mem_cons_self _ _, Option.some.inj h⟩

theorem firstRide_none (rides : List (RideItem K)) (h : firstRide rides = none) :
    rides = [] := by
  cases rides with
  | nil => rfl
  | cons r rs => rw [firstRide_cons] at h; cases h

/-- The earliest seeded start, characterised: it is a seeded start below every seeded start. -/
theorem earliestSeed_eq (seasons : List Season) (D : Int)
    (hmem : ∃ x ∈ seasons, x.seed ≠ 0 ∧ x.start = D)
    (hmin : ∀ x ∈ seasons, x.seed ≠ 0 → D ≤ x.start) : earliestSeed seasons = some D := by
  obtain ⟨x, hx, hx0, hxD⟩ := hmem
  obtain ⟨b, hb, hle⟩ := earliestSeed_le seasons x hx hx0
  obtain ⟨y, hy, hy0, hyb⟩ := earliestSeed_mem seasons b hb
  have := hmin y hy hy0
  rw [hb]; congr 1; omega

theorem rangeShape_emptied (m : PMCData K) : RangeShape (emptied m) :=
  Or.inl ⟨rfl, rfl, rfl⟩

/-- What `refresh` returns has an empty range or a range of `e - s + 1` days. -/
theorem rangeShape_refresh (ctx : Context K) (exp : K → K) (m m' : PMCData K)
    (hm : RangeShape m) (hr : refresh ctx exp m = pure m') : RangeShape m' := by
  by_cases h : m.isstale = true
  · rcases refresh_stale_shape ctx exp m m' h hr with ⟨_, h1⟩ | ⟨s, e, _, _, hlt, h1, h2, h3, _⟩
    · subst h1; exact rangeShape_emptied _
    · exact Or.inr ⟨s, e, h1, h2, hlt, h3⟩
  · rw [refresh_clean ctx exp m (by simpa using h)] at hr
    have : m' = m := (Except.ok.inj hr).symm
    subst this; exact hm

theorem rangeShape_reachable (m : PMCData K) (h : Reachable m) : RangeShape m := by
  induction h with
  | new ctx exp spec metricName stsDays ltsDays m h =>
    unfold PMCData.new at h
    refine rangeShape_refresh ctx exp _ m ?_ h
    left
    dsimp only
    split_ifs <;> exact ⟨rfl, rfl, rfl⟩
  | invalidate m _ ih => exact ih
  | refresh ctx exp m m' _ hr ih => exact rangeShape_refresh ctx exp m m' ih hr

end RideLemmas


section StressLemmas
variable {K : Type} [LinearOrderedField K]

/-- From the second day of the range on, `addStress` adds to each day the finite metric
values of the passing rides of that day. -/
theorem addStress_val {qt : QtVersion} (spec : RideItem K → Bool) (name : String) (s : Int)
    (rides : List (RideItem K)) (acc : QVector K) (j : Nat) (hj0 : 1 ≤ j)
    (hj : j < acc.length) :
    QVector.val (addStress qt spec name (some s) rides acc) j
      = QVector.val acc j + dayStress spec name (s + j) rides := by
  induction rides generalizing acc with
  | nil => simp [addStress, dayStress]
  | cons r rs ih =>
    simp only [addStress, List.foldl_cons] at ih ⊢
    simp only [dayStress, List.map_cons, List.sum_cons] at ih ⊢
    have hd : QDate.daysToIn qt (some s) (some r.date) = r.date - s := rfl
    rw [hd]
    by_cases hp : spec r = true
    · by_cases hin : 0 < r.date - s ∧ r.date - s < (acc.length : Int)
      · cases hv : r.getForSymbol name with
        | finite v =>
          simp only [hp, Bool.not_true, Bool.false_eq_true, if_false, hin, and_self, if_true, hv]
          rw [ih _ (by simpa using hj), QVector.val_set]
          by_cases hdj : r.date = s + j
          · have : (r.date - s).toNat = j := by omega
            simp [rideStress, hp, hdj, hv, this, hj]; ring
          · have : ¬ ((r.date - s).toNat = j) := by omega
            simp [rideStress, hp, hdj, this]
        | posInf =>
          simp only [hp, Bool.not_true, Bool.false_eq_true, if_false, hin, and_self, if_true, hv]
          rw [ih _ hj]; simp [rideStress, hv]
        | negInf =>
          simp only [hp, Bool.not_true, Bool.false_eq_true, if_false, hin, and_self, if_true, hv]
          rw [ih _ hj]; simp [rideStress, hv]
        | nan =>
          simp only [hp, Bool.not_true, Bool.false_eq_true, if_false, hin, and_self, if_true, hv]
          rw [ih _ hj]; simp [rideStress, hv]
      · simp only [hp, Bool.not_true, Bool.false_eq_true, if_false, hin]
        rw [ih _ hj]
        have : ¬ (r.date = s + j) := by omega
        simp [rideStress, this]
    · have hp' : spec r = false := by simpa using hp
      simp only [hp', Bool.not_false, if_true]
      rw [ih _ hj]; simp [rideStress, hp']

/-- The stress series after a `refresh` that returned a non-empty range starting on `s`: from
the second day on, the sum of the finite metric values of the passing rides of the day. -/
theorem stress_day (ctx : Context K) (exp : K → K) (m m' : PMCData K)
    (hstale : m.isstale = true) (hr : refresh ctx exp m = pure m') (hne : 0 < m'.days_)
    (s : Int) (hs : m'.start_ = some s) (day : Nat) (h1 : 1 ≤ day)
    (hday : (day : Int) < m'.days_) :
    QVector.val m'.stress_ day
      = dayStress m'.specification_ m'.metricName_ (s + day) ctx.rides := by
  obtain ⟨s', e, _, _, hlt, hin, hsd, rfl⟩ := refresh_nonempty ctx exp m m' hstale hr hne
  have : s' = s := by
    have : (computed ctx exp m s' e).start_ = some s' := rfl
    rw [this] at hs; exact Option.some.inj hs
  subst this
  have hj : day < spanDays s' e := by
    have : (computed ctx exp m s' e).days_ = e - s' + 1 := rfl
    rw [this] at hday
    unfold spanDays; omega
  show QVector.val (stressSeries ctx (rereadConfig ctx m) s' e) day = _
  unfold stressSeries
  rw [addStress_val _ _ _ _ _ day h1 (by simpa using hj), QVector.val_replicate, zero_add]
  rfl

end StressLemmas

section ShapeLemmas
variable {K : Type} [LinearOrderedField K]

/-! ## The shape of the refreshed model -/

theorem new_eq (ctx : Context K) (exp : K → K) (spec : RideItem K → Bool)
    (metricName : String) (stsDays ltsDays : Int) :
    PMCData.new ctx exp spec metricName stsDays ltsDays
      = refresh ctx exp (constructed ctx spec metricName stsDays ltsDays) := by
  unfold PMCData.new constructed
  by_cases h1 : ltsDays < 0 <;> by_cases h2 : stsDays < 0 <;> simp [h1, h2]

theorem emptyShape_emptied (m : PMCData K) : EmptyShape (emptied m) :=
  ⟨rfl, rfl, rfl, rfl, rfl, rfl, rfl, rfl⟩

theorem spanShape_computed (ctx : Context K) (exp : K → K) (m : PMCData K) (s e : Int)
    (hlt : s < e) : SpanShape (computed ctx exp m s e) := by
  obtain ⟨l1, l2, l3, l4, l5⟩ := computed_lengths ctx exp m s e
  have hc := spanDays_cast s e hlt
  have hd : (computed ctx exp m s e).days_ = e - s + 1 := rfl
  refine ⟨⟨s, e, rfl, rfl, by omega⟩, rfl, ?_, ?_, ?_, ?_, ?_⟩
  · rw [l1, hc, hd]
  · rw [l2, hc, hd]
  · rw [l3, hc, hd]
  · rw [l5, hc, hd]
  · rw [l4, hd]; push_cast; rw [hc]

/-- What a `refresh` of a stale model returns has the empty shape or the shape over a
range. -/
theorem shape_refresh_stale (ctx : Context K) (exp : K → K) (m m' : PMCData K)
    (h : m.isstale = true) (hr : refresh ctx exp m = pure m') :
    EmptyShape m' ∨ SpanShape m' := by
  rcases refresh_stale_shape ctx exp m m' h hr with ⟨_, h1⟩ | ⟨s, e, _, _, hlt, _, _, hd, _⟩
  · left; subst h1; exact emptyShape_emptied _
  · right
    obtain ⟨s', e', _, _, hlt', _, _, hm⟩ :=
      refresh_nonempty ctx exp m m' h hr (by omega)
    subst hm
    exact spanShape_computed ctx exp m s' e' hlt'

theorem shape_refresh (ctx : Context K) (exp : K → K) (m m' : PMCData K)
    (hm : EmptyShape m ∨ SpanShape m) (hr : refresh ctx exp m = pure m') :
    EmptyShape m' ∨ SpanShape m' := by
  by_cases h : m.isstale = true
  · exact shape_refresh_stale ctx exp m m' h hr
  · rw [refresh_clean ctx exp m (by simpa using h)] at hr
    have : m' = m := (Except.ok.inj hr).symm
    subst this; exact hm

theorem shape_reachable (m : PMCData K) (h : Reachable m) : EmptyShape m ∨ SpanShape m := by
  induction h with
  | new ctx exp spec metricName stsDays ltsDays m h =>
    rw [new_eq] at h
    exact shape_refresh_stale ctx exp _ m rfl h
  | invalidate m _ ih => exact ih
  | refresh ctx exp m m' _ hr ih => exact shape_refresh ctx exp m m' ih hr

theorem shape_exclusive (m : PMCData K) : ¬ (EmptyShape m ∧ SpanShape m) := by
  rintro ⟨⟨_, h1, _⟩, ⟨s, e, h2, _⟩, _⟩
  rw [h1] at h2; cases h2

end ShapeLemmas

section LoadLemmas
variable {K : Type} [LinearOrder K] [Zero K] [One K] [Add K] [Sub K] [Mul K] [Neg K] [Div K]
  [IntCast K]

/-! ## The load series in any arithmetic

The lemmas of this section use no law of arithmetic: they hold for the exact arithmetic of an
ordered field and for the rounded arithmetic of `Binary64` alike. -/

/-- One iteration of the loop writes the loads of day `k` and leaves the other days. -/
theorem stepP_loads (X : QVector K) (sd : Int) (sbToday : Bool) (lte ste : K) (v : LoopVars K)
    (k n : Nat) (hk : k < n) (h : Sized n v) :
    (∀ j, QVector.val (stepP X sd sbToday lte ste v k).lts_ j =
      if j = k then
        newLoad (QVector.val X k) (QVector.val v.lts_ k) (QVector.val v.sts_ k)
          (if k = 0 then v.lastLTS else QVector.val v.lts_ (k - 1)) lte
      else QVector.val v.lts_ j) ∧
    (∀ j, QVector.val (stepP X sd sbToday lte ste v k).sts_ j =
      if j = k then
        newLoad (QVector.val X k) (QVector.val v.sts_ k) (QVector.val v.lts_ k)
          (if k = 0 then v.lastSTS else QVector.val v.sts_ (k - 1)) ste
      else QVector.val v.sts_ j) := by
  obtain ⟨r1, r2, _⟩ := rampP_rest sd (loadP X lte ste v k) k
  have eL : (stepP X sd sbToday lte ste v k).lts_ = (loadP X lte ste v k).lts_ := by
    simp [stepP, balanceP, r1]
  have eS : (stepP X sd sbToday lte ste v k).sts_ = (loadP X lte ste v k).sts_ := by
    simp [stepP, balanceP, r2]
  refine ⟨?_, ?_⟩
  · intro j
    rw [eL, loadP_lts, QVector.val_set]
    have := h.lts
    by_cases hj : j = k
    · subst hj; simp [this, hk]
    · have : ¬ (k = j) := fun e => hj e.symm
      simp [hj, this]
  · intro j
    rw [eS, loadP_sts, QVector.val_set]
    have := h.sts
    by_cases hj : j = k
    · subst hj; simp [this, hk]
    · have : ¬ (k = j) := fun e => hj e.symm
      simp [hj, this]

theorem loadInv_init (X : QVector K) (lte ste : K) (L0 S0 : QVector K) (n : Nat) :
    LoadInv X lte ste L0 S0 0 (initVars L0 S0 n) := by
  constructor <;> simp [initVars]

theorem loadInv_step (X : QVector K) (sd : Int) (sbToday : Bool) (lte ste : K)
    (L0 S0 : QVector K) (n k : Nat) (v : LoopVars K) (hk : k < n)
    (hs : Sized n v) (h : LoadInv X lte ste L0 S0 k v) :
    LoadInv X lte ste L0 S0 (k + 1) (stepP X sd sbToday lte ste v k) := by
  obtain ⟨fL, fS⟩ := stepP_loads X sd sbToday lte ste v k n hk hs
  have hLk : QVector.val v.lts_ k = QVector.val L0 k := h.ltsLater k le_rfl
  have hSk : QVector.val v.sts_ k = QVector.val S0 k := h.stsLater k le_rfl
  have keepL : ∀ j, j ≠ k → QVector.val (stepP X sd sbToday lte ste v k).lts_ j
      = QVector.val v.lts_ j := fun j hj => by rw [fL]; simp [hj]
  have keepS : ∀ j, j ≠ k → QVector.val (stepP X sd sbToday lte ste v k).sts_ j
      = QVector.val v.sts_ j := fun j hj => by rw [fS]; simp [hj]
  have newL : QVector.val (stepP X sd sbToday lte ste v k).lts_ k =
      if 0 ≤ QVector.val L0 k ∨ 0 ≤ QVector.val S0 k then
        QVector.val X k * (1 - lte)
          + (if k = 0 then 0 else QVector.val (stepP X sd sbToday lte ste v k).lts_ (k - 1)) * lte
      else QVector.val L0 k * -1 := by
    rw [fL]
    simp only [if_true, newLoad, hLk, hSk]
    by_cases h0 : k = 0
    · simp [h0, (h.first h0).1]
    · rw [keepL (k - 1) (by omega)]; simp [h0]
  have newS : QVector.val (stepP X sd sbToday lte ste v k).sts_ k =
      if 0 ≤ QVector.val L0 k ∨ 0 ≤ QVector.val S0 k then
        QVector.val X k * (1 - ste)
          + (if k = 0 then 0 else QVector.val (stepP X sd sbToday lte ste v k).sts_ (k - 1)) * ste
      else QVector.val S0 k * -1 := by
    rw [fS]
    have e : (0 ≤ QVector.val S0 k ∨ 0 ≤ QVector.val L0 k)
        ↔ (0 ≤ QVector.val L0 k ∨ 0 ≤ QVector.val S0 k) := or_comm
    simp only [if_true, newLoad, hLk, hSk, e]
    by_cases h0 : k = 0
    · simp [h0, (h.first h0).2]
    · rw [keepS (k - 1) (by omega)]; simp [h0]
  constructor
  · intro h0; omega
  · intro j hj; rw [keepL j (by omega)]; exact h.ltsLater j (by omega)
  · intro j hj; rw [keepS j (by omega)]; exact h.stsLater j (by omega)
  · intro j hj
    by_cases hjk : j = k
    · subst hjk; exact newL
    · rw [keepL j hjk, h.ltsDone j (by omega)]
      by_cases hj0 : j = 0
      · simp [hj0]
      · rw [keepL (j - 1) (by omega)]
  · intro j hj
    by_cases hjk : j = k
    · subst hjk; exact newS
    · rw [keepS j hjk, h.stsDone j (by omega)]
      by_cases hj0 : j = 0
      · simp [hj0]
      · rw [keepS (j - 1) (by omega)]

theorem loadInv_loop (X : QVector K) (sd : Int) (sbToday : Bool) (lte ste : K)
    (L0 S0 : QVector K) (n : Nat) (hL : L0.length = n) (hS : S0.length = n)
    (k : Nat) (hk : k ≤ n) :
    LoadInv X lte ste L0 S0 k (loopP X sd sbToday lte ste (initVars L0 S0 n) k) := by
  have hs : Sized n (initVars L0 S0 n) := by
    constructor <;> simp [initVars, hL, hS]
  induction k with
  | zero => exact loadInv_init X lte ste L0 S0 n
  | succ k ih =>
    exact loadInv_step X sd sbToday lte ste L0 S0 n k _ (by omega)
      (loopP_sized _ _ _ _ _ _ _ hs k) (ih (by omega))

/-- The load series after a `refresh` that returned a non-empty range starting on `s`, in any
arithmetic: a day whose value before the loop is negative (a seed was placed) carries that
value times `-1`; every other day carries `stress*(1-factor) + previous*factor`, each
operation being the one of the arithmetic. -/
theorem load_day_raw (ctx : Context K) (exp : K → K) (m m' : PMCData K)
    (hstale : m.isstale = true) (hr : refresh ctx exp m = pure m') (hne : 0 < m'.days_)
    (s : Int) (hs : m'.start_ = some s) (day : Nat) (hday : (day : Int) < m'.days_) :
    (QVector.val m'.lts_ day =
      if 0 ≤ (seedValue (s + day) ctx.seasons : K) then
        QVector.val m'.stress_ day * (1 - decay exp m'.ltsDays_)
          + (if day = 0 then 0 else QVector.val m'.lts_ (day - 1)) * decay exp m'.ltsDays_
      else seedValue (s + day) ctx.seasons * -1) ∧
    (QVector.val m'.sts_ day =
      if 0 ≤ (seedValue (s + day) ctx.seasons : K) then
        QVector.val m'.stress_ day * (1 - decay exp m'.stsDays_)
          + (if day = 0 then 0 else QVector.val m'.sts_ (day - 1)) * decay exp m'.stsDays_
      else seedValue (s + day) ctx.seasons * -1) := by
  obtain ⟨s', e, _, _, hlt, hin, hsd, rfl⟩ := refresh_nonempty ctx exp m m' hstale hr hne
  have : s' = s := by
    have : (computed ctx exp m s' e).start_ = some s' := rfl
    rw [this] at hs; exact Option.some.inj hs
  subst this
  have hj : day < spanDays s' e := by
    have : (computed ctx exp m s' e).days_ = e - s' + 1 := rfl
    rw [this] at hday
    unfold spanDays; omega
  have hv : QVector.val (seedSeries ctx s' e) day = seedValue (s' + day) ctx.seasons :=
    seedSeries_val ctx s' e day hj (fun x hx h0 => (hin x hx h0).1)
  have inv := loadInv_loop (stressSeries ctx (rereadConfig ctx m) s' e)
    (rereadConfig ctx m).stsDays_ (decide (ctx.GC_SB_TODAY.toInt ≠ 0))
    (decay exp (rereadConfig ctx m).ltsDays_) (decay exp (rereadConfig ctx m).stsDays_)
    (seedSeries ctx s' e) (seedSeries ctx s' e) (spanDays s' e)
    (seedSeries_length ctx s' e) (seedSeries_length ctx s' e) (spanDays s' e) le_rfl
  have hL := inv.ltsDone day hj
  have hS := inv.stsDone day hj
  rw [hv] at hL hS
  simp only [or_self] at hL hS
  exact ⟨hL, hS⟩

end LoadLemmas

/-! ## The examples -/

theorem exTwoRides_refresh : refresh exTwoRides exExp exModel = pure exTwoRidesDone :=
  refresh_valid exTwoRides exExp exModel exDay (exDay + 366) rfl (by decide) (by decide)
    (by decide) (fun x hx => by cases hx) (by decide)

theorem exOneRide_refresh : refresh exOneRide exExp exModel = pure exOneRideDone :=
  refresh_valid exOneRide exExp exModel exDay (exDay + 365) rfl (by decide) (by decide)
    (by decide) (fun x hx => by cases hx) (by decide)

theorem exSeedQt4_refresh : refresh exSeedQt4 exExp exModel = pure exSeedQt4Done :=
  refresh_valid exSeedQt4 exExp exModel exDay (exDay + 365) rfl (by decide) (by decide)
    (by decide)
    (by intro x hx _; simp [exSeedQt4, exSeed, exContext] at hx; subst hx; decide) (by decide)

theorem exSeed_refresh : refresh exSeed exExp exModel = pure exSeedDone :=
  refresh_valid exSeed exExp exModel exDay (exDay + 365) rfl (by decide) (by decide)
    (by decide) (by intro x hx _; simp [exSeed, exContext] at hx; subst hx; decide) (by decide)

theorem exNegSeed_refresh : refresh exNegSeed exExp exModel = pure exNegSeedDone :=
  refresh_valid exNegSeed exExp exModel exDay (exDay + 365) rfl (by decide) (by decide)
    (by decide) (by intro x hx _; simp [exNegSeed, exContext] at hx; subst hx; decide)
    (by decide)

theorem exLateSeed_refresh :
    refresh exLateSeed exExp exModel = pure (emptied (rereadConfig exLateSeed exModel)) :=
  refresh_empty exLateSeed exExp exModel rfl (by decide)

theorem exLateRide_refresh :
    refresh exLateRide exExp exModel = pure (emptied (rereadConfig exLateRide exModel)) :=
  refresh_empty exLateRide exExp exModel rfl (by decide)

theorem exEmpty_refresh : refresh exEmpty exExp exModel = pure exModel :=
  refresh_empty exEmpty exExp exModel rfl (by decide)

theorem exRideThenSeed_refresh :
    refresh exRideThenSeed exExp exModel = pure exRideThenSeedDone :=
  refresh_valid exRideThenSeed exExp exModel exDay (exDay + 375) rfl (by decide) (by decide)
    (by decide)
    (by intro x hx _; simp [exRideThenSeed, exContext] at hx; subst hx; decide) (by decide)

theorem exTwoSeeds_refresh : refresh exTwoSeeds exExp exModel = pure exTwoSeedsDone :=
  refresh_valid exTwoSeeds exExp exModel exDay (exDay + 365) rfl (by decide) (by decide)
    (by decide)
    (by intro x hx _; simp [exTwoSeeds, exContext] at hx; rcases hx with rfl | rfl <;> decide)
    (by decide)

theorem lastRide_none {K : Type} (rides : List (RideItem K)) (h : lastRide rides = none) :
    rides = [] := by
  by_contra hne
  unfold lastRide at h
  have : rides.length ≠ 0 := by simpa using hne
  rw [if_pos this, List.getLast?_eq_getLast _ hne] at h
  cases h

theorem exModel_reachable : Reachable exModel :=
  Reachable.new exEmpty exExp (fun _ => true) "coggan_tss" 7 42 exModel (by
    unfold PMCData.new
    simp only [show ¬ ((42 : Int) < 0) by decide, show ¬ ((7 : Int) < 0) by decide, if_false]
    exact exEmpty_refresh)

/-! ## The examples in binary64 -/

theorem exOvershoot_refresh :
    refresh exOvershoot exExp64 (exModel64 1 1) = pure exOvershootDone :=
  refresh_valid exOvershoot exExp64 (exModel64 1 1) exDay (exDay + 367) rfl (by decide)
    (by decide) (by decide)
    (by intro x hx _; simp [exOvershoot] at hx; subst hx; decide) (by decide)

set_option maxRecDepth 100000 in
/-- The stress series of `exOvershoot` lies between `0` and `31.000000000000004`. -/
theorem exOvershoot_stress :
    ∀ day : Nat, day < 368 →
      0 ≤ QVector.val exOvershootDone.stress_ day ∧
      QVector.val exOvershootDone.stress_ day ≤ exPeak := by decide

set_option maxRecDepth 100000 in
/-- The loads of the third day of `exOvershoot`, computed in binary64:
`31.000000000000007`. -/
theorem exOvershoot_loads :
    QVector.val exOvershootDone.lts_ 2 = Binary64.dyadic 4362862139015169 (-47) ∧
    QVector.val exOvershootDone.sts_ 2 = Binary64.dyadic 4362862139015169 (-47) := by
  have hne : 0 < exOvershootDone.days_ := by decide
  have d0 := load_day_raw exOvershoot exExp64 (exModel64 1 1) _ rfl exOvershoot_refresh hne
    exDay rfl 0 (by decide)
  have d1 := load_day_raw exOvershoot exExp64 (exModel64 1 1) _ rfl exOvershoot_refresh hne
    exDay rfl 1 (by decide)
  have d2 := load_day_raw exOvershoot exExp64 (exModel64 1 1) _ rfl exOvershoot_refresh hne
    exDay rfl 2 (by decide)
  have s0 : (seedValue (exDay + ((0 : Nat) : Int)) exOvershoot.seasons : Binary64)
      = ((-31 : Int) : Binary64) := by decide
  have s1 : (seedValue (exDay + ((1 : Nat) : Int)) exOvershoot.seasons : Binary64) = 0 := by
    decide
  have s2 : (seedValue (exDay + ((2 : Nat) : Int)) exOvershoot.seasons : Binary64) = 0 := by
    decide
  have x1 : QVector.val exOvershootDone.stress_ 1 = exPeak := by decide
  have x2 : QVector.val exOvershootDone.stress_ 2 = exPeak := by decide
  have ea : decay exExp64 exOvershootDone.ltsDays_ = Binary64.dyadic 828390857088487 (-51) := by
    decide
  have eb : decay exExp64 exOvershootDone.stsDays_ = Binary64.dyadic 828390857088487 (-51) := by
    decide
  rw [s0, ea, eb] at d0
  rw [s1, ea, eb, x1] at d1
  rw [s2, ea, eb, x2] at d2
  rw [if_neg (by decide)] at d0
  rw [if_neg (by decide)] at d0
  simp only [le_refl, if_true, if_neg (show ¬ (1 = 0) by decide)] at d1
  simp only [le_refl, if_true, if_neg (show ¬ (2 = 0) by decide)] at d2
  obtain ⟨l0, t0⟩ := d0
  obtain ⟨l1, t1⟩ := d1
  obtain ⟨l2, t2⟩ := d2
  simp only [Nat.sub_self, Nat.add_one_sub_one, Nat.reduceSub] at l1 t1 l2 t2
  rw [l0] at l1
  rw [t0] at t1
  rw [l1] at l2
  rw [t1] at t2
  rw [l2, t2]
  exact ⟨by decide, by decide⟩

theorem exSeed64_refresh : refresh exSeed64 exExp64 (exModel64 7 42) = pure exSeed64Done :=
  refresh_valid exSeed64 exExp64 (exModel64 7 42) exDay (exDay + 365) rfl (by decide)
    (by decide) (by decide)
    (by intro x hx _; simp [exSeed64] at hx; subst hx; decide) (by decide)

set_option maxRecDepth 100000 in
/-- The long-term load of the fourth day of `exSeed64`, computed in binary64:
`4.655313898520115`, the seed `5` multiplied three times by the decay factor, each product
rounded. -/
theorem exSeed64_loads :
    QVector.val exSeed64Done.lts_ 0 = ((5 : Int) : Binary64) ∧
    QVector.val exSeed64Done.lts_ 1
      = QVector.val exSeed64Done.lts_ 0 * decay exExp64 42 ∧
    QVector.val exSeed64Done.lts_ 2
      = QVector.val exSeed64Done.lts_ 1 * decay exExp64 42 ∧
    QVector.val exSeed64Done.lts_ 3
      = QVector.val exSeed64Done.lts_ 2 * decay exExp64 42 ∧
    QVector.val exSeed64Done.lts_ 3 = Binary64.dyadic 2620708742333485 (-49) := by
  have hne : 0 < exSeed64Done.days_ := by decide
  have d0 := (load_day_raw exSeed64 exExp64 (exModel64 7 42) _ rfl exSeed64_refresh hne
    exDay rfl 0 (by decide)).1
  have d1 := (load_day_raw exSeed64 exExp64 (exModel64 7 42) _ rfl exSeed64_refresh hne
    exDay rfl 1 (by decide)).1
  have d2 := (load_day_raw exSeed64 exExp64 (exModel64 7 42) _ rfl exSeed64_refresh hne
    exDay rfl 2 (by decide)).1
  have d3 := (load_day_raw exSeed64 exExp64 (exModel64 7 42) _ rfl exSeed64_refresh hne
    exDay rfl 3 (by decide)).1
  have s0 : (seedValue (exDay + ((0 : Nat) : Int)) exSeed64.seasons : Binary64)
      = ((-5 : Int) : Binary64) := by decide
  have s1 : (seedValue (exDay + ((1 : Nat) : Int)) exSeed64.seasons : Binary64) = 0 := by
    decide
  have s2 : (seedValue (exDay + ((2 : Nat) : Int)) exSeed64.seasons : Binary64) = 0 := by
    decide
  have s3 : (seedValue (exDay + ((3 : Nat) : Int)) exSeed64.seasons : Binary64) = 0 := by
    decide
  have x1 : QVector.val exSeed64Done.stress_ 1 = 0 := by decide
  have x2 : QVector.val exSeed64Done.stress_ 2 = 0 := by decide
  have x3 : QVector.val exSeed64Done.stress_ 3 = 0 := by decide
  have ea : decay exExp64 exSeed64Done.ltsDays_ = Binary64.dyadic 8795275048289765 (-53) := by
    decide
  have ea' : decay exExp64 42 = Binary64.dyadic 8795275048289765 (-53) := by decide
  rw [s0, ea] at d0
  rw [s1, ea, x1] at d1
  rw [s2, ea, x2] at d2
  rw [s3, ea, x3] at d3
  rw [if_neg (by decide)] at d0
  simp only [le_refl, if_true, if_neg (show ¬ (1 = 0) by decide), Nat.sub_self] at d1
  simp only [le_refl, if_true, if_neg (show ¬ (2 = 0) by decide), Nat.add_one_sub_one,
    Nat.reduceSub] at d2
  simp only [le_refl, if_true, if_neg (show ¬ (3 = 0) by decide), Nat.add_one_sub_one,
    Nat.reduceSub] at d3
  have v0 : QVector.val exSeed64Done.lts_ 0 = ((5 : Int) : Binary64) := by
    rw [d0]; decide
  have v1 : QVector.val exSeed64Done.lts_ 1 = Binary64.dyadic 5497046905181103 (-50) := by
    rw [d1, v0]; decide
  have v2 : QVector.val exSeed64Done.lts_ 2 = Binary64.dyadic 2683855331554343 (-49) := by
    rw [d2, v1]; decide
  have v3 : QVector.val exSeed64Done.lts_ 3 = Binary64.dyadic 2620708742333485 (-49) := by
    rw [d3, v2]; decide
  refine ⟨v0, ?_, ?_, ?_, v3⟩
  · rw [v1, v0, ea']; decide
  · rw [v2, v1, ea']; decide
  · rw [v3, v2, ea']; decide

/-! # Properties from the specification -/

/-- C1. After `refresh` on a non-empty range, on every day index `day < days_` on which no
season with a declared seed starts, `lts_[day] = stress_[day]*(1-a) + prevL*a` and
`sts_[day] = stress_[day]*(1-b) + prevS*b`, where `a = exp(-1/ltsDays_)`,
`b = exp(-1/stsDays_)` and `prevL`, `prevS` are the final values of the previous day, `0` for
day `0`. (For a constant that is `0` the quotient `-1.0/0` is `-inf` and the factor is
`exp(-inf) = 0`.) -/
theorem C1_decay_recurrence {K : Type} [LinearOrderedField K]
    (ctx : Context K) (exp : K → K) (m m' : PMCData K)
    (hstale : m.isstale = true) (hr : refresh ctx exp m = pure m') (hne : 0 < m'.days_)
    (day : Nat) (hday : (day : Int) < m'.days_)
    (hseed : ∀ x ∈ ctx.seasons, x.seed ≠ 0 →
      QDate.daysToIn ctx.qt m'.start_ (some x.start) ≠ (day : Int)) :
    ∃ a b : K,
      (m'.ltsDays_ ≠ 0 → a = exp (-1 / ((m'.ltsDays_ : Int) : K))) ∧
      (m'.ltsDays_ = 0 → a = 0) ∧
      (m'.stsDays_ ≠ 0 → b = exp (-1 / ((m'.stsDays_ : Int) : K))) ∧
      (m'.stsDays_ = 0 → b = 0) ∧
      QVector.val m'.lts_ day =
        QVector.val m'.stress_ day * (1 - a)
          + (if day = 0 then 0 else QVector.val m'.lts_ (day - 1)) * a ∧
      QVector.val m'.sts_ day =
        QVector.val m'.stress_ day * (1 - b)
          + (if day = 0 then 0 else QVector.val m'.sts_ (day - 1)) * b := by
  obtain ⟨s, e, _, _, _, _, _, hm⟩ := refresh_nonempty ctx exp m m' hstale hr hne
  have hs : m'.start_ = some s := by rw [hm]; rfl
  have hnone : seedFor (s + day) ctx.seasons = none := by
    apply seedFor_none
    intro x hx h0 hxd
    apply hseed x hx h0
    rw [hs]
    show x.start - s = (day : Int)
    omega
  have h := load_day ctx exp m m' hstale hr hne s hs day hday
  rw [hnone] at h
  refine ⟨decay exp m'.ltsDays_, decay exp m'.stsDays_, ?_, ?_, ?_, ?_, ?_, ?_⟩
  · intro h0; unfold decay; rw [if_neg h0]
  · intro h0; unfold decay; rw [if_pos h0]
  · intro h0; unfold decay; rw [if_neg h0]
  · intro h0; unfold decay; rw [if_pos h0]
  · simpa using h.1
  · simpa using h.2

/-- Witness of C1: two rides, no season, day `1`, constants 42 and 7. -/
theorem C1_decay_recurrence_witness :
    refresh exTwoRides exExp exModel = pure exTwoRidesDone ∧
    ∃ a b : ℚ,
      a = exExp (-1 / ((42 : Int) : ℚ)) ∧ b = exExp (-1 / ((7 : Int) : ℚ)) ∧
      QVector.val exTwoRidesDone.lts_ 1 =
        QVector.val exTwoRidesDone.stress_ 1 * (1 - a)
          + QVector.val exTwoRidesDone.lts_ 0 * a ∧
      QVector.val exTwoRidesDone.sts_ 1 =
        QVector.val exTwoRidesDone.stress_ 1 * (1 - b)
          + QVector.val exTwoRidesDone.sts_ 0 * b := by
  obtain ⟨a, b, ha, _, hb, _, h1, h2⟩ :=
    C1_decay_recurrence exTwoRides exExp exModel exTwoRidesDone rfl exTwoRides_refresh
      (by decide) 1 (by decide) (fun x hx => by cases hx)
  exact ⟨exTwoRides_refresh, a, b, ha (by decide), hb (by decide), by simpa using h1,
    by simpa using h2⟩

/-- C2 (the code drops the rides of the first day of the range). With one passing ride of the
finite value 50 on 2015-01-01 and no season, the date is the start of the range, its offset is
`0`, and the guard `offset > 0` of line 178 skips the ride: `stress` and `lts` return `0` on
that date. A ride on the second day is counted. -/
theorem C2_first_day_stress_dropped :
    value (stress exOneRide exExp exModel (some exDay)) = pure 0 ∧
    value (lts exOneRide exExp exModel (some exDay)) = pure 0 ∧
    value (stress exTwoRides exExp exModel (some (exDay + 1))) = pure 64 := by
  have hne1 : 0 < exOneRideDone.days_ := by decide
  have hne2 : 0 < exTwoRidesDone.days_ := by decide
  have q1 := queries_in_range exOneRide exExp exModel _ rfl exOneRide_refresh hne1
    exDay exDay rfl (by decide) (by decide)
  have q2 := queries_in_range exTwoRides exExp exModel _ rfl exTwoRides_refresh hne2
    exDay (exDay + 1) rfl (by decide) (by decide)
  have e0 : (exDay - exDay).toNat = 0 := by decide
  have e1 : (exDay + 1 - exDay).toNat = 1 := by decide
  have s0 := stress_first_day exOneRide exExp exModel _ rfl exOneRide_refresh hne1
  have l0 := (load_day exOneRide exExp exModel _ rfl exOneRide_refresh hne1 exDay rfl 0
    (by decide)).1
  have s1 := stress_day exTwoRides exExp exModel _ rfl exTwoRides_refresh hne2 exDay rfl 1
    le_rfl (by decide)
  refine ⟨?_, ?_, ?_⟩
  · rw [q1.2.2.1, e0, s0]
  · rw [q1.1, e0, l0, s0]
    simp [seedFor, exOneRide, exContext]
  · rw [q2.2.2.1, e1, s1]
    simp [dayStress, rideStress, exTwoRides, exContext, exRide, exTwoRidesDone, computed,
      rereadConfig, exModel, exDay]

/-- Counterexample to C3 as stated. A season with the seed `-5` on 2015-01-01 and no ride:
`lts` returns `0` on that date, neither `-5` nor `5` (the negated seed is positive and the day
is treated as not seeded). A season with seed `5` on 9999-12-31: the start of the range stays
at the sentinel and is reset, the range is empty and `lts` returns `0`, not `5`. -/
theorem C3_counterexample :
    value (lts exNegSeed exExp exModel (some exDay)) = pure 0 ∧
    value (lts exNegSeed exExp exModel (some exDay)) ≠ pure (((-5 : Int)) : ℚ) ∧
    value (lts exNegSeed exExp exModel (some exDay)) ≠ pure (((5 : Int)) : ℚ) ∧
    value (lts exLateSeed exExp exModel (some 5373484)) = pure 0 ∧
    value (lts exLateSeed exExp exModel (some 5373484)) ≠ pure (((5 : Int)) : ℚ) := by
  have hne : 0 < exNegSeedDone.days_ := by decide
  have q := queries_in_range exNegSeed exExp exModel _ rfl exNegSeed_refresh hne
    exDay exDay rfl (by decide) (by decide)
  have e0 : (exDay - exDay).toNat = 0 := by decide
  have s0 := stress_first_day exNegSeed exExp exModel _ rfl exNegSeed_refresh hne
  have l0 := (load_day exNegSeed exExp exModel _ rfl exNegSeed_refresh hne exDay rfl 0
    (by decide)).1
  have h1 : value (lts exNegSeed exExp exModel (some exDay)) = pure 0 := by
    rw [q.1, e0, l0, s0]
    simp [seedFor, exNegSeed, exContext]
  have h2 : value (lts exLateSeed exExp exModel (some 5373484)) = pure 0 := by
    rw [(queries_out_of_range exLateSeed exExp exModel _ exLateSeed_refresh (some 5373484)
      (Or.inr (by decide))).1]
    rfl
  refine ⟨h1, ?_, ?_, h2, ?_⟩
  · rw [h1]; intro h; have := Except.ok.inj h; norm_num at this
  · rw [h1]; intro h; have := Except.ok.inj h; norm_num at this
  · rw [h2]; intro h; have := Except.ok.inj h; norm_num at this

/-- C3, amended. For a stale model, no ride and a season store in which the only declared
seed is a positive seed `M` of a season that starts on `D0`, with `D0` before 9999-12-31:
after `refresh`, `lts(D0)` and `sts(D0)` return exactly `M`. -/
theorem C3_seed_day {K : Type} [LinearOrderedField K]
    (ctx : Context K) (exp : K → K) (m : PMCData K) (D0 M : Int)
    (hstale : m.isstale = true) (hmem : (⟨D0, M⟩ : Season) ∈ ctx.seasons)
    (honly : ∀ x ∈ ctx.seasons, x.seed ≠ 0 → x = ⟨D0, M⟩) (hrides : ctx.rides = [])
    (hM : 0 < M) (hD : D0 < 5373484) (m' : PMCData K) (hret : refresh ctx exp m = pure m') :
    value (lts ctx exp m (some D0)) = pure (M : K) ∧
    value (sts ctx exp m (some D0)) = pure (M : K) := by
  have hM0 : M ≠ 0 := by omega
  have hex : ∃ x ∈ ctx.seasons, x.seed ≠ 0 ∧ x.start = D0 := ⟨_, hmem, hM0, rfl⟩
  have hseed : earliestSeed ctx.seasons = some D0 :=
    earliestSeed_eq ctx.seasons D0 hex (fun x hx h0 => by rw [honly x hx h0])
  have hs : spanStart ctx = some D0 := by
    unfold spanStart
    rw [hseed, hrides, firstRide_nil]
    exact resolveStart_eq _ _ D0 hD (Or.inl rfl) (fun d hd => by cases hd; exact le_rfl)
      (fun f hf => by cases hf)
  have he : spanEnd ctx = some (D0 + 365) := by
    unfold spanEnd
    rw [hseed, hrides, lastRide_nil]
    exact (resolveEnd_cases _ _).2.1 D0 rfl rfl
  have hsd := refresh_window ctx exp m m' D0 (D0 + 365) hstale hret hs he (by omega)
  have hr := refresh_valid ctx exp m D0 (D0 + 365) hstale hs he (by omega)
    (by intro x hx h0; rw [honly x hx h0]; simp) hsd
  have hne : 0 < (computed ctx exp m D0 (D0 + 365)).days_ := by
    show 0 < D0 + 365 - D0 + 1; omega
  have q := queries_in_range ctx exp m _ hstale hr hne D0 D0 rfl le_rfl
    (by show D0 - D0 < D0 + 365 - D0 + 1; omega)
  have e0 : (D0 - D0).toNat = 0 := by simp
  have hsf : seedFor (D0 + ((0 : Nat) : Int)) ctx.seasons = some M := by
    have hd0 : D0 + ((0 : Nat) : Int) = D0 := by simp
    rw [hd0]
    cases hc : seedFor D0 ctx.seasons with
    | none => exact absurd hc (seedFor_ne_none D0 ctx.seasons hex)
    | some M' =>
      obtain ⟨x, hx, h0, _, h3⟩ := seedFor_mem D0 ctx.seasons M' hc
      rw [honly x hx h0] at h3
      simp only at h3
      rw [h3]
  have l0 := load_day ctx exp m _ hstale hr hne D0 rfl 0
    (by show ((0 : Nat) : Int) < D0 + 365 - D0 + 1; omega)
  rw [hsf] at l0
  have c : ∃ M', (some M : Option Int) = some M' ∧ 0 < M' := ⟨M, rfl, hM⟩
  rw [if_pos c, if_pos c] at l0
  rw [q.1, q.2.1, e0, l0.1, l0.2]
  exact ⟨rfl, rfl⟩

/-- Witness of C3, amended: one season with seed 5 on 2015-01-01. -/
theorem C3_seed_day_witness :
    refresh exSeed exExp exModel = pure exSeedDone ∧
    value (lts exSeed exExp exModel (some exDay)) = pure ((5 : Int) : ℚ) ∧
    value (sts exSeed exExp exModel (some exDay)) = pure ((5 : Int) : ℚ) :=
  ⟨exSeed_refresh,
    C3_seed_day exSeed exExp exModel exDay 5 rfl (List.mem_cons_self _ _)
      (by intro x hx _; simp [exSeed, exContext] at hx; exact hx) rfl (by decide) (by decide)
      exSeedDone exSeed_refresh⟩

/-- C4. After `refresh`, for every date `d` from `start_` to `end_`: when `GC_SB_TODAY` is set,
`sb(d) = lts(d) - sts(d)`; when it is not, `sb(d) = lts(d-1) - sts(d-1)`, all five values being
those the point queries return (so `sb(start_) = 0` in the second case). -/
theorem C4_balance {K : Type} [LinearOrderedField K]
    (ctx : Context K) (exp : K → K) (m m' : PMCData K)
    (hstale : m.isstale = true) (hr : refresh ctx exp m = pure m')
    (s e d : Int) (hs : m'.start_ = some s) (he : m'.end_ = some e) (hd : s ≤ d ∧ d ≤ e) :
    ∃ b l t l1 t1 : K,
      value (sb ctx exp m (some d)) = pure b ∧
      value (lts ctx exp m (some d)) = pure l ∧ value (sts ctx exp m (some d)) = pure t ∧
      value (lts ctx exp m (some (d - 1))) = pure l1 ∧
      value (sts ctx exp m (some (d - 1))) = pure t1 ∧
      (ctx.GC_SB_TODAY.toInt ≠ 0 → b = l - t) ∧
      (ctx.GC_SB_TODAY.toInt = 0 → b = l1 - t1) ∧
      (ctx.GC_SB_TODAY.toInt = 0 → d = s → b = 0) := by
  have hshape : ∃ s' e', s' < e' ∧ m'.start_ = some s' ∧ m'.end_ = some e'
      ∧ m'.days_ = e' - s' + 1 := by
    rcases refresh_stale_shape ctx exp m m' hstale hr with ⟨_, h1⟩ | ⟨s', e', _, _, h3, h4, h5, h6, _⟩
    · rw [h1] at hs; cases hs
    · exact ⟨s', e', h3, h4, h5, h6⟩
  obtain ⟨s', e', hlt, hs', he', hdays⟩ := hshape
  have es : s' = s := by rw [hs] at hs'; exact (Option.some.inj hs').symm
  have ee : e' = e := by rw [he] at he'; exact (Option.some.inj he').symm
  subst es ee
  have hne : 0 < m'.days_ := by omega
  have q := queries_in_range ctx exp m m' hstale hr hne s' d hs hd.1 (by omega)
  obtain ⟨bal, bal0⟩ := balance_day ctx exp m m' hstale hr hne
  have hj : (((d - s').toNat : Nat) : Int) < m'.days_ := by omega
  by_cases hds : d = s'
  · -- the first day of the range: the day before is outside
    have out := queries_out_of_range ctx exp m m' hr (some (d - 1))
      (Or.inl (by rw [hs]; show d - 1 - s' < 0; omega))
    refine ⟨_, _, _, 0, 0, q.2.2.2.1, q.1, q.2.1, by rw [out.1]; rfl, by rw [out.2.1]; rfl,
      ?_, ?_, ?_⟩
    · intro hf
      have := bal (d - s').toNat hj
      simpa [hf] using this
    · intro hf
      have e0 : (d - s').toNat = 0 := by omega
      rw [e0, bal0 hf]; simp
    · intro hf _
      have e0 : (d - s').toNat = 0 := by omega
      rw [e0, bal0 hf]
  · have q1 := queries_in_range ctx exp m m' hstale hr hne s' (d - 1) hs (by omega) (by omega)
    refine ⟨_, _, _, _, _, q.2.2.2.1, q.1, q.2.1, q1.1, q1.2.1, ?_, ?_, ?_⟩
    · intro hf
      have := bal (d - s').toNat hj
      simpa [hf] using this
    · intro hf
      have hj1 : (((d - 1 - s').toNat : Nat) : Int) < m'.days_ := by omega
      have := bal (d - 1 - s').toNat hj1
      have e1 : (d - 1 - s').toNat + 1 = (d - s').toNat := by omega
      simp only [hf, ne_eq, not_true_eq_false, if_false, e1] at this
      exact this
    · intro _ h; exact absurd h hds

/-- Witness of C4: two rides, the second day of the range. -/
theorem C4_balance_witness :
    refresh exTwoRides exExp exModel = pure exTwoRidesDone ∧
    ∃ b l t l1 t1 : ℚ,
      value (sb exTwoRides exExp exModel (some (exDay + 1))) = pure b ∧
      value (lts exTwoRides exExp exModel (some (exDay + 1))) = pure l ∧
      value (sts exTwoRides exExp exModel (some (exDay + 1))) = pure t ∧
      value (lts exTwoRides exExp exModel (some (exDay + 1 - 1))) = pure l1 ∧
      value (sts exTwoRides exExp exModel (some (exDay + 1 - 1))) = pure t1 ∧
      (exTwoRides.GC_SB_TODAY.toInt ≠ 0 → b = l - t) ∧
      (exTwoRides.GC_SB_TODAY.toInt = 0 → b = l1 - t1) ∧
      (exTwoRides.GC_SB_TODAY.toInt = 0 → exDay + 1 = exDay → b = 0) :=
  ⟨exTwoRides_refresh,
    C4_balance exTwoRides exExp exModel exTwoRidesDone rfl exTwoRides_refresh
      exDay (exDay + 366) (exDay + 1) rfl rfl (by decide)⟩

/-- C5. After `refresh` on a non-empty range, `rr_[0] = 0` and, for every day index with
`1 ≤ day ≤ stsDays_` and `day < days_`, `rr_[day] = lts_[day] - lts_[0]`; in particular at
`day = stsDays_`. -/
theorem C5_ramp_rate_first_window {K : Type} [LinearOrderedField K]
    (ctx : Context K) (exp : K → K) (m m' : PMCData K)
    (hstale : m.isstale = true) (hr : refresh ctx exp m = pure m') (hne : 0 < m'.days_) :
    QVector.val m'.rr_ 0 = 0 ∧
    (∀ day : Nat, 1 ≤ day → (day : Int) ≤ m'.stsDays_ → (day : Int) < m'.days_ →
      QVector.val m'.rr_ day = QVector.val m'.lts_ day - QVector.val m'.lts_ 0) ∧
    (∀ sd : Nat, m'.stsDays_ = (sd : Int) → (sd : Int) < m'.days_ →
      QVector.val m'.rr_ sd = QVector.val m'.lts_ sd - QVector.val m'.lts_ 0) := by
  refine ⟨?_, ?_, ?_⟩
  · have h := (ramp_day ctx exp m m' hstale hr hne 0 (by simpa using hne)).2
    rw [h]; simp
  · intro day _ h2 h3
    have h := (ramp_day ctx exp m m' hstale hr hne day h3).2
    have e0 : day - m'.stsDays_.toNat = 0 := by omega
    rw [h, e0]
  · intro sd h1 h2
    have h := (ramp_day ctx exp m m' hstale hr hne sd h2).2
    have e0 : sd - m'.stsDays_.toNat = 0 := by omega
    rw [h, e0]

/-- Witness of C5: two rides, explicit short-term constant 7; days 0, 3 and 7. -/
theorem C5_ramp_rate_first_window_witness :
    refresh exTwoRides exExp exModel = pure exTwoRidesDone ∧
    QVector.val exTwoRidesDone.rr_ 0 = 0 ∧
    QVector.val exTwoRidesDone.rr_ 3
      = QVector.val exTwoRidesDone.lts_ 3 - QVector.val exTwoRidesDone.lts_ 0 ∧
    QVector.val exTwoRidesDone.rr_ 7
      = QVector.val exTwoRidesDone.lts_ 7 - QVector.val exTwoRidesDone.lts_ 0 :=
  ⟨exTwoRides_refresh,
    (C5_ramp_rate_first_window exTwoRides exExp exModel exTwoRidesDone rfl exTwoRides_refresh
      (by decide)).1,
    (C5_ramp_rate_first_window exTwoRides exExp exModel exTwoRidesDone rfl exTwoRides_refresh
      (by decide)).2.1 3 (by decide) (by decide) (by decide),
    (C5_ramp_rate_first_window exTwoRides exExp exModel exTwoRidesDone rfl exTwoRides_refresh
      (by decide)).2.2 7 rfl (by decide)⟩

/-- C6. After `refresh` on a non-empty range with `stsDays_ = sd ≥ 1`, for every day index
with `sd < day < days_`: `rr_[day] = rr_[day-1] + (lts_[day]-lts_[day-1])
- (lts_[day-sd]-lts_[day-sd-1])`, `rr_[day] = lts_[day] - lts_[day-sd]`, and `rr_[day]` is the
sum of the last `sd` daily differences of `lts_`. -/
theorem C6_ramp_rate_window {K : Type} [LinearOrderedField K]
    (ctx : Context K) (exp : K → K) (m m' : PMCData K)
    (hstale : m.isstale = true) (hr : refresh ctx exp m = pure m') (hne : 0 < m'.days_)
    (sd : Nat) (hsd : m'.stsDays_ = (sd : Int)) (h1 : 1 ≤ sd)
    (day : Nat) (hlo : sd < day) (hday : (day : Int) < m'.days_) :
    QVector.val m'.rr_ day =
        QVector.val m'.rr_ (day - 1)
          + (QVector.val m'.lts_ day - QVector.val m'.lts_ (day - 1))
          - (QVector.val m'.lts_ (day - sd) - QVector.val m'.lts_ (day - sd - 1)) ∧
    QVector.val m'.rr_ day = QVector.val m'.lts_ day - QVector.val m'.lts_ (day - sd) ∧
    QVector.val m'.rr_ day =
      ∑ i in Finset.range sd,
        (QVector.val m'.lts_ (day - sd + i + 1) - QVector.val m'.lts_ (day - sd + i)) := by
  have hn : m'.stsDays_.toNat = sd := by omega
  have a := (ramp_day ctx exp m m' hstale hr hne day hday).2
  have b := (ramp_day ctx exp m m' hstale hr hne (day - 1) (by omega)).2
  rw [hn] at a b
  have e1 : day - 1 - sd = day - sd - 1 := by omega
  refine ⟨?_, a, ?_⟩
  · rw [a, b, e1]; ring
  · rw [a]
    have := Finset.sum_range_sub (fun i => QVector.val m'.lts_ (day - sd + i)) sd
    simp only [add_assoc] at this ⊢
    rw [this]
    have e2 : day - sd + sd = day := by omega
    simp [e2]

/-- Witness of C6: two rides, short-term constant 7, day 10. -/
theorem C6_ramp_rate_window_witness :
    refresh exTwoRides exExp exModel = pure exTwoRidesDone ∧
    (QVector.val exTwoRidesDone.rr_ 10 =
        QVector.val exTwoRidesDone.rr_ (10 - 1)
          + (QVector.val exTwoRidesDone.lts_ 10 - QVector.val exTwoRidesDone.lts_ (10 - 1))
          - (QVector.val exTwoRidesDone.lts_ (10 - 7)
              - QVector.val exTwoRidesDone.lts_ (10 - 7 - 1)) ∧
    QVector.val exTwoRidesDone.rr_ 10
      = QVector.val exTwoRidesDone.lts_ 10 - QVector.val exTwoRidesDone.lts_ (10 - 7) ∧
    QVector.val exTwoRidesDone.rr_ 10 =
      ∑ i in Finset.range 7,
        (QVector.val exTwoRidesDone.lts_ (10 - 7 + i + 1)
          - QVector.val exTwoRidesDone.lts_ (10 - 7 + i))) :=
  ⟨exTwoRides_refresh,
    C6_ramp_rate_window exTwoRides exExp exModel exTwoRidesDone rfl exTwoRides_refresh
      (by decide) 7 rfl (by decide) 10 (by decide) (by decide)⟩

/-- Counterexample to C7 as stated. In a build against Qt 5, with one seeded season the range
is not empty; the null date is below `start_` in the order of `QDate`, its day offset is `0`
(`daysTo` of Qt 5 returns `0` for a null date), and `lts` returns the value of the first day,
`5`, not `0`. In a build against Qt 4 the offset of the null date is negative and the same
query returns `0`. -/
theorem C7_counterexample :
    exSeed.qt = QtVersion.qt5 ∧
    QDate.lt none exSeedDone.start_ = true ∧
    QDate.daysToIn exSeed.qt exSeedDone.start_ none = 0 ∧
    value (lts exSeed exExp exModel none) = pure 5 ∧
    value (lts exSeed exExp exModel none) ≠ pure 0 ∧
    exSeedQt4.qt = QtVersion.qt4 ∧
    QDate.daysToIn exSeedQt4.qt exSeedQt4Done.start_ none = -exDay ∧
    value (lts exSeedQt4 exExp exModel none) = pure 0 := by
  have hne : 0 < exSeedDone.days_ := by decide
  have h : value (lts exSeed exExp exModel none) = pure 5 := by
    unfold lts
    rw [pointQuery_in PMCData.lts_ exSeed exExp exModel exSeedDone exSeed_refresh none 0 rfl
      (by decide)
      (by rw [show exSeedDone.lts_.length = spanDays exDay (exDay + 365) from
        (computed_lengths exSeed exExp exModel exDay (exDay + 365)).2.1]; decide)]
    have l0 := (load_day exSeed exExp exModel _ rfl exSeed_refresh hne exDay rfl 0
      (by decide)).1
    rw [value_pure, l0]
    simp [seedFor, exSeed, exContext]
  have h4 : value (lts exSeedQt4 exExp exModel none) = pure 0 := by
    unfold lts
    rw [pointQuery_out PMCData.lts_ exSeedQt4 exExp exModel exSeedQt4Done exSeedQt4_refresh
      none (Or.inl (by decide))]
    rfl
  refine ⟨rfl, by decide, rfl, h, ?_, rfl, rfl, h4⟩
  rw [h]; intro h'; have := Except.ok.inj h'; norm_num at this

/-- C7, amended. For every reachable model state on which the query's `refresh` returns, in
a build against Qt 4 or Qt 5: for every date whose day offset `start_.daysTo(date)` is an
`int` value, `indexOf` returns `-1` exactly when that offset is negative or not below `days_`,
and the offset otherwise; for every valid (non-null) date `d` before `start_` or after `end_`
whose offset is an `int` value, each of `lts`, `sts`, `stress`, `sb` and `rr` returns `0.0`
without a fault; and in a build against Qt 4 the null date, too, gets `0.0` from each query
on a range that starts on a valid date. -/
theorem C7_out_of_range_queries {K : Type} [LinearOrderedField K]
    (ctx : Context K) (exp : K → K) (m m' : PMCData K)
    (hm : Reachable m) (hr : refresh ctx exp m = pure m') :
    (∀ date : QDate, fitsInt (QDate.daysToIn ctx.qt m'.start_ date) →
      indexOf ctx exp m date =
        pure (if QDate.daysToIn ctx.qt m'.start_ date < 0
            ∨ QDate.daysToIn ctx.qt m'.start_ date ≥ m'.days_
          then -1 else QDate.daysToIn ctx.qt m'.start_ date, m')) ∧
    (∀ d : Int, (QDate.lt (some d) m'.start_ = true ∨ QDate.lt m'.end_ (some d) = true) →
      fitsInt (QDate.daysToIn ctx.qt m'.start_ (some d)) →
      lts ctx exp m (some d) = pure (0, m') ∧ sts ctx exp m (some d) = pure (0, m') ∧
      stress ctx exp m (some d) = pure (0, m') ∧ sb ctx exp m (some d) = pure (0, m') ∧
      rr ctx exp m (some d) = pure (0, m')) ∧
    (ctx.qt = QtVersion.qt4 → ∀ s : Int, m'.start_ = some s → 0 < s →
      fitsInt (QDate.daysToIn ctx.qt m'.start_ none) →
      lts ctx exp m none = pure (0, m') ∧ sts ctx exp m none = pure (0, m') ∧
      stress ctx exp m none = pure (0, m') ∧ sb ctx exp m none = pure (0, m') ∧
      rr ctx exp m none = pure (0, m')) := by
  refine ⟨fun date _ => indexOf_eq ctx exp m m' hr date, ?_, ?_⟩
  · intro d hd _
    apply queries_out_of_range ctx exp m m' hr (some d)
    rcases rangeShape_refresh ctx exp m m' (rangeShape_reachable m hm) hr with
      ⟨h1, _, h3⟩ | ⟨s, e, h1, h2, _, h4⟩
    · rw [h3]; exact lt_or_ge _ _
    · rw [h1, h2] at hd
      rw [h1, h4]
      simp only [QDate.lt, decide_eq_true_eq] at hd
      show d - s < 0 ∨ d - s ≥ e - s + 1
      omega
  · intro hq s hs hpos _
    apply queries_out_of_range ctx exp m m' hr none
    left
    rw [hs, hq]
    show (0 : Int) - s < 0
    omega

/-- Witness of C7, amended: the model as constructed on an empty store, queried after a
season with a seed was added, on the day before the start and on the day after the end; and
the null date in a build against Qt 4. -/
theorem C7_out_of_range_queries_witness :
    refresh exSeed exExp exModel = pure exSeedDone ∧
    indexOf exSeed exExp exModel (some (exDay - 1)) = pure (-1, exSeedDone) ∧
    indexOf exSeed exExp exModel (some (exDay + 1)) = pure (1, exSeedDone) ∧
    lts exSeed exExp exModel (some (exDay - 1)) = pure (0, exSeedDone) ∧
    sb exSeed exExp exModel (some (exDay + 366)) = pure (0, exSeedDone) ∧
    lts exSeedQt4 exExp exModel none = pure (0, exSeedQt4Done) :=
  ⟨exSeed_refresh,
    (C7_out_of_range_queries exSeed exExp exModel exSeedDone exModel_reachable
      exSeed_refresh).1 (some (exDay - 1)) (by decide),
    (C7_out_of_range_queries exSeed exExp exModel exSeedDone exModel_reachable
      exSeed_refresh).1 (some (exDay + 1)) (by decide),
    ((C7_out_of_range_queries exSeed exExp exModel exSeedDone exModel_reachable
      exSeed_refresh).2.1 (exDay - 1) (Or.inl (by decide)) (by decide)).1,
    ((C7_out_of_range_queries exSeed exExp exModel exSeedDone exModel_reachable
      exSeed_refresh).2.1 (exDay + 366) (Or.inr (by decide)) (by decide)).2.2.2.1,
    ((C7_out_of_range_queries exSeedQt4 exExp exModel exSeedQt4Done exModel_reachable
      exSeedQt4_refresh).2.2 rfl exDay rfl (by decide) (by decide)).1⟩

/-- C8. When the ride store is empty and no season declares a seed, `refresh` on a stale model
leaves an empty range (`days_ = 0`, null `start_` and `end_`, the five series of length `0`),
and every point query returns `0.0` for every date, the null date included. -/
theorem C8_empty_store {K : Type} [LinearOrderedField K]
    (ctx : Context K) (exp : K → K) (m : PMCData K)
    (hstale : m.isstale = true) (hrides : ctx.rides = [])
    (hseeds : ∀ x ∈ ctx.seasons, x.seed = 0) :
    ∃ m', refresh ctx exp m = pure m' ∧
      m'.days_ = 0 ∧ m'.start_ = none ∧ m'.end_ = none ∧
      m'.stress_.length = 0 ∧ m'.lts_.length = 0 ∧ m'.sts_.length = 0 ∧
      m'.sb_.length = 0 ∧ m'.rr_.length = 0 ∧
      ∀ date : QDate,
        lts ctx exp m date = pure (0, m') ∧ sts ctx exp m date = pure (0, m') ∧
        stress ctx exp m date = pure (0, m') ∧ sb ctx exp m date = pure (0, m') ∧
        rr ctx exp m date = pure (0, m') := by
  have hs : spanStart ctx = none := by
    unfold spanStart
    rw [earliestSeed_none ctx.seasons hseeds, hrides, firstRide_nil, resolveStart_none_none]
  have hr := refresh_empty ctx exp m hstale (by rw [hs]; simp)
  refine ⟨_, hr, rfl, rfl, rfl, rfl, rfl, rfl, rfl, rfl, ?_⟩
  intro date
  exact queries_out_of_range ctx exp m _ hr date (lt_or_ge _ _)

/-- Witness of C8: no ride, no season; a query on the null date and one on a valid date. -/
theorem C8_empty_store_witness :
    refresh exEmpty exExp exModel = pure exModel ∧
    exModel.days_ = 0 ∧
    lts exEmpty exExp exModel none = pure (0, exModel) ∧
    rr exEmpty exExp exModel (some exDay) = pure (0, exModel) :=
  match C8_empty_store exEmpty exExp exModel rfl rfl (fun x hx => by cases hx) with
  | ⟨m', hr, hd, _, _, _, _, _, _, _, hq⟩ => by
    have h : m' = exModel := Except.ok.inj (hr.symm.trans exEmpty_refresh)
    subst h
    exact ⟨hr, hd, (hq none).1, (hq (some exDay)).2.2.2.2⟩

/-- Counterexample to C9 as stated. A ride on 2015-01-01 and a seeded season ten days later:
`end_` is the season start plus 365 days, not the ride date plus 365 days. Two seeded seasons
a hundred days apart and no ride: `end_` is the earlier start plus 365 days, not the later
one. A ride on 9999-12-31: the range is empty and `end_` is null. -/
theorem C9_counterexample :
    endOf (refresh exRideThenSeed exExp exModel) = pure (some (exDay + 10 + 365)) ∧
    endOf (refresh exRideThenSeed exExp exModel) ≠ pure (some (exDay + 365)) ∧
    endOf (refresh exTwoSeeds exExp exModel) = pure (some (exDay + 365)) ∧
    endOf (refresh exTwoSeeds exExp exModel) ≠ pure (some (exDay + 100 + 365)) ∧
    endOf (refresh exLateRide exExp exModel) = pure none ∧
    endOf (refresh exLateRide exExp exModel) ≠ pure (some (5373484 + 365)) := by
  rw [exRideThenSeed_refresh, exTwoSeeds_refresh, exLateRide_refresh]
  refine ⟨rfl, ?_, rfl, ?_, rfl, ?_⟩
  · intro h; have := Except.ok.inj h; revert this; decide
  · intro h; have := Except.ok.inj h; revert this; decide
  · intro h; have := Except.ok.inj h; revert this; decide

/-- C9, amended. After a `refresh` that leaves a non-empty range: when the store has rides
and no season declares a seed, or the last ride is after the earliest seeded season start,
`end_` is the date of the last ride plus 365 days; when the store has rides, every seeded
season starts on one date `D` and the last ride is not after `D`, `end_` is `D` plus 365
days; when the store is empty and every seeded season starts on one date `D`, `end_` is `D`
plus 365 days. -/
theorem C9_end_of_span {K : Type} [LinearOrderedField K]
    (ctx : Context K) (exp : K → K) (m m' : PMCData K)
    (hstale : m.isstale = true) (hr : refresh ctx exp m = pure m') (hne : 0 < m'.days_) :
    (∀ l, lastRide ctx.rides = some l → (∀ x ∈ ctx.seasons, x.seed = 0) →
      m'.end_ = some (l + 365)) ∧
    (∀ l D, lastRide ctx.rides = some l → (∃ x ∈ ctx.seasons, x.seed ≠ 0 ∧ x.start = D) →
      (∀ x ∈ ctx.seasons, x.seed ≠ 0 → D ≤ x.start) → D < l → m'.end_ = some (l + 365)) ∧
    (∀ l D, lastRide ctx.rides = some l → (∃ x ∈ ctx.seasons, x.seed ≠ 0 ∧ x.start = D) →
      (∀ x ∈ ctx.seasons, x.seed ≠ 0 → x.start = D) → l ≤ D → m'.end_ = some (D + 365)) ∧
    (∀ D, ctx.rides = [] → (∃ x ∈ ctx.seasons, x.seed ≠ 0 ∧ x.start = D) →
      (∀ x ∈ ctx.seasons, x.seed ≠ 0 → x.start = D) → m'.end_ = some (D + 365)) := by
  obtain ⟨s, e, _, he, _, _, _, hm⟩ := refresh_nonempty ctx exp m m' hstale hr hne
  have hend : m'.end_ = spanEnd ctx := by rw [hm, he]; rfl
  rw [hend]
  unfold spanEnd
  obtain ⟨c1, c2, c3, c4⟩ := resolveEnd_cases (earliestSeed ctx.seasons) (lastRide ctx.rides)
  refine ⟨?_, ?_, ?_, ?_⟩
  · intro l hl h0
    exact c1 l (earliestSeed_none ctx.seasons h0) hl
  · intro l D hl hmem hmin hlt
    exact c3 D l (earliestSeed_eq ctx.seasons D hmem hmin) hl hlt
  · intro l D hl hmem hall hle
    exact c4 D l (earliestSeed_eq ctx.seasons D hmem (fun x hx h0 => by rw [hall x hx h0]))
      hl hle
  · intro D hr0 hmem hall
    refine c2 D (earliestSeed_eq ctx.seasons D hmem (fun x hx h0 => by rw [hall x hx h0])) ?_
    rw [hr0]; rfl

/-- Witness of C9, amended: a ride on 2015-01-01 and a seeded season ten days later; the
span ends 365 days after the season start. -/
theorem C9_end_of_span_witness :
    refresh exRideThenSeed exExp exModel = pure exRideThenSeedDone ∧
    lastRide exRideThenSeed.rides = some exDay ∧
    exRideThenSeedDone.end_ = some (exDay + 10 + 365) :=
  ⟨exRideThenSeed_refresh, rfl,
    (C9_end_of_span exRideThenSeed exExp exModel exRideThenSeedDone rfl exRideThenSeed_refresh
      (by decide)).2.2.1 exDay (exDay + 10) rfl
      ⟨⟨exDay + 10, 5⟩, by simp [exRideThenSeed, exContext], by decide, rfl⟩
      (by intro x hx _; simp [exRideThenSeed, exContext] at hx; subst hx; rfl)
      (by decide)⟩

/-- Counterexample to C10 as stated. With one ride, dated 9999-12-31, and no season, `start_`
is null after `refresh`, not the date of the ride: the date is not below the sentinel of line
108, `start_` keeps the sentinel and line 118 resets it. -/
theorem C10_counterexample :
    startOf (refresh exLateRide exExp exModel) = pure none ∧
    startOf (refresh exLateRide exExp exModel) ≠ pure (some 5373484) := by
  rw [exLateRide_refresh]
  refine ⟨rfl, ?_⟩
  intro h; have := Except.ok.inj h; revert this; decide

/-- C10, amended. Let `D` be the minimum of the start dates of the seasons that declare a
seed and of the dates of the rides of the whole store, the rides being ordered by date. When
`D` is before 9999-12-31, `start_` is `D` after `refresh`, whatever the filter lets pass. -/
theorem C10_start_of_span {K : Type} [LinearOrderedField K]
    (ctx : Context K) (exp : K → K) (m m' : PMCData K)
    (hstale : m.isstale = true) (hr : refresh ctx exp m = pure m') (D : Int)
    (hsorted : ctx.rides.Pairwise (fun a b => a.date ≤ b.date))
    (hmem : (∃ x ∈ ctx.seasons, x.seed ≠ 0 ∧ x.start = D) ∨ (∃ r ∈ ctx.rides, r.date = D))
    (hseasons : ∀ x ∈ ctx.seasons, x.seed ≠ 0 → D ≤ x.start)
    (hrides : ∀ r ∈ ctx.rides, D ≤ r.date) (hD : D < 5373484) :
    m'.start_ = some D := by
  have hseedle : ∀ d, earliestSeed ctx.seasons = some d → D ≤ d := by
    intro d hd
    obtain ⟨x, hx, h0, hxd⟩ := earliestSeed_mem ctx.seasons d hd
    have := hseasons x hx h0
    omega
  have hfirstle : ∀ f, firstRide ctx.rides = some f → D ≤ f := by
    intro f hf
    obtain ⟨r, hr', hrf⟩ := firstRide_mem ctx.rides f hf
    have := hrides r hr'
    omega
  have hs : spanStart ctx = some D := by
    unfold spanStart
    refine resolveStart_eq _ _ D hD ?_ hseedle hfirstle
    rcases hmem with hm | ⟨r, hr', hrD⟩
    · exact Or.inl (earliestSeed_eq ctx.seasons D hm hseasons)
    · right
      cases hf : firstRide ctx.rides with
      | none => rw [firstRide_none ctx.rides hf] at hr'; cases hr'
      | some f =>
        have h1 := firstRide_le ctx.rides hsorted f hf r hr'
        have h2 := hfirstle f hf
        congr 1; omega
  have he : ∃ e, spanEnd ctx = some e ∧ D < e := by
    unfold spanEnd
    obtain ⟨c1, c2, c3, c4⟩ := resolveEnd_cases (earliestSeed ctx.seasons) (lastRide ctx.rides)
    cases hsd : earliestSeed ctx.seasons with
    | none =>
      cases hl : lastRide ctx.rides with
      | none =>
        exfalso
        rcases hmem with ⟨x, hx, h0, _⟩ | ⟨r, hr', _⟩
        · obtain ⟨b, hb, _⟩ := earliestSeed_le ctx.seasons x hx h0
          rw [hsd] at hb; cases hb
        · rw [lastRide_none ctx.rides hl] at hr'; cases hr'
      | some l =>
        obtain ⟨r, hr', hrl⟩ := lastRide_mem ctx.rides l hl
        have := hrides r hr'
        rw [← hsd, ← hl]
        exact ⟨l + 365, c1 l hsd hl, by omega⟩
    | some d =>
      have := hseedle d hsd
      cases hl : lastRide ctx.rides with
      | none =>
        rw [← hsd, ← hl]
        exact ⟨d + 365, c2 d hsd hl, by omega⟩
      | some l =>
        rw [← hsd, ← hl]
        by_cases hdl : d < l
        · exact ⟨l + 365, c3 d l hsd hl hdl, by omega⟩
        · exact ⟨d + 365, c4 d l hsd hl (by omega), by omega⟩
  obtain ⟨e, he, hlt⟩ := he
  rcases refresh_stale_shape ctx exp m m' hstale hr with ⟨hv, _⟩ | ⟨s', e', hs', _, _, h4, _⟩
  · exfalso
    apply hv
    rw [hs, he]
    simp [QDate.lt, hlt]
  · rw [h4, ← hs', hs]

/-- Witness of C10, amended: a ride and a seeded season ten days later. -/
theorem C10_start_of_span_witness :
    refresh exRideThenSeed exExp exModel = pure exRideThenSeedDone ∧
    exRideThenSeedDone.start_ = some exDay :=
  ⟨exRideThenSeed_refresh,
    C10_start_of_span exRideThenSeed exExp exModel exRideThenSeedDone rfl
      exRideThenSeed_refresh exDay
      (by simp [exRideThenSeed, exContext])
      (Or.inr ⟨exRide exDay 50, by simp [exRideThenSeed, exContext], rfl⟩)
      (by intro x hx _; simp [exRideThenSeed, exContext] at hx; subst hx; decide)
      (by intro r hr; simp [exRideThenSeed, exContext] at hr; subst hr; decide)
      (by decide)⟩

/-- C11. After every `refresh` (of a reachable model state, when it returns) exactly one of
two shapes holds: the empty shape (`days_ = 0`, null `start_` and `end_`, the five series of
length `0`), or `start_ ≤ end_`, `days_ = start_.daysTo(end_) + 1`, the stress, `lts_`, `sts_`
and `rr_` series of length `days_` and the `sb_` series of length `days_ + 1`. -/
theorem C11_refresh_shape {K : Type} [LinearOrderedField K]
    (ctx : Context K) (exp : K → K) (m m' : PMCData K)
    (hm : Reachable m) (hr : refresh ctx exp m = pure m') :
    (EmptyShape m' ∨ SpanShape m') ∧ ¬ (EmptyShape m' ∧ SpanShape m') :=
  ⟨shape_refresh ctx exp m m' (shape_reachable m hm) hr, shape_exclusive m'⟩

/-- Witness of C11: the constructed model, refreshed after a seeded season was added, has
the shape over a range and not the empty shape. -/
theorem C11_refresh_shape_witness :
    refresh exSeed exExp exModel = pure exSeedDone ∧
    (EmptyShape exSeedDone ∨ SpanShape exSeedDone) ∧
    ¬ (EmptyShape exSeedDone ∧ SpanShape exSeedDone) :=
  ⟨exSeed_refresh, C11_refresh_shape exSeed exExp exModel exSeedDone exModel_reachable
    exSeed_refresh⟩

section MoreLemmas
variable {K : Type} [LinearOrderedField K]

/-! ## Faults, the stale flag and independence of the old state -/

theorem fault_eq (f : Fault) : f = Fault.indexOutOfRange := by
  cases f; rfl

/-- The day offset of a seeded season is never negative. -/
theorem seed_offset_nonneg (ctx : Context K) (s : Int) (hs : spanStart ctx = some s)
    (x : Season) (hx : x ∈ ctx.seasons) (h0 : x.seed ≠ 0) :
    0 ≤ QDate.daysTo (some s) (some x.start) := by
  obtain ⟨b, hb1, hb2⟩ := earliestSeed_le ctx.seasons x hx h0
  have := (resolveStart_some _ _ s hs).1 b hb1
  show 0 ≤ x.start - s
  omega

/-- When the range is valid and a seeded season starts after its end, `refresh` indexes
outside the load series (lines 166-167). -/
theorem refresh_fault_seed (ctx : Context K) (exp : K → K) (m : PMCData K) (s e : Int)
    (h : m.isstale = true) (hs : spanStart ctx = some s) (he : spanEnd ctx = some e)
    (hlt : s < e) (x : Season) (hx : x ∈ ctx.seasons) (h0 : x.seed ≠ 0) (hout : e < x.start) :
    refresh ctx exp m = Except.error Fault.indexOutOfRange := by
  cases hr : refresh ctx exp m with
  | error f => rw [fault_eq f]
  | ok m' =>
    exfalso
    have hne : 0 < m'.days_ := by
      rcases refresh_stale_shape ctx exp m m' h hr with ⟨hv, _⟩ | ⟨s', e', _, _, hlt', _, _, hd, _⟩
      · exfalso
        apply hv
        rw [hs, he]
        simp [QDate.lt, hlt]
      · omega
    obtain ⟨s', e', hs', he', _, hin, _, _⟩ := refresh_nonempty ctx exp m m' h hr hne
    rw [hs] at hs'; rw [he] at he'
    have e1 : e = e' := Option.some.inj he'
    have := (hin x hx h0).2
    omega

/-- When the range is valid and the short-term window is negative, `refresh` indexes
outside the long-term series (line 222). -/
theorem refresh_fault_window (ctx : Context K) (exp : K → K) (m : PMCData K) (s e : Int)
    (h : m.isstale = true) (hs : spanStart ctx = some s) (he : spanEnd ctx = some e)
    (hlt : s < e) (hneg : (rereadConfig ctx m).stsDays_ < 0) :
    refresh ctx exp m = Except.error Fault.indexOutOfRange := by
  cases hr : refresh ctx exp m with
  | error f => rw [fault_eq f]
  | ok m' =>
    exfalso
    have := refresh_window ctx exp m m' s e h hr hs he hlt
    omega

/-- After a `refresh` of a stale model the stale flag is still set exactly when the range
is empty: the branch of lines 133-144 returns before line 234. -/
theorem refresh_flag (ctx : Context K) (exp : K → K) (m m' : PMCData K)
    (h : m.isstale = true) (hr : refresh ctx exp m = pure m') :
    (m'.isstale = true ↔ m'.days_ = 0) := by
  rcases refresh_stale_shape ctx exp m m' h hr with ⟨_, h1⟩ | ⟨s, e, _, _, hlt, _, _, hd, hf⟩
  · subst h1
    have : (emptied (rereadConfig ctx m)).isstale = true := by
      simp only [emptied, rereadConfig]; split_ifs <;> simpa using h
    exact ⟨fun _ => rfl, fun _ => this⟩
  · rw [hf, hd]
    constructor
    · intro h'; cases h'
    · intro h'; omega

/-- The result of `refresh` on a stale model depends on the model only through the filter,
the metric name, `useDefaults` and, when the constants were passed explicitly, the two
constants: the old dates, day count and series do not enter. -/
theorem refresh_congr (ctx : Context K) (exp : K → K) (m1 m2 : PMCData K)
    (h1 : m1.isstale = true) (h2 : m2.isstale = true)
    (hspec : m1.specification_ = m2.specification_)
    (hname : m1.metricName_ = m2.metricName_)
    (hdef : m1.useDefaults = m2.useDefaults)
    (hsts : m1.useDefaults = false → m1.stsDays_ = m2.stsDays_)
    (hlts : m1.useDefaults = false → m1.ltsDays_ = m2.ltsDays_) :
    refresh ctx exp m1 = refresh ctx exp m2 := by
  have e1 : (rereadConfig ctx m1).specification_ = (rereadConfig ctx m2).specification_ := by
    unfold rereadConfig; split_ifs <;> simpa using hspec
  have e2 : (rereadConfig ctx m1).metricName_ = (rereadConfig ctx m2).metricName_ := by
    unfold rereadConfig; split_ifs <;> simpa using hname
  have e3 : (rereadConfig ctx m1).useDefaults = (rereadConfig ctx m2).useDefaults := by
    unfold rereadConfig; split_ifs <;> simpa using hdef
  have e4 : (rereadConfig ctx m1).stsDays_ = (rereadConfig ctx m2).stsDays_ := by
    unfold rereadConfig
    by_cases hd : m1.useDefaults = true
    · have hd2 : m2.useDefaults = true := by rw [← hdef]; exact hd
      simp [hd, hd2]
    · have hd' : m1.useDefaults = false := by simpa using hd
      have hd2 : m2.useDefaults = false := by rw [← hdef]; exact hd'
      simp [hd', hd2, hsts hd']
  have e5 : (rereadConfig ctx m1).ltsDays_ = (rereadConfig ctx m2).ltsDays_ := by
    unfold rereadConfig
    by_cases hd : m1.useDefaults = true
    · have hd2 : m2.useDefaults = true := by rw [← hdef]; exact hd
      simp [hd, hd2]
    · have hd' : m1.useDefaults = false := by simpa using hd
      have hd2 : m2.useDefaults = false := by rw [← hdef]; exact hd'
      simp [hd', hd2, hlts hd']
  have e6 : (rereadConfig ctx m1).isstale = (rereadConfig ctx m2).isstale := by
    unfold rereadConfig; split_ifs <;> simp [h1, h2]
  simp only [refresh, h1, h2, Bool.not_true, Bool.false_eq_true, if_false,
    QVector.fill_resize, QVector.resize_zero, e1, e2, e3, e4, e5, e6]

/-- Every point query on a stale model depends on the model only through the same
parameters. -/
theorem pointQuery_congr (series : PMCData K → QVector K) (ctx : Context K) (exp : K → K)
    (m1 m2 : PMCData K) (h : refresh ctx exp m1 = refresh ctx exp m2) (date : QDate) :
    pointQuery series ctx exp m1 date = pointQuery series ctx exp m2 date := by
  unfold pointQuery
  rw [h]

/-- A point query on a model that `refresh` has just returned gives what the query gives
on the model before that `refresh`. -/
theorem pointQuery_after (series : PMCData K → QVector K) (ctx : Context K) (exp : K → K)
    (m : PMCData K) (date : QDate) :
    (refresh ctx exp m >>= fun m0 => pointQuery series ctx exp m0 date)
      = pointQuery series ctx exp m date := by
  cases hr : refresh ctx exp m with
  | error f =>
    unfold pointQuery
    rw [hr]; rfl
  | ok m' =>
    have hi := refresh_idem ctx exp m m' hr
    show pointQuery series ctx exp m' date = pointQuery series ctx exp m date
    unfold pointQuery
    rw [hr, hi]
    rfl

end MoreLemmas

/-- C12 (the code writes a seed outside the series). Two seeded seasons a thousand days apart
and no ride: the range is valid, from 2015-01-01 to 365 days later (`days_ = 366`), because
`end_` is computed from the earliest seeded start; the offset of the second season is `1000`
and the write `lts_[1000]` of line 166 is outside the series: `refresh` faults. -/
theorem C12_seed_write_out_of_range :
    spanStart exFarSeeds = some exDay ∧ spanEnd exFarSeeds = some (exDay + 365) ∧
    QDate.daysTo (some exDay) (some (exDay + 365)) + 1 = 366 ∧
    QDate.daysTo (some exDay) (some (exDay + 1000)) = 1000 ∧
    refresh exFarSeeds exExp exModel = Except.error Fault.indexOutOfRange :=
  ⟨by decide, by decide, by decide, by decide,
    refresh_fault_seed exFarSeeds exExp exModel exDay (exDay + 365) rfl (by decide) (by decide)
      (by decide) ⟨exDay + 1000, 5⟩ (by simp [exFarSeeds, exContext]) (by decide) (by decide)⟩

/-- C13 (the early return leaves the model stale). With no ride and no season the constructor
returns a model whose stale flag is still set, and a point query returns with the flag still
set: the branch of lines 133-144 returns before `isstale=false`. -/
theorem C13_empty_range_stays_stale :
    PMCData.new exEmpty exExp (fun _ => true) "coggan_tss" 7 42 = pure exModel ∧
    exModel.isstale = true ∧
    lts exEmpty exExp exModel (some exDay) = pure (0, exModel) := by
  refine ⟨?_, rfl, ?_⟩
  · rw [new_eq]; exact exEmpty_refresh
  · exact (queries_out_of_range exEmpty exExp exModel exModel exEmpty_refresh (some exDay)
      (Or.inr (by decide))).1

/-- C14. For two stale model states that agree on the filter, the metric name, `useDefaults`
and (when the constants were passed explicitly) the two constants, `refresh` against the same
context returns the same model: the same `start_`, `end_`, `days_` and the same five series,
whatever the two states held before; every point query returns the same; and a query on the
stale model returns what it returns on a freshly constructed model. -/
theorem C14_no_stale_value {K : Type} [LinearOrderedField K]
    (ctx : Context K) (exp : K → K) (m1 m2 : PMCData K)
    (h1 : m1.isstale = true) (h2 : m2.isstale = true)
    (hspec : m1.specification_ = m2.specification_)
    (hname : m1.metricName_ = m2.metricName_)
    (hdef : m1.useDefaults = m2.useDefaults)
    (hsts : m1.useDefaults = false → m1.stsDays_ = m2.stsDays_)
    (hlts : m1.useDefaults = false → m1.ltsDays_ = m2.ltsDays_) :
    refresh ctx exp m1 = refresh ctx exp m2 ∧
    (∀ date : QDate,
      lts ctx exp m1 date = lts ctx exp m2 date ∧ sts ctx exp m1 date = sts ctx exp m2 date ∧
      stress ctx exp m1 date = stress ctx exp m2 date ∧
      sb ctx exp m1 date = sb ctx exp m2 date ∧ rr ctx exp m1 date = rr ctx exp m2 date) ∧
    (∀ stsDays ltsDays : Int,
      m1.useDefaults = decide (ltsDays < 0 ∨ stsDays < 0) →
      (m1.useDefaults = false → m1.stsDays_ = stsDays ∧ m1.ltsDays_ = ltsDays) →
      ∀ date : QDate,
        lts ctx exp m1 date =
          (PMCData.new ctx exp m1.specification_ m1.metricName_ stsDays ltsDays
            >>= fun m0 => lts ctx exp m0 date) ∧
        sts ctx exp m1 date =
          (PMCData.new ctx exp m1.specification_ m1.metricName_ stsDays ltsDays
            >>= fun m0 => sts ctx exp m0 date) ∧
        stress ctx exp m1 date =
          (PMCData.new ctx exp m1.specification_ m1.metricName_ stsDays ltsDays
            >>= fun m0 => stress ctx exp m0 date) ∧
        sb ctx exp m1 date =
          (PMCData.new ctx exp m1.specification_ m1.metricName_ stsDays ltsDays
            >>= fun m0 => sb ctx exp m0 date) ∧
        rr ctx exp m1 date =
          (PMCData.new ctx exp m1.specification_ m1.metricName_ stsDays ltsDays
            >>= fun m0 => rr ctx exp m0 date)) := by
  have hr := refresh_congr ctx exp m1 m2 h1 h2 hspec hname hdef hsts hlts
  refine ⟨hr, ?_, ?_⟩
  · intro date
    exact ⟨pointQuery_congr _ ctx exp m1 m2 hr date, pointQuery_congr _ ctx exp m1 m2 hr date,
      pointQuery_congr _ ctx exp m1 m2 hr date, pointQuery_congr _ ctx exp m1 m2 hr date,
      pointQuery_congr _ ctx exp m1 m2 hr date⟩
  · intro stsDays ltsDays hd hc date
    have hneg : m1.useDefaults = false → ¬ (ltsDays < 0 ∨ stsDays < 0) := by
      intro hf hc'
      rw [hf] at hd
      have := decide_eq_true hc'
      rw [this] at hd; cases hd
    have hi : refresh ctx exp m1
        = refresh ctx exp (constructed ctx m1.specification_ m1.metricName_ stsDays ltsDays) := by
      refine refresh_congr ctx exp m1
        (constructed ctx m1.specification_ m1.metricName_ stsDays ltsDays) h1 rfl rfl rfl hd
        ?_ ?_
      · intro hf
        have : ¬ stsDays < 0 := fun h' => hneg hf (Or.inr h')
        show m1.stsDays_ = if stsDays < 0 then _ else stsDays
        rw [if_neg this]; exact (hc hf).1
      · intro hf
        have : ¬ ltsDays < 0 := fun h' => hneg hf (Or.inl h')
        show m1.ltsDays_ = if ltsDays < 0 then _ else ltsDays
        rw [if_neg this]; exact (hc hf).2
    have key : ∀ series : PMCData K → QVector K,
        pointQuery series ctx exp m1 date =
          (PMCData.new ctx exp m1.specification_ m1.metricName_ stsDays ltsDays
            >>= fun m0 => pointQuery series ctx exp m0 date) := by
      intro series
      rw [new_eq, pointQuery_after]
      exact pointQuery_congr series ctx exp _ _ hi date
    exact ⟨key _, key _, key _, key _, key _⟩

/-- Witness of C14: the model computed for one seeded season, invalidated after the store
changed to two rides, and the model as first constructed. -/
theorem C14_no_stale_value_witness :
    refresh exTwoRides exExp (invalidate exSeedDone) = refresh exTwoRides exExp exModel ∧
    refresh exTwoRides exExp exModel = pure exTwoRidesDone ∧
    lts exTwoRides exExp (invalidate exSeedDone) (some (exDay + 1))
      = lts exTwoRides exExp exModel (some (exDay + 1)) ∧
    lts exTwoRides exExp (invalidate exSeedDone) (some (exDay + 1)) =
      (PMCData.new exTwoRides exExp (invalidate exSeedDone).specification_
          (invalidate exSeedDone).metricName_ 7 42
        >>= fun m0 => lts exTwoRides exExp m0 (some (exDay + 1))) :=
  ⟨(C14_no_stale_value exTwoRides exExp (invalidate exSeedDone) exModel rfl rfl rfl rfl rfl
      (fun _ => rfl) (fun _ => rfl)).1,
    exTwoRides_refresh,
    ((C14_no_stale_value exTwoRides exExp (invalidate exSeedDone) exModel rfl rfl rfl rfl rfl
      (fun _ => rfl) (fun _ => rfl)).2.1 (some (exDay + 1))).1,
    ((C14_no_stale_value exTwoRides exExp (invalidate exSeedDone) exModel rfl rfl rfl rfl rfl
      (fun _ => rfl) (fun _ => rfl)).2.2 7 42 rfl (fun _ => ⟨rfl, rfl⟩) (some (exDay + 1))).1⟩

section Constants
variable {K : Type} [LinearOrderedField K]

theorem configDays_pos (v : QVariant) (dflt : Int) (hd : 0 < dflt) (hv : 0 ≤ QVariant.toInt v) :
    0 < configDays v dflt := by
  unfold configDays
  by_cases h : (QVariant.isNull v || QVariant.toInt v == 0) = true
  · rw [if_pos h]; exact hd
  · rw [if_neg h]
    simp only [Bool.or_eq_true, beq_iff_eq, not_or] at h
    omega

theorem configDays_default (v : QVariant) (dflt : Int)
    (hv : v = none ∨ QVariant.toInt v = 0) : configDays v dflt = dflt := by
  unfold configDays
  rcases hv with h | h
  · subst h; rfl
  · simp [h]

/-- The constants a `refresh` leaves are those of `rereadConfig`. -/
theorem refresh_constants (ctx : Context K) (exp : K → K) (m m' : PMCData K)
    (hr : refresh ctx exp m = pure m') :
    (m.isstale = true → m'.stsDays_ = (rereadConfig ctx m).stsDays_ ∧
      m'.ltsDays_ = (rereadConfig ctx m).ltsDays_ ∧ m'.useDefaults = m.useDefaults) ∧
    (m.isstale = false → m' = m) := by
  constructor
  · intro h
    have hu : (rereadConfig ctx m).useDefaults = m.useDefaults := by
      unfold rereadConfig; split_ifs <;> rfl
    rcases refresh_stale_shape ctx exp m m' h hr with ⟨_, h1⟩ | ⟨s, e, _, _, hlt, _, _, hd, _⟩
    · subst h1; exact ⟨rfl, rfl, hu⟩
    · obtain ⟨s', e', _, _, _, _, _, hm⟩ := refresh_nonempty ctx exp m m' h hr (by omega)
      subst hm; exact ⟨rfl, rfl, hu⟩
  · intro h
    rw [refresh_clean ctx exp m h] at hr
    exact (Except.ok.inj hr).symm

/-- Positive constants stay positive over a `refresh` against a configuration whose stored
constants are not negative. -/
theorem refresh_positive (ctx : Context K) (exp : K → K) (m m' : PMCData K)
    (hr : refresh ctx exp m = pure m')
    (hcs : 0 ≤ QVariant.toInt ctx.GC_STS_DAYS) (hcl : 0 ≤ QVariant.toInt ctx.GC_LTS_DAYS)
    (hm : 0 < m.stsDays_ ∧ 0 < m.ltsDays_) : 0 < m'.stsDays_ ∧ 0 < m'.ltsDays_ := by
  obtain ⟨c1, c2⟩ := refresh_constants ctx exp m m' hr
  by_cases h : m.isstale = true
  · obtain ⟨e1, e2, _⟩ := c1 h
    rw [e1, e2]
    unfold rereadConfig
    split_ifs
    · exact ⟨configDays_pos _ 7 (by decide) hcs, configDays_pos _ 42 (by decide) hcl⟩
    · exact hm
  · rw [c2 (by simpa using h)]; exact hm

end Constants

/-- Counterexample to C15 as stated. The constructor called with the explicit constants `0`
and `0` (not the negative sentinel) keeps them: both constants are `0`. Called with the
sentinel on a configuration that stores `-3` for the short-term constant, it takes `-3`. -/
theorem C15_counterexample :
    (PMCData.new exEmpty exExp (fun _ => true) "coggan_tss" 0 0).map PMCData.stsDays_
      = pure 0 ∧
    (PMCData.new exEmpty exExp (fun _ => true) "coggan_tss" 0 0).map PMCData.ltsDays_
      = pure 0 ∧
    (PMCData.new exNegConfig exExp (fun _ => true) "coggan_tss" (-1) (-1)).map PMCData.stsDays_
      = pure (-3) := by
  have h1 : PMCData.new exEmpty exExp (fun _ => true) "coggan_tss" 0 0
      = pure (emptied (rereadConfig exEmpty
          (constructed exEmpty (fun _ => true) "coggan_tss" 0 0))) := by
    rw [new_eq]; exact refresh_empty _ _ _ rfl (by decide)
  have h2 : PMCData.new exNegConfig exExp (fun _ => true) "coggan_tss" (-1) (-1)
      = pure (emptied (rereadConfig exNegConfig
          (constructed exNegConfig (fun _ => true) "coggan_tss" (-1) (-1)))) := by
    rw [new_eq]; exact refresh_empty _ _ _ rfl (by decide)
  rw [h1, h2]
  exact ⟨rfl, rfl, rfl⟩

/-- C15, amended. When each constructor argument is negative (the sentinel) or at least `1`
and the stored constants of the configuration are absent, zero or positive, the constants of
the constructed model are positive, and they stay positive over every `refresh` against such
a configuration; when the sentinel is passed for a constant whose stored value is absent or
zero, the constant is `7` (short term) or `42` (long term). -/
theorem C15_constants {K : Type} [LinearOrderedField K]
    (ctx : Context K) (exp : K → K) (spec : RideItem K → Bool)
    (metricName : String) (stsDays ltsDays : Int) (m : PMCData K)
    (hnew : PMCData.new ctx exp spec metricName stsDays ltsDays = pure m) :
    (stsDays ≠ 0 → ltsDays ≠ 0 → 0 ≤ QVariant.toInt ctx.GC_STS_DAYS →
      0 ≤ QVariant.toInt ctx.GC_LTS_DAYS → 0 < m.stsDays_ ∧ 0 < m.ltsDays_) ∧
    (∀ (ctx' : Context K) (exp' : K → K) (m1 m2 : PMCData K),
      0 ≤ QVariant.toInt ctx'.GC_STS_DAYS → 0 ≤ QVariant.toInt ctx'.GC_LTS_DAYS →
      0 < m1.stsDays_ ∧ 0 < m1.ltsDays_ → refresh ctx' exp' m1 = pure m2 →
      0 < m2.stsDays_ ∧ 0 < m2.ltsDays_) ∧
    (stsDays < 0 → (ctx.GC_STS_DAYS = none ∨ QVariant.toInt ctx.GC_STS_DAYS = 0) →
      m.stsDays_ = 7) ∧
    (ltsDays < 0 → (ctx.GC_LTS_DAYS = none ∨ QVariant.toInt ctx.GC_LTS_DAYS = 0) →
      m.ltsDays_ = 42) := by
  rw [new_eq] at hnew
  obtain ⟨e1, e2, _⟩ := (refresh_constants ctx exp _ m hnew).1 rfl
  have hs : m.stsDays_ = if ltsDays < 0 ∨ stsDays < 0 then configDays ctx.GC_STS_DAYS 7
      else stsDays := by
    rw [e1]
    unfold rereadConfig constructed
    by_cases h1 : ltsDays < 0 <;> by_cases h2 : stsDays < 0 <;> simp [h1, h2]
  have hl : m.ltsDays_ = if ltsDays < 0 ∨ stsDays < 0 then configDays ctx.GC_LTS_DAYS 42
      else ltsDays := by
    rw [e2]
    unfold rereadConfig constructed
    by_cases h1 : ltsDays < 0 <;> by_cases h2 : stsDays < 0 <;> simp [h1, h2]
  refine ⟨?_, ?_, ?_, ?_⟩
  · intro h1 h2 hcs hcl
    rw [hs, hl]
    by_cases hc : ltsDays < 0 ∨ stsDays < 0
    · rw [if_pos hc, if_pos hc]
      exact ⟨configDays_pos _ 7 (by decide) hcs, configDays_pos _ 42 (by decide) hcl⟩
    · rw [if_neg hc, if_neg hc]
      constructor <;> omega
  · intro ctx' exp' m1 m2 hcs hcl hm hr
    exact refresh_positive ctx' exp' m1 m2 hr hcs hcl hm
  · intro h1 hv
    rw [hs, if_pos (Or.inr h1)]
    exact configDays_default _ 7 hv
  · intro h1 hv
    rw [hl, if_pos (Or.inl h1)]
    exact configDays_default _ 42 hv

/-- Witness of C15, amended: the sentinel for both constants and no stored setting. -/
theorem C15_constants_witness :
    PMCData.new exSeed exExp (fun _ => true) "coggan_tss" (-1) (-1)
      = pure (computed exSeed exExp (constructed exSeed (fun _ => true) "coggan_tss" (-1) (-1))
          exDay (exDay + 365)) ∧
    (computed exSeed exExp (constructed exSeed (fun _ => true) "coggan_tss" (-1) (-1))
      exDay (exDay + 365)).stsDays_ = 7 ∧
    (computed exSeed exExp (constructed exSeed (fun _ => true) "coggan_tss" (-1) (-1))
      exDay (exDay + 365)).ltsDays_ = 42 ∧
    0 < (computed exSeed exExp (constructed exSeed (fun _ => true) "coggan_tss" (-1) (-1))
      exDay (exDay + 365)).stsDays_ :=
  have hnew : PMCData.new exSeed exExp (fun _ => true) "coggan_tss" (-1) (-1)
      = pure (computed exSeed exExp (constructed exSeed (fun _ => true) "coggan_tss" (-1) (-1))
          exDay (exDay + 365)) := by
    rw [new_eq]
    exact refresh_valid exSeed exExp _ exDay (exDay + 365) rfl (by decide) (by decide)
      (by decide)
      (by intro x hx _; simp [exSeed, exContext] at hx; subst hx; decide) (by decide)
  ⟨hnew,
    (C15_constants exSeed exExp (fun _ => true) "coggan_tss" (-1) (-1) _ hnew).2.2.1
      (by decide) (Or.inl rfl),
    (C15_constants exSeed exExp (fun _ => true) "coggan_tss" (-1) (-1) _ hnew).2.2.2
      (by decide) (Or.inl rfl),
    ((C15_constants exSeed exExp (fun _ => true) "coggan_tss" (-1) (-1) _ hnew).1
      (by decide) (by decide) (by decide) (by decide)).1⟩

section Colours
variable {K : Type} [LinearOrderedField K]

/-- The long-term colour: green above 80, the fallback otherwise; the test for 100 comes
second and decides nothing. -/
theorem ltsColor_eq (value : K) (defaultColor : QColor) :
    ltsColor value defaultColor = if value > 80 then Qt.green else defaultColor := by
  unfold ltsColor
  by_cases h : value > 80
  · rw [if_pos h, if_pos h]
  · rw [if_neg h, if_neg h]
    have : ¬ value > 100 := fun h1 => h (lt_trans (by norm_num) h1)
    rw [if_neg this]

theorem sbColor_eq (value : K) (defaultColor : QColor) :
    (value < -40 → sbColor value defaultColor = Qt.red) ∧
    (-40 ≤ value → sbColor value defaultColor = defaultColor) := by
  unfold sbColor
  constructor
  · intro h; rw [if_pos h]
  · intro h; rw [if_neg (not_lt.mpr h)]

end Colours

/-- C16. Failing input `value = 101` (and every larger value): `ltsColor` tests `value > 80`
before `value > 100`, so above 100 it returns green, the colour of the tier below, and never
blue. -/
theorem C16_peak_tier_unreachable :
    (∀ fallback : QColor, ltsColor (101 : ℚ) fallback = Qt.green) ∧
    (∀ (value : ℚ) (fallback : QColor), value > 100 → ltsColor value fallback = Qt.green) ∧
    (∀ (value : ℚ) (fallback : QColor), fallback ≠ Qt.blue →
      ltsColor value fallback ≠ Qt.blue) ∧
    Qt.green ≠ Qt.blue := by
  have hgb : Qt.green ≠ Qt.blue := by decide
  refine ⟨?_, ?_, ?_, hgb⟩
  · intro fallback
    rw [ltsColor_eq, if_pos (by norm_num)]
  · intro value fallback h
    rw [ltsColor_eq, if_pos (lt_trans (by norm_num) h)]
  · intro value fallback hf
    rw [ltsColor_eq]
    split_ifs
    · exact hgb
    · exact hf

/-- C17. For every fallback colour, `ltsColor` returns green for every value with
`80 < value ≤ 100` and the fallback unchanged for every value `≤ 80`. -/
theorem C17_good_tier {K : Type} [LinearOrderedField K] (value : K) (fallback : QColor) :
    (80 < value → value ≤ 100 → ltsColor value fallback = Qt.green) ∧
    (value ≤ 80 → ltsColor value fallback = fallback) := by
  constructor
  · intro h _
    rw [ltsColor_eq, if_pos h]
  · intro h
    rw [ltsColor_eq, if_neg (not_lt.mpr h)]

/-- Witness of C17 at the values 81, 100, 79 and 80. -/
theorem C17_good_tier_witness :
    ltsColor (81 : ℚ) Qt.red = Qt.green ∧ ltsColor (100 : ℚ) Qt.red = Qt.green ∧
    ltsColor (79 : ℚ) Qt.red = Qt.red ∧ ltsColor (80 : ℚ) Qt.red = Qt.red :=
  ⟨(C17_good_tier (81 : ℚ) Qt.red).1 (by norm_num) (by norm_num),
    (C17_good_tier (100 : ℚ) Qt.red).1 (by norm_num) (by norm_num),
    (C17_good_tier (79 : ℚ) Qt.red).2 (by norm_num),
    (C17_good_tier (80 : ℚ) Qt.red).2 (by norm_num)⟩

/-- Counterexample to C18 as stated. With red as the fallback colour, `sbColor` returns red
for the value `0`, which is not below `-40`: the equivalence fails from right to left. -/
theorem C18_counterexample :
    sbColor (0 : ℚ) Qt.red = Qt.red ∧ ¬ ((0 : ℚ) < -40) := by
  constructor
  · exact (sbColor_eq (0 : ℚ) Qt.red).2 (by norm_num)
  · norm_num

/-- C18, amended. `sbColor` returns red for every value below `-40` and the fallback
unchanged for every value `≥ -40`; when the fallback is not red, it returns red if and only
if the value is below `-40`. -/
theorem C18_balance_colour {K : Type} [LinearOrderedField K] (value : K) (fallback : QColor) :
    (value < -40 → sbColor value fallback = Qt.red) ∧
    (-40 ≤ value → sbColor value fallback = fallback) ∧
    (fallback ≠ Qt.red → (sbColor value fallback = Qt.red ↔ value < -40)) := by
  obtain ⟨h1, h2⟩ := sbColor_eq value fallback
  refine ⟨h1, h2, ?_⟩
  intro hf
  constructor
  · intro h
    by_contra hn
    rw [h2 (not_lt.mp hn)] at h
    exact hf h
  · exact h1

/-- Witness of C18, amended, at the values -41, -39 and -40 with a blue fallback. -/
theorem C18_balance_colour_witness :
    sbColor (-41 : ℚ) Qt.blue = Qt.red ∧ sbColor (-39 : ℚ) Qt.blue = Qt.blue ∧
    sbColor (-40 : ℚ) Qt.blue = Qt.blue ∧
    (sbColor (-40 : ℚ) Qt.blue = Qt.red ↔ (-40 : ℚ) < -40) :=
  ⟨(C18_balance_colour (-41 : ℚ) Qt.blue).1 (by norm_num),
    (C18_balance_colour (-39 : ℚ) Qt.blue).2.1 (by norm_num),
    (C18_balance_colour (-40 : ℚ) Qt.blue).2.1 (by norm_num),
    (C18_balance_colour (-40 : ℚ) Qt.blue).2.2 (by decide)⟩

section Bounds
variable {K : Type} [LinearOrderedField K]

/-- With the series at their allocated lengths and `0 ≤ stsDays_`, no iteration and no run of
the loop indexes out of range, in either balance mode; the balance write of the last day in
show-tomorrow mode lands on index `n` of a balance series of length `n + 1`. -/
theorem loop_in_bounds (stress_ : QVector K) (stsDays_ : Int) (lte ste : K)
    (days_ : Int) (n : Nat) (hn : days_.toNat = n) (hsd : 0 ≤ stsDays_)
    (hx : stress_.length = n) :
    (∀ (sbToday : Bool) (v : LoopVars K), Sized n v →
      decayLoop stress_ stsDays_ sbToday lte ste days_ v
        = pure (loopP stress_ stsDays_ sbToday lte ste v n)) ∧
    (∀ (sbToday : Bool) (v : LoopVars K) (day : Nat), Sized n v → day < n →
      decayStep stress_ stsDays_ sbToday lte ste v (day : Int)
        = pure (stepP stress_ stsDays_ sbToday lte ste v day)) ∧
    (∀ v : LoopVars K, Sized n v → 1 ≤ n →
      n < v.sb_.length ∧
      balanceStep false v ((n : Int) - 1)
        = pure { v with
            sb_ := v.sb_.set n (QVector.val v.lts_ (n - 1) - QVector.val v.sts_ (n - 1)) }) := by
  refine ⟨?_, ?_, ?_⟩
  · intro sbToday v h
    subst hn
    exact decayLoop_eq stress_ stsDays_ sbToday lte ste v days_ hsd hx h
  · intro sbToday v day h hday
    exact decayStep_eq stress_ stsDays_ sbToday lte ste v day n hday hsd hx h
  · intro v h h1
    refine ⟨by rw [h.sb]; omega, ?_⟩
    have e : ((n : Int) - 1) = ((n - 1 : Nat) : Int) := by omega
    rw [e, balanceStep_eq false v (n - 1) n (by omega) h.lts h.sts h.sb]
    unfold balanceP
    have : n - 1 + (if false = true then 0 else 1) = n := by simp; omega
    rw [this]

end Bounds

/-- C19. In the loop of `refresh`, with the series at the lengths lines 124-129 allocate
(`days` for the stress, load and ramp series, `days + 1` for the balance series) and an
effective `stsDays_ ≥ 0`, every index is in range: each iteration for `0 ≤ day < days` and
the whole loop return without an out-of-range fault, in show-today and in show-tomorrow mode,
and the balance write of the last day in show-tomorrow mode lands on index `days`, inside the
balance series. A `refresh` on a valid range whose seeds lie inside it therefore returns. -/
theorem C19_loop_in_bounds {K : Type} [LinearOrderedField K]
    (stress_ : QVector K) (stsDays_ : Int) (lte ste : K) (days_ : Int) (n : Nat)
    (hn : days_.toNat = n) (hsd : 0 ≤ stsDays_) (hx : stress_.length = n) :
    (∀ (sbToday : Bool) (v : LoopVars K), Sized n v →
      decayLoop stress_ stsDays_ sbToday lte ste days_ v
        = pure (loopP stress_ stsDays_ sbToday lte ste v n)) ∧
    (∀ (sbToday : Bool) (v : LoopVars K) (day : Nat), Sized n v → day < n →
      decayStep stress_ stsDays_ sbToday lte ste v (day : Int)
        = pure (stepP stress_ stsDays_ sbToday lte ste v day)) ∧
    (∀ v : LoopVars K, Sized n v → 1 ≤ n →
      n < v.sb_.length ∧
      balanceStep false v ((n : Int) - 1)
        = pure { v with
            sb_ := v.sb_.set n (QVector.val v.lts_ (n - 1) - QVector.val v.sts_ (n - 1)) }) ∧
    (∀ (ctx : Context K) (exp : K → K) (m : PMCData K) (s e : Int),
      m.isstale = true → spanStart ctx = some s → spanEnd ctx = some e → s < e →
      (∀ x ∈ ctx.seasons, x.seed ≠ 0 → x.start ≤ e) → 0 ≤ (rereadConfig ctx m).stsDays_ →
      refresh ctx exp m = pure (computed ctx exp m s e)) := by
  obtain ⟨h1, h2, h3⟩ := loop_in_bounds stress_ stsDays_ lte ste days_ n hn hsd hx
  exact ⟨h1, h2, h3, fun ctx exp m s e h hs he hlt hseeds hsd0 =>
    refresh_valid ctx exp m s e h hs he hlt hseeds hsd0⟩

/-- Witness of C19: three days, `stsDays_ = 1`, show-tomorrow mode. -/
theorem C19_loop_in_bounds_witness :
    decayLoop ([0, 10, 0] : QVector ℚ) 1 false (1 / 2) (1 / 2) 3
        (initVars [0, 0, 0] [0, 0, 0] 3)
      = pure (loopP ([0, 10, 0] : QVector ℚ) 1 false (1 / 2) (1 / 2)
          (initVars [0, 0, 0] [0, 0, 0] 3) 3) ∧
    (loopP ([0, 10, 0] : QVector ℚ) 1 false (1 / 2) (1 / 2)
          (initVars [0, 0, 0] [0, 0, 0] 3) 3).sb_.length = 4 :=
  ⟨(C19_loop_in_bounds ([0, 10, 0] : QVector ℚ) 1 (1 / 2) (1 / 2) 3 3 rfl (by decide) rfl).1
      false (initVars [0, 0, 0] [0, 0, 0] 3) ⟨rfl, rfl, rfl, rfl⟩,
    by decide⟩

section PureDecay
variable {K : Type} [LinearOrderedField K]

theorem decay_eq (exp : K → K) (n : Int) (hn : 1 ≤ n) : decay exp n = exp (-1 / (n : K)) := by
  unfold decay
  rw [if_neg (by omega)]

theorem dayStress_nil (spec : RideItem K → Bool) (metricName : String) (d : Int) :
    dayStress spec metricName d ([] : List (RideItem K)) = 0 := rfl

/-- The seed in force on the start date of the only seeded season. -/
theorem seedFor_single (seasons : List Season) (D0 M : Int) (hM : M ≠ 0)
    (hmem : (⟨D0, M⟩ : Season) ∈ seasons)
    (hone : ∀ x ∈ seasons, x.seed ≠ 0 → x = ⟨D0, M⟩) : seedFor D0 seasons = some M := by
  cases h : seedFor D0 seasons with
  | none => exact absurd h (seedFor_ne_none D0 seasons ⟨_, hmem, hM, rfl⟩)
  | some M' =>
    obtain ⟨x, hx, h0, _, h2⟩ := seedFor_mem D0 seasons M' h
    have := hone x hx h0
    subst this
    rw [← h2]

/-- With no ride and one seeded season, of seed `M > 0` on the first day of the range, the
loads of day `k` are `M` times the `k`-th power of the decay factor. -/
theorem seed_decay (ctx : Context K) (exp : K → K) (m m' : PMCData K)
    (hstale : m.isstale = true) (hr : refresh ctx exp m = pure m') (hne : 0 < m'.days_)
    (D0 M : Int) (hs : m'.start_ = some D0) (hrides : ctx.rides = [])
    (hmem : (⟨D0, M⟩ : Season) ∈ ctx.seasons)
    (hone : ∀ x ∈ ctx.seasons, x.seed ≠ 0 → x = ⟨D0, M⟩) (hM : 0 < M)
    (k : Nat) (hk : (k : Int) < m'.days_) :
    QVector.val m'.lts_ k = (M : K) * decay exp m'.ltsDays_ ^ k ∧
    QVector.val m'.sts_ k = (M : K) * decay exp m'.stsDays_ ^ k := by
  induction k with
  | zero =>
    obtain ⟨h1, h2⟩ := load_day ctx exp m m' hstale hr hne D0 hs 0 hk
    have hsf : seedFor (D0 + ((0 : Nat) : Int)) ctx.seasons = some M := by
      simpa using seedFor_single ctx.seasons D0 M (by omega) hmem hone
    have hc : ∃ M', seedFor (D0 + ((0 : Nat) : Int)) ctx.seasons = some M' ∧ 0 < M' :=
      ⟨M, hsf, hM⟩
    rw [if_pos hc, hsf] at h1 h2
    simp only [Option.getD_some] at h1 h2
    rw [h1, h2]
    simp
  | succ k ih =>
    obtain ⟨i1, i2⟩ := ih (by omega)
    obtain ⟨h1, h2⟩ := load_day ctx exp m m' hstale hr hne D0 hs (k + 1) hk
    have hsf : seedFor (D0 + ((k + 1 : Nat) : Int)) ctx.seasons = none := by
      apply seedFor_none
      intro x hx h0
      rw [hone x hx h0]
      show D0 ≠ D0 + ((k + 1 : Nat) : Int)
      omega
    have hc : ¬ ∃ M', seedFor (D0 + ((k + 1 : Nat) : Int)) ctx.seasons = some M' ∧ 0 < M' := by
      rintro ⟨M', hM', _⟩
      rw [hsf] at hM'
      cases hM'
    have hx := stress_day ctx exp m m' hstale hr hne D0 hs (k + 1) (by omega) hk
    rw [hrides, dayStress_nil] at hx
    rw [if_neg hc, hx, if_neg (by omega)] at h1 h2
    simp only [Nat.add_sub_cancel] at h1 h2
    rw [h1, h2, i1, i2]
    constructor <;> ring

/-- The range of a context with no ride and one seeded season that starts on `D0`, before
9999-12-31. -/
theorem span_single_seed (ctx : Context K) (D0 M : Int) (hrides : ctx.rides = [])
    (hmem : (⟨D0, M⟩ : Season) ∈ ctx.seasons)
    (hone : ∀ x ∈ ctx.seasons, x.seed ≠ 0 → x = ⟨D0, M⟩) (hM : M ≠ 0) (hD : D0 < 5373484) :
    spanStart ctx = some D0 ∧ spanEnd ctx = some (D0 + 365) := by
  have hseed : earliestSeed ctx.seasons = some D0 :=
    earliestSeed_eq ctx.seasons D0 ⟨_, hmem, hM, rfl⟩
      (fun x hx h0 => by rw [hone x hx h0])
  unfold spanStart spanEnd
  rw [hseed, hrides, firstRide_nil, lastRide_nil]
  constructor
  · exact resolveStart_eq _ _ D0 hD (Or.inl rfl)
      (fun d hd => by cases hd; exact le_rfl) (fun f hf => by cases hf)
  · exact (resolveEnd_cases (some D0) none).2.1 D0 rfl rfl

/-- Pure decay after a seed: the state `refresh` returns and what the load queries return. -/
theorem seed_decay_queries (ctx : Context K) (exp : K → K) (m : PMCData K) (D0 M : Int)
    (hstale : m.isstale = true) (hrides : ctx.rides = [])
    (hmem : (⟨D0, M⟩ : Season) ∈ ctx.seasons)
    (hone : ∀ x ∈ ctx.seasons, x.seed ≠ 0 → x = ⟨D0, M⟩) (hM : 0 < M) (hD : D0 < 5373484)
    (hL : 1 ≤ (rereadConfig ctx m).ltsDays_) (hS : 1 ≤ (rereadConfig ctx m).stsDays_) :
    ∃ m', refresh ctx exp m = pure m' ∧
      m'.start_ = some D0 ∧ m'.end_ = some (D0 + 365) ∧ m'.days_ = 366 ∧
      (∀ k : Nat, k ≤ 365 →
        value (lts ctx exp m (some (D0 + k)))
          = pure ((M : K) * exp (-1 / (((rereadConfig ctx m).ltsDays_ : Int) : K)) ^ k) ∧
        value (sts ctx exp m (some (D0 + k)))
          = pure ((M : K) * exp (-1 / (((rereadConfig ctx m).stsDays_ : Int) : K)) ^ k)) ∧
      (∀ k : Nat, 1 ≤ k → k ≤ 365 →
        QVector.val m'.lts_ k
          = QVector.val m'.lts_ (k - 1)
              * exp (-1 / (((rereadConfig ctx m).ltsDays_ : Int) : K)) ∧
        QVector.val m'.sts_ k
          = QVector.val m'.sts_ (k - 1)
              * exp (-1 / (((rereadConfig ctx m).stsDays_ : Int) : K))) := by
  obtain ⟨hs, he⟩ := span_single_seed ctx D0 M hrides hmem hone (by omega) hD
  have hr : refresh ctx exp m = pure (computed ctx exp m D0 (D0 + 365)) :=
    refresh_valid ctx exp m D0 (D0 + 365) hstale hs he (by omega)
      (fun x hx h0 => by rw [hone x hx h0]; show D0 ≤ D0 + 365; omega) (by omega)
  have hdays : (computed ctx exp m D0 (D0 + 365)).days_ = 366 := by
    show D0 + 365 - D0 + 1 = 366
    omega
  have hne : 0 < (computed ctx exp m D0 (D0 + 365)).days_ := by rw [hdays]; decide
  have eL : decay exp (computed ctx exp m D0 (D0 + 365)).ltsDays_
      = exp (-1 / (((rereadConfig ctx m).ltsDays_ : Int) : K)) := decay_eq exp _ hL
  have eS : decay exp (computed ctx exp m D0 (D0 + 365)).stsDays_
      = exp (-1 / (((rereadConfig ctx m).stsDays_ : Int) : K)) := decay_eq exp _ hS
  have key : ∀ k : Nat, k ≤ 365 →
      QVector.val (computed ctx exp m D0 (D0 + 365)).lts_ k
        = (M : K) * exp (-1 / (((rereadConfig ctx m).ltsDays_ : Int) : K)) ^ k ∧
      QVector.val (computed ctx exp m D0 (D0 + 365)).sts_ k
        = (M : K) * exp (-1 / (((rereadConfig ctx m).stsDays_ : Int) : K)) ^ k := by
    intro k hk
    have := seed_decay ctx exp m _ hstale hr hne D0 M rfl hrides hmem hone hM k
      (by rw [hdays]; omega)
    rw [eL, eS] at this
    exact this
  refine ⟨_, hr, rfl, rfl, hdays, ?_, ?_⟩
  · intro k hk
    obtain ⟨q1, q2, _⟩ := queries_in_range ctx exp m _ hstale hr hne D0 (D0 + k) rfl
      (by omega) (by rw [hdays]; omega)
    have e : (D0 + (k : Int) - D0).toNat = k := by omega
    rw [e] at q1 q2
    rw [q1, q2, (key k hk).1, (key k hk).2]
    exact ⟨rfl, rfl⟩
  · intro k h1 hk
    obtain ⟨j, rfl⟩ : ∃ j, k = j + 1 := ⟨k - 1, by omega⟩
    rw [(key (j + 1) hk).1, (key (j + 1) hk).2, Nat.add_sub_cancel,
      (key j (by omega)).1, (key j (by omega)).2]
    constructor <;> ring

end PureDecay

/-- Counterexample to C20 as stated. First, in exact arithmetic: one season with seed 5 that
starts on 9999-12-31, no ride, constants 42 and 7: `refresh` returns the empty range (0 days,
not 366) and the long-term load of the seed day is 0, not 5. Second, in binary64, the
arithmetic of the code: with seed 5 on 2015-01-01 and the constants 42 and 7, `lts` of the
fourth day is `4.655313898520115`, the seed multiplied three times by the decay factor `a`
with each product rounded; the binary64 value nearest to `5*a^3` and the product of `5` and
the correctly rounded cube of `a` are both `4.655313898520114`. -/
theorem C20_counterexample :
    (refresh exLateSeed exExp exModel).map PMCData.days_ = pure 0 ∧
    (refresh exLateSeed exExp exModel).map PMCData.start_ = pure none ∧
    (0 : Int) ≠ 366 ∧
    value (lts exLateSeed exExp exModel (some 5373484)) = pure 0 ∧
    (0 : ℚ) ≠ ((5 : Int) : ℚ) * exExp (-1 / ((42 : Int) : ℚ)) ^ 0 ∧
    refresh exSeed64 exExp64 (exModel64 7 42) = pure exSeed64Done ∧
    exExp64 (-1 / ((42 : Int) : Binary64)) = Binary64.dyadic 8795275048289765 (-53) ∧
    value (lts exSeed64 exExp64 (exModel64 7 42) (some (exDay + 3)))
      = pure (Binary64.dyadic 2620708742333485 (-49)) ∧
    Binary64.round (5 * (Binary64.dyadic 8795275048289765 (-53)).n ^ 3) 2148
      = Binary64.dyadic 5241417484666969 (-50) ∧
    ((5 : Int) : Binary64) * Binary64.round ((Binary64.dyadic 8795275048289765 (-53)).n ^ 3) 2148
      = Binary64.dyadic 5241417484666969 (-50) ∧
    Binary64.dyadic 5241417484666969 (-50) < Binary64.dyadic 2620708742333485 (-49) := by
  have hne : 0 < exSeed64Done.days_ := by decide
  have q := (queries_in_range exSeed64 exExp64 (exModel64 7 42) _ rfl exSeed64_refresh hne
    exDay (exDay + 3) rfl (by decide) (by decide)).1
  have e3 : (exDay + 3 - exDay).toNat = 3 := by decide
  rw [e3, exSeed64_loads.2.2.2.2] at q
  refine ⟨?_, ?_, by decide, ?_, by norm_num, exSeed64_refresh, by decide, q, by decide,
    by decide, by decide⟩
  · rw [exLateSeed_refresh]; rfl
  · rw [exLateSeed_refresh]; rfl
  · rw [(queries_out_of_range exLateSeed exExp exModel _ exLateSeed_refresh (some 5373484)
      (Or.inr (by decide))).1]
    rfl

/-- C20, amended. Pure decay after a seed, in exact arithmetic (an ordered field, no
rounding): for a stale model, no ride and a season store in which the only declared seed is a
seed `M > 0` of a season that starts on `D0`, with `D0` before 9999-12-31 and effective
constants `L ≥ 1` and `S ≥ 1`, `refresh` returns, the range is `[D0, D0 + 365]` (366 days),
and for every `k` from 0 to 365 `lts(D0 + k)` is `M * exp(-1/L)^k` and `sts(D0 + k)` is
`M * exp(-1/S)^k`; each day's load is the load of the day before times the decay factor. -/
theorem C20_pure_decay {K : Type} [LinearOrderedField K]
    (ctx : Context K) (exp : K → K) (m : PMCData K) (D0 M : Int)
    (hstale : m.isstale = true) (hrides : ctx.rides = [])
    (hmem : (⟨D0, M⟩ : Season) ∈ ctx.seasons)
    (hone : ∀ x ∈ ctx.seasons, x.seed ≠ 0 → x = ⟨D0, M⟩) (hM : 0 < M) (hD : D0 < 5373484)
    (hL : 1 ≤ (rereadConfig ctx m).ltsDays_) (hS : 1 ≤ (rereadConfig ctx m).stsDays_) :
    ∃ m', refresh ctx exp m = pure m' ∧
      m'.start_ = some D0 ∧ m'.end_ = some (D0 + 365) ∧ m'.days_ = 366 ∧
      (∀ k : Nat, k ≤ 365 →
        value (lts ctx exp m (some (D0 + k)))
          = pure ((M : K) * exp (-1 / (((rereadConfig ctx m).ltsDays_ : Int) : K)) ^ k) ∧
        value (sts ctx exp m (some (D0 + k)))
          = pure ((M : K) * exp (-1 / (((rereadConfig ctx m).stsDays_ : Int) : K)) ^ k)) ∧
      (∀ k : Nat, 1 ≤ k → k ≤ 365 →
        QVector.val m'.lts_ k
          = QVector.val m'.lts_ (k - 1)
              * exp (-1 / (((rereadConfig ctx m).ltsDays_ : Int) : K)) ∧
        QVector.val m'.sts_ k
          = QVector.val m'.sts_ (k - 1)
              * exp (-1 / (((rereadConfig ctx m).stsDays_ : Int) : K))) :=
  seed_decay_queries ctx exp m D0 M hstale hrides hmem hone hM hD hL hS

/-- Witness of C20, amended: seed 5 on 2015-01-01, constants 42 and 7, with the stand-in
`exExp` whose value is always one half; the loads of the third day are `5 * (1/2)^2`. -/
theorem C20_pure_decay_witness :
    ∃ m', refresh exSeed exExp exModel = pure m' ∧
      m'.start_ = some exDay ∧ m'.end_ = some (exDay + 365) ∧ m'.days_ = 366 ∧
      value (lts exSeed exExp exModel (some (exDay + 2))) = pure (5 / 4) ∧
      value (sts exSeed exExp exModel (some (exDay + 2))) = pure (5 / 4) := by
  obtain ⟨m', h1, h2, h3, h4, h5, _⟩ :=
    C20_pure_decay exSeed exExp exModel exDay 5 rfl rfl (by simp [exSeed, exContext])
      (by intro x hx _; simpa [exSeed, exContext] using hx) (by decide) (by decide)
      (by decide) (by decide)
  refine ⟨m', h1, h2, h3, h4, ?_, ?_⟩
  · have := (h5 2 (by decide)).1
    simp only [Nat.cast_ofNat] at this
    rw [this]
    simp only [exExp]
    norm_num
  · have := (h5 2 (by decide)).2
    simp only [Nat.cast_ofNat] at this
    rw [this]
    simp only [exExp]
    norm_num

section Bounded
variable {K : Type} [LinearOrderedField K]

/-- A combination `x * (1 - a) + p * a` of two values of `[0, B]` with `0 ≤ a ≤ 1` lies in
`[0, B]`. -/
theorem mix_bounded (x p a B : K) (ha0 : 0 ≤ a) (ha1 : a ≤ 1) (hx0 : 0 ≤ x) (hx1 : x ≤ B)
    (hp0 : 0 ≤ p) (hp1 : p ≤ B) :
    0 ≤ x * (1 - a) + p * a ∧ x * (1 - a) + p * a ≤ B := by
  have h1 : 0 ≤ 1 - a := by linarith
  constructor
  · exact add_nonneg (mul_nonneg hx0 h1) (mul_nonneg hp0 ha0)
  · have e1 : x * (1 - a) ≤ B * (1 - a) := mul_le_mul_of_nonneg_right hx1 h1
    have e2 : p * a ≤ B * a := mul_le_mul_of_nonneg_right hp1 ha0
    have : B * (1 - a) + B * a = B := by ring
    linarith

/-- The decay factor of a constant `n ≥ 1` lies strictly between 0 and 1 when `exp` does on
the negative numbers. -/
theorem decay_unit (exp : K → K) (hexp : ∀ x : K, x < 0 → 0 < exp x ∧ exp x < 1)
    (n : Int) (hn : 1 ≤ n) : 0 < decay exp n ∧ decay exp n < 1 := by
  rw [decay_eq exp n hn]
  apply hexp
  have : (0 : K) < (n : K) := by exact_mod_cast (by omega : (0 : Int) < n)
  exact div_neg_of_neg_of_pos (by norm_num) this

/-- The stress series is bounded when the sums of the days of the range are. -/
theorem stress_bounded (ctx : Context K) (exp : K → K) (m m' : PMCData K)
    (hstale : m.isstale = true) (hr : refresh ctx exp m = pure m') (hne : 0 < m'.days_)
    (s : Int) (hs : m'.start_ = some s) (B : K)
    (hin : ∀ day : Nat, (day : Int) < m'.days_ →
      0 ≤ dayStress m'.specification_ m'.metricName_ (s + day) ctx.rides ∧
      dayStress m'.specification_ m'.metricName_ (s + day) ctx.rides ≤ B)
    (day : Nat) (hday : (day : Int) < m'.days_) :
    0 ≤ QVector.val m'.stress_ day ∧ QVector.val m'.stress_ day ≤ B := by
  by_cases h0 : day = 0
  · subst h0
    rw [stress_first_day ctx exp m m' hstale hr hne]
    have := hin 0 hne
    exact ⟨le_rfl, le_trans this.1 this.2⟩
  · rw [stress_day ctx exp m m' hstale hr hne s hs day (by omega) hday]
    exact hin day hday

/-- The load series stay in `[0, B]` when the stress series and the declared seeds do and
both decay factors lie in `[0, 1]`. -/
theorem loads_bounded (ctx : Context K) (exp : K → K) (m m' : PMCData K)
    (hstale : m.isstale = true) (hr : refresh ctx exp m = pure m') (hne : 0 < m'.days_)
    (s : Int) (hs : m'.start_ = some s) (B : K)
    (hl : 0 ≤ decay exp m'.ltsDays_ ∧ decay exp m'.ltsDays_ ≤ 1)
    (hst : 0 ≤ decay exp m'.stsDays_ ∧ decay exp m'.stsDays_ ≤ 1)
    (hseeds : ∀ x ∈ ctx.seasons, x.seed ≠ 0 → 0 < x.seed ∧ ((x.seed : Int) : K) ≤ B)
    (hx : ∀ day : Nat, (day : Int) < m'.days_ →
      0 ≤ QVector.val m'.stress_ day ∧ QVector.val m'.stress_ day ≤ B)
    (day : Nat) (hday : (day : Int) < m'.days_) :
    (0 ≤ QVector.val m'.lts_ day ∧ QVector.val m'.lts_ day ≤ B) ∧
    (0 ≤ QVector.val m'.sts_ day ∧ QVector.val m'.sts_ day ≤ B) := by
  have hB : (0 : K) ≤ B := le_trans (hx 0 hne).1 (hx 0 hne).2
  induction day with
  | zero =>
    obtain ⟨h1, h2⟩ := load_day ctx exp m m' hstale hr hne s hs 0 hday
    by_cases hc : ∃ M, seedFor (s + ((0 : Nat) : Int)) ctx.seasons = some M ∧ 0 < M
    · rw [if_pos hc] at h1 h2
      obtain ⟨M, hM, hpos⟩ := hc
      obtain ⟨y, hy, hy0, _, hyM⟩ := seedFor_mem _ _ M hM
      have hb := (hseeds y hy hy0).2
      rw [hyM] at hb
      have hM0 : (0 : K) ≤ ((M : Int) : K) := by exact_mod_cast le_of_lt hpos
      rw [hM] at h1 h2
      simp only [Option.getD_some] at h1 h2
      rw [h1, h2]
      exact ⟨⟨hM0, hb⟩, ⟨hM0, hb⟩⟩
    · rw [if_neg hc, if_pos rfl] at h1 h2
      rw [h1, h2]
      exact ⟨mix_bounded _ _ _ B hl.1 hl.2 (hx 0 hday).1 (hx 0 hday).2 le_rfl hB,
        mix_bounded _ _ _ B hst.1 hst.2 (hx 0 hday).1 (hx 0 hday).2 le_rfl hB⟩
  | succ k ih =>
    obtain ⟨i1, i2⟩ := ih (by omega)
    obtain ⟨h1, h2⟩ := load_day ctx exp m m' hstale hr hne s hs (k + 1) hday
    by_cases hc : ∃ M, seedFor (s + ((k + 1 : Nat) : Int)) ctx.seasons = some M ∧ 0 < M
    · rw [if_pos hc] at h1 h2
      obtain ⟨M, hM, hpos⟩ := hc
      obtain ⟨y, hy, hy0, _, hyM⟩ := seedFor_mem _ _ M hM
      have hb := (hseeds y hy hy0).2
      rw [hyM] at hb
      have hM0 : (0 : K) ≤ ((M : Int) : K) := by exact_mod_cast le_of_lt hpos
      rw [hM] at h1 h2
      simp only [Option.getD_some] at h1 h2
      rw [h1, h2]
      exact ⟨⟨hM0, hb⟩, ⟨hM0, hb⟩⟩
    · rw [if_neg hc, if_neg (by omega)] at h1 h2
      simp only [Nat.add_sub_cancel] at h1 h2
      rw [h1, h2]
      exact ⟨mix_bounded _ _ _ B hl.1 hl.2 (hx _ hday).1 (hx _ hday).2 i1.1 i1.2,
        mix_bounded _ _ _ B hst.1 hst.2 (hx _ hday).1 (hx _ hday).2 i2.1 i2.2⟩

end Bounded

/-- Counterexample to C21 as stated, in binary64, the arithmetic of the code. One season with
seed 31 on 2015-01-01, two rides worth `B = 31.000000000000004` on the two following days,
both constants `1` (decay factor `exp(-1.0) = 0.36787944117144233`): every seed lies in
`(0, B]` and every value of the stress series in `[0, B]`, yet after `refresh` the long-term
and the short-term load of the third day are `31.000000000000007`, above `B`: the rounding of
the sum `B*(1-a) + previous*a` goes up. -/
theorem C21_counterexample :
    refresh exOvershoot exExp64 (exModel64 1 1) = pure exOvershootDone ∧
    exOvershootDone.days_ = 368 ∧
    exOvershootDone.ltsDays_ = 1 ∧ exOvershootDone.stsDays_ = 1 ∧
    exExp64 (-1 / ((1 : Int) : Binary64)) = Binary64.dyadic 828390857088487 (-51) ∧
    (0 < exExp64 (-1 / ((1 : Int) : Binary64)) ∧ exExp64 (-1 / ((1 : Int) : Binary64)) < 1) ∧
    (∀ x ∈ exOvershoot.seasons, x.seed ≠ 0 →
      0 < x.seed ∧ ((x.seed : Int) : Binary64) ≤ exPeak) ∧
    (∀ day : Nat, day < 368 →
      0 ≤ QVector.val exOvershootDone.stress_ day ∧
      QVector.val exOvershootDone.stress_ day ≤ exPeak) ∧
    value (lts exOvershoot exExp64 (exModel64 1 1) (some (exDay + 2)))
      = pure (Binary64.dyadic 4362862139015169 (-47)) ∧
    value (sts exOvershoot exExp64 (exModel64 1 1) (some (exDay + 2)))
      = pure (Binary64.dyadic 4362862139015169 (-47)) ∧
    exPeak < Binary64.dyadic 4362862139015169 (-47) := by
  have hne : 0 < exOvershootDone.days_ := by decide
  have q := queries_in_range exOvershoot exExp64 (exModel64 1 1) _ rfl exOvershoot_refresh hne
    exDay (exDay + 2) rfl (by decide) (by decide)
  have e2 : (exDay + 2 - exDay).toNat = 2 := by decide
  rw [e2, exOvershoot_loads.1, exOvershoot_loads.2] at q
  refine ⟨exOvershoot_refresh, by decide, rfl, rfl, by decide, by decide, ?_, exOvershoot_stress,
    q.1, q.2.1, by decide⟩
  intro x hx _
  simp [exOvershoot] at hx
  subst hx
  decide

/-- C21, amended. In exact arithmetic (an ordered field, no rounding) the load series are
bounded by their inputs. For a stale model on which `refresh` returns a non-empty range, with
effective constants `ltsDays_ ≥ 1` and `stsDays_ ≥ 1` and an `exp` whose values on the
negative numbers lie strictly between 0 and 1: both decay factors `exp(-1/ltsDays_)` and
`exp(-1/stsDays_)` lie strictly between 0 and 1, and when every declared seed lies in
`(0, B]` and the aggregated stress of every day of the range lies in `[0, B]` (as the sum of
the rides of the day, or as the value the stress series holds), `0 ≤ lts_[day] ≤ B` and
`0 ≤ sts_[day] ≤ B` for every `0 ≤ day < days_`. -/
theorem C21_loads_bounded {K : Type} [LinearOrderedField K]
    (ctx : Context K) (exp : K → K) (m m' : PMCData K)
    (hstale : m.isstale = true) (hr : refresh ctx exp m = pure m') (hne : 0 < m'.days_)
    (s : Int) (hs : m'.start_ = some s)
    (hL : 1 ≤ m'.ltsDays_) (hS : 1 ≤ m'.stsDays_)
    (hexp : ∀ x : K, x < 0 → 0 < exp x ∧ exp x < 1) (B : K)
    (hseeds : ∀ x ∈ ctx.seasons, x.seed ≠ 0 → 0 < x.seed ∧ ((x.seed : Int) : K) ≤ B) :
    (0 < exp (-1 / ((m'.ltsDays_ : Int) : K)) ∧ exp (-1 / ((m'.ltsDays_ : Int) : K)) < 1) ∧
    (0 < exp (-1 / ((m'.stsDays_ : Int) : K)) ∧ exp (-1 / ((m'.stsDays_ : Int) : K)) < 1) ∧
    ((∀ day : Nat, (day : Int) < m'.days_ →
        0 ≤ dayStress m'.specification_ m'.metricName_ (s + day) ctx.rides ∧
        dayStress m'.specification_ m'.metricName_ (s + day) ctx.rides ≤ B) →
      ∀ day : Nat, (day : Int) < m'.days_ →
        (0 ≤ QVector.val m'.lts_ day ∧ QVector.val m'.lts_ day ≤ B) ∧
        (0 ≤ QVector.val m'.sts_ day ∧ QVector.val m'.sts_ day ≤ B)) ∧
    ((∀ day : Nat, (day : Int) < m'.days_ →
        0 ≤ QVector.val m'.stress_ day ∧ QVector.val m'.stress_ day ≤ B) →
      ∀ day : Nat, (day : Int) < m'.days_ →
        (0 ≤ QVector.val m'.lts_ day ∧ QVector.val m'.lts_ day ≤ B) ∧
        (0 ≤ QVector.val m'.sts_ day ∧ QVector.val m'.sts_ day ≤ B)) := by
  have dl := decay_unit exp hexp m'.ltsDays_ hL
  have ds := decay_unit exp hexp m'.stsDays_ hS
  refine ⟨?_, ?_, ?_, ?_⟩
  · rw [← decay_eq exp _ hL]; exact dl
  · rw [← decay_eq exp _ hS]; exact ds
  · intro hin day hday
    exact loads_bounded ctx exp m m' hstale hr hne s hs B ⟨le_of_lt dl.1, le_of_lt dl.2⟩
      ⟨le_of_lt ds.1, le_of_lt ds.2⟩ hseeds
      (fun d hd => stress_bounded ctx exp m m' hstale hr hne s hs B hin d hd) day hday
  · intro hx day hday
    exact loads_bounded ctx exp m m' hstale hr hne s hs B ⟨le_of_lt dl.1, le_of_lt dl.2⟩
      ⟨le_of_lt ds.1, le_of_lt ds.2⟩ hseeds hx day hday

/-- Witness of C21, amended: one ride worth 50 on 2015-01-01 and a season with seed 5 ten days
later, constants 42 and 7, bound `B = 50`, in exact rational arithmetic; the loads of the
seed day lie in `[0, 50]`. -/
theorem C21_loads_bounded_witness :
    refresh exRideThenSeed exExp exModel = pure exRideThenSeedDone ∧
    (0 ≤ QVector.val exRideThenSeedDone.lts_ 10 ∧ QVector.val exRideThenSeedDone.lts_ 10 ≤ 50) ∧
    (0 ≤ QVector.val exRideThenSeedDone.sts_ 10 ∧ QVector.val exRideThenSeedDone.sts_ 10 ≤ 50) :=
  ⟨exRideThenSeed_refresh,
    (C21_loads_bounded exRideThenSeed exExp exModel exRideThenSeedDone rfl
      exRideThenSeed_refresh (by decide) exDay rfl (by decide) (by decide)
      (by intro x _; simp only [exExp]; norm_num) 50
      (by intro x hx _; simp [exRideThenSeed, exContext] at hx; subst hx; norm_num)).2.2.1
      (by
        intro day _
        simp only [dayStress, rideStress, exRideThenSeed, exContext, exRide, List.map_cons,
          List.map_nil, List.sum_cons, List.sum_nil]
        split_ifs <;> norm_num)
      10 (by decide)⟩

end PMC
